import Mathlib

/-!
# RAPTOR integrator: a verification development

Shallow embedding of `src/integrator.c`.  A C `double` is read as an element of
an ordered field (exact arithmetic), a `double complex` as a complex number.
Arrays of fixed length `n` are functions on `Fin n`; the 8-component ray state
`y` holds the position in slots 0..3 and the wave vector in slots 4..7.
-/

namespace Raptor

/-! ## Index helpers for the 8-component state -/

section Geodesic

variable {α : Type}

/-- Slots `y[0..3]` of a state: the position `X_u`. -/
def pos (y : Fin 8 → α) (i : Fin 4) : α := y ⟨i.val, by omega⟩

/-- Slots `y[4..7]` of a state (`y[i + DIM]`): the wave vector `U_u`. -/
def vel (y : Fin 8 → α) (i : Fin 4) : α := y ⟨i.val + 4, by omega⟩

/-- The state whose slots `i` are `x i` and whose slots `i + DIM` are `v i`. -/
def join (x v : Fin 4 → α) : Fin 8 → α :=
  fun n => if h : n.val < 4 then x ⟨n.val, h⟩ else v ⟨n.val - 4, by omega⟩

/-! ## Stepper primitives -/

/-- Local arrays of the stage loop of `rk4_step`: `dx[q * 8 + i]` and `yshift[i]`. -/
structure RKState (α : Type) where
  dx : Fin 4 → Fin 8 → α
  yshift : Fin 8 → α

/-- The array `weights[4] = {0.5, 0.5, 1., 0.}` of `rk4_step`. -/
def rk4_weights [LinearOrderedField α] : Fin 4 → α := ![0.5, 0.5, 1, 0]

/-- One pass `q` of the stage loop of `rk4_step`:
`f(yshift, fvector)`, then for every `i`
`dx[q*8+i] = dt * fvector[i]` and `yshift[i] = y[i] + dx[q*8+i] * weights[q]`. -/
def rk4_stage [LinearOrderedField α] (f : (Fin 8 → α) → Fin 8 → α) (y : Fin 8 → α) (dt : α)
    (s : RKState α) (q : Fin 4) : RKState α :=
  let fvector := f s.yshift
  let dx : Fin 4 → Fin 8 → α := fun q' i => if q' = q then dt * fvector i else s.dx q' i
  { dx := dx
    yshift := fun i => y i + dx q i * rk4_weights q }

/-- The function `rk4_step(y, f, dt)`: the new contents of `y`. -/
def rk4_step [LinearOrderedField α] (f : (Fin 8 → α) → Fin 8 → α) (y : Fin 8 → α) (dt : α) : Fin 8 → α :=
  let s := (List.finRange 4).foldl (rk4_stage f y dt) ⟨fun _ _ => 0, y⟩
  fun i => y i + 1 / 6 * (s.dx 0 i + s.dx 1 i * 2 + s.dx 2 i * 2 + s.dx 3 i)

/-- The function `verlet_step(y, f, dl)`: the new contents of `y`. -/
def verlet_step [LinearOrderedField α] (f : (Fin 8 → α) → Fin 8 → α) (y : Fin 8 → α) (dl : α) : Fin 8 → α :=
  let yshift := y
  -- Step 1
  let fvector := f yshift
  -- Step 2
  let yshift2 : Fin 8 → α :=
    join (fun i => pos yshift i + (dl * vel yshift i + 0.5 * dl * dl * vel fvector i))
         (fun i => vel yshift i + vel fvector i * dl)
  let A_u_temp : Fin 4 → α := fun i => vel fvector i
  -- Step 3
  let fvector2 := f yshift2
  -- Step 4
  join (fun i => pos yshift2 i)
       (fun i => vel y i + 0.5 * (A_u_temp i + vel fvector2 i) * dl)

/-- The constant `M_PI` of `definitions.h`. -/
def M_PI [LinearOrderedField α] : α := 3.14159265358979323846

/-- The function `stepsize(X_u, U_u)`; `STEPSIZE` is the global read from the model file. -/
def stepsize [LinearOrderedField α] (STEPSIZE : α) (X_u U_u : Fin 4 → α) : α :=
  let SMALL : α := 1e-40
  let dlx1 := STEPSIZE / (|U_u 1| + SMALL * SMALL)
  let dlx2 := STEPSIZE * min (X_u 2) (M_PI - X_u 2) / (|U_u 2| + SMALL * SMALL)
  let dlx3 := STEPSIZE / (|U_u 3| + SMALL * SMALL)
  let idlx1 := 1 / (|dlx1| + SMALL * SMALL)
  let idlx2 := 1 / (|dlx2| + SMALL * SMALL)
  let idlx3 := 1 / (|dlx3| + SMALL * SMALL)
  (-1) / (idlx1 + idlx2 + idlx3)

/-- The function `f_geodesic(y, fvector)`: the contents of `fvector`.  The external
`connection_udd(X_u, gamma_udd)` is the parameter `connection_udd`; the loop
`LOOP_ijk A_u[i] -= gamma_udd[i][j][k] * U_u[j] * U_u[k]` starts from `A_u[i] = 0`. -/
def f_geodesic [LinearOrderedField α] (connection_udd : (Fin 4 → α) → Fin 4 → Fin 4 → Fin 4 → α)
    (y : Fin 8 → α) : Fin 8 → α :=
  let X_u := pos y
  let U_u := vel y
  let gamma_udd := connection_udd X_u
  let A_u : Fin 4 → α := fun i =>
    (List.finRange 4).foldl
      (fun a j => (List.finRange 4).foldl
        (fun a k => a - gamma_udd i j k * U_u j * U_u k) a) 0
  join U_u A_u

/-! ## Geodesic tracer -/

/-- The two values of `int_method` for which `integrate_geodesic` has a branch. -/
inductive IntMethod where
  | RK4
  | VER
  deriving DecidableEq, Repr

/-- The two variants of the loop head of `integrate_geodesic`:
`metric == BL || MBL || DM` and `metric == KS || MKS || MKS2`. -/
inductive MetricKind where
  | BLlike
  | KSlike
  deriving DecidableEq, Repr

/-- Build-time and global configuration read by `integrate_geodesic`, together with the
external functions it calls (`exp`, `connection_udd`, `initialize_photon`). -/
structure Setup (α : Type) where
  STEPSIZE : α
  cutoff_outer : α
  max_steps : ℕ
  max_order : ℤ
  logscale : Bool
  metric : MetricKind
  int_method : IntMethod
  exp : α → α
  connection_udd : (Fin 4 → α) → Fin 4 → Fin 4 → Fin 4 → α
  initialize_photon : α → α → (Fin 8 → α) → α → (Fin 8 → α)

/-- Variables of `integrate_geodesic` that live across loop passes. -/
structure TraceState (α : Type) where
  photon_u : Fin 8 → α
  lightpath : ℕ → α
  steps : ℕ
  theta_turns : ℕ
  thetadot_prev : α
  TERMINATE : Bool
  lambda : α
  r_current : α

/-- The expression `logscale ? exp(photon_u[1]) : photon_u[1]`. -/
def radius [LinearOrderedField α] (c : Setup α) (photon_u : Fin 8 → α) : α :=
  if c.logscale then c.exp (photon_u 1) else photon_u 1

/-- The loop condition of `integrate_geodesic`, in the order of each variant. -/
def loop_cond [LinearOrderedField α] (c : Setup α) (cutoff_inner : α) (s : TraceState α) : Bool :=
  match c.metric with
  | .BLlike =>
    decide (s.r_current > cutoff_inner) && decide (s.r_current < c.cutoff_outer) &&
      decide (s.steps < c.max_steps) && !s.TERMINATE
  | .KSlike =>
    decide (s.r_current < c.cutoff_outer) && decide (s.r_current > cutoff_inner) &&
      decide (s.steps < c.max_steps) && !s.TERMINATE

/-- The chosen stepper call: `rk4_step(photon_u, &f_geodesic, dl)` or
`verlet_step(photon_u, &f_geodesic, dl)`. -/
def advance_ray [LinearOrderedField α] (c : Setup α) (photon_u : Fin 8 → α) (dl : α) :
    Fin 8 → α :=
  match c.int_method with
  | .RK4 => rk4_step (f_geodesic c.connection_udd) photon_u dl
  | .VER => verlet_step (f_geodesic c.connection_udd) photon_u dl

/-- One pass of the loop body of `integrate_geodesic`. -/
def trace_body [LinearOrderedField α] (c : Setup α) (beta : α) (s : TraceState α) :
    TraceState α :=
  let X_u := pos s.photon_u
  let k_u := vel s.photon_u
  let theta_turns :=
    if s.thetadot_prev * s.photon_u 6 < 0 ∧ s.steps > 2 then s.theta_turns + 1
    else s.theta_turns
  let thetadot_prev := s.photon_u 6
  let TERMINATE :=
    if (beta < 0 ∧ (theta_turns : ℤ) > c.max_order) ∨
        (beta > 0 ∧ (theta_turns : ℤ) > c.max_order + 1) then true
    else s.TERMINATE
  let dlambda_adaptive := stepsize c.STEPSIZE X_u k_u
  let lightpath : ℕ → α := fun idx =>
    if idx = s.steps * 9 + 8 then |dlambda_adaptive|
    else if h : s.steps * 9 ≤ idx ∧ idx < s.steps * 9 + 8 then
      s.photon_u ⟨idx - s.steps * 9, by omega⟩
    else s.lightpath idx
  let photon_u := advance_ray c s.photon_u dlambda_adaptive
  { photon_u := photon_u
    lightpath := lightpath
    steps := s.steps + 1
    theta_turns := theta_turns
    thetadot_prev := thetadot_prev
    TERMINATE := TERMINATE
    lambda := s.lambda + |dlambda_adaptive|
    r_current := radius c photon_u }

/-- The `while` loop of `integrate_geodesic`, with an explicit bound on the number of passes. -/
def trace_loop [LinearOrderedField α] (c : Setup α) (beta cutoff_inner : α) :
    ℕ → TraceState α → TraceState α
  | 0, s => s
  | fuel + 1, s =>
    if loop_cond c cutoff_inner s then trace_loop c beta cutoff_inner fuel (trace_body c beta s)
    else s

/-- The function `integrate_geodesic(alpha, beta, photon_u, lightpath, steps, cutoff_inner)`.
`photon_u` and `lightpath` are the caller's buffers on entry, `thetadot_garbage` is the
indeterminate initial value of the local `thetadot_prev`.  Every pass raises `*steps` by one
and needs `*steps < max_steps`, so `max_steps` passes are enough. -/
def integrate_geodesic [LinearOrderedField α] (c : Setup α) (alpha beta : α)
    (photon_u : Fin 8 → α) (lightpath : ℕ → α) (cutoff_inner thetadot_garbage : α) :
    TraceState α :=
  let t_init : α := 0
  let photon_u := c.initialize_photon alpha beta photon_u t_init
  trace_loop c beta cutoff_inner c.max_steps
    { photon_u := photon_u
      lightpath := lightpath
      steps := 0
      theta_turns := 0
      thetadot_prev := thetadot_garbage
      TERMINATE := false
      lambda := 0
      r_current := radius c photon_u }

/-- The state after `n` stepper calls from `y0`, each with the step `stepsize` gives there. -/
def ray [LinearOrderedField α] (c : Setup α) (y0 : Fin 8 → α) : ℕ → Fin 8 → α
  | 0 => y0
  | n + 1 =>
    advance_ray c (ray c y0 n) (stepsize c.STEPSIZE (pos (ray c y0 n)) (vel (ray c y0 n)))

/-- The path buffer holds the first `s.steps` states of `ray` with the magnitude of the step
taken from each, and `photon_u` is the next state of `ray`. -/
def Recorded [LinearOrderedField α] (c : Setup α) (y0 : Fin 8 → α) (s : TraceState α) : Prop :=
  s.photon_u = ray c y0 s.steps ∧
    ∀ n, n < s.steps →
      (∀ q : Fin 8, s.lightpath (n * 9 + q.val) = ray c y0 n q) ∧
        s.lightpath (n * 9 + 8) =
          |stepsize c.STEPSIZE (pos (ray c y0 n)) (vel (ray c y0 n))|

/-- A flat-spacetime configuration over the rationals: zero connection, one RK4 step allowed,
a photon starting at radius 10 and moving inward. -/
def flatSetup : Setup ℚ where
  STEPSIZE := 1
  cutoff_outer := 100
  max_steps := 1
  max_order := 100
  logscale := false
  metric := MetricKind.BLlike
  int_method := IntMethod.RK4
  exp := fun x => x
  connection_udd := fun _ _ _ _ => 0
  initialize_photon := fun _ _ _ _ => ![0, 10, 1, 0, 1, -1, 0, 0]

/-- Number of indices `1 ≤ n < N` with `U²_{n-1} · U²_n < 0`: the sign flips of `U²` between
consecutive samples among the first `N`. -/
def sign_flips [LinearOrderedField α] (U2 : ℕ → α) (N : ℕ) : ℕ :=
  ((Finset.range N).filter (fun n => 1 ≤ n ∧ U2 (n - 1) * U2 n < 0)).card

/-- Number of indices `3 ≤ n < N` with `U²_{n-1} · U²_n < 0`: the sign flips that the guard
`*steps > 2` of `integrate_geodesic` lets through. -/
def counted_flips [LinearOrderedField α] (U2 : ℕ → α) (N : ℕ) : ℕ :=
  ((Finset.range N).filter (fun n => 3 ≤ n ∧ U2 (n - 1) * U2 n < 0)).card

/-- The three values that the connection component `Γ²₀₀` of `cull_connection` takes along
`X⁰`: `-1.2·10⁸¹` for `X⁰ > -10⁻⁸⁰/6`, `0` down to `-10⁻⁸⁰/2`, and `1.2·10⁸¹` below. -/
def cull_gamma (x : ℚ) : ℚ :=
  if x > -(1e-80 / 6) then -12e80 else if x > -(1e-80 / 2) then 0 else 12e80

/-- A connection whose only non-zero component is `Γ²₀₀(X) = cull_gamma (X⁰)`. -/
def cull_connection (X : Fin 4 → ℚ) (i j k : Fin 4) : ℚ :=
  if i = 2 ∧ j = 0 ∧ k = 0 then cull_gamma (X 0) else 0

/-- A configuration over the rationals in which `U²` changes sign at samples 1 and 2:
`STEPSIZE = 0` (every step is `-10⁻⁸⁰/3`), three Verlet steps allowed, `max_order = 0`, the
connection `cull_connection`, and a photon starting at `X = (0, 10, 1, 0)` with
`U = (1, 0, 1, 0)`. -/
def cullSetup : Setup ℚ where
  STEPSIZE := 0
  cutoff_outer := 100
  max_steps := 3
  max_order := 0
  logscale := false
  metric := MetricKind.BLlike
  int_method := IntMethod.VER
  exp := fun x => x
  connection_udd := cull_connection
  initialize_photon := fun _ _ _ _ => ![0, 10, 1, 0, 1, 0, 1, 0]

/-- Loop invariant of `integrate_geodesic` for the order culling: `theta_turns` counts the
sign flips of `U²` at the samples `3 ≤ n < steps` of `ray`, `thetadot_prev` is `U²` of the
previous sample, and the counter is within the culling thresholds (by one more once
`TERMINATE` is set). -/
def TurnsInv [LinearOrderedField α] (c : Setup α) (beta : α) (y0 : Fin 8 → α)
    (s : TraceState α) : Prop :=
  s.photon_u = ray c y0 s.steps ∧
    (1 ≤ s.steps → s.thetadot_prev = ray c y0 (s.steps - 1) 6) ∧
    s.theta_turns = counted_flips (fun n => ray c y0 n 6) s.steps ∧
    (s.TERMINATE = false →
      (beta < 0 → (s.theta_turns : ℤ) ≤ c.max_order) ∧
        (beta > 0 → (s.theta_turns : ℤ) ≤ c.max_order + 1)) ∧
    (beta < 0 → (s.theta_turns : ℤ) ≤ c.max_order + 1) ∧
    (beta > 0 → (s.theta_turns : ℤ) ≤ c.max_order + 2)

/-- The flat-spacetime configuration `flatSetup` with three RK4 steps allowed. -/
def flatSetup3 : Setup ℚ := { flatSetup with max_steps := 3 }

end Geodesic

/-! ## Polarized transfer: Stokes and Jones vectors, stiffness detector, transfer steppers

From here on a `double` is a real number and a `double complex` a complex number.
A `double` used where a `double complex` is expected is coerced; a `double complex`
assigned to a `double` keeps its real part. -/

noncomputable section Transfer

open Complex

/-- Modelled from the spec: the meaning of `sqrt` on a `double complex` operand.  The headers
that declare `sqrt` (`functions.h`, `parameters.h`, `constants.h`) are not part of the sources;
the spec (§4.8, §9) reads these calls as the complex square root, taken here on its principal
branch. -/
def csqrt (z : ℂ) : ℂ := z ^ (1 / 2 : ℂ)

/-- The function `f_tetrad_to_stokes(Iinv, Iinv_pol, f_tetrad_u, S_A)`: the contents of `S_A`. -/
def f_tetrad_to_stokes (Iinv Iinv_pol : ℝ) (f_tetrad_u : Fin 4 → ℂ) : Fin 4 → ℂ :=
  ![(Iinv : ℂ),
    Iinv_pol * (Complex.abs (f_tetrad_u 1) * Complex.abs (f_tetrad_u 1) -
                Complex.abs (f_tetrad_u 2) * Complex.abs (f_tetrad_u 2)),
    Iinv_pol * ((starRingEnd ℂ) (f_tetrad_u 1) * f_tetrad_u 2 +
                f_tetrad_u 1 * (starRingEnd ℂ) (f_tetrad_u 2)),
    Iinv_pol * (I * ((starRingEnd ℂ) (f_tetrad_u 1) * f_tetrad_u 2 -
                     f_tetrad_u 1 * (starRingEnd ℂ) (f_tetrad_u 2)))]

/-- Values written by `stokes_to_f_tetrad`. -/
structure JonesOut where
  Iinv : ℝ
  Iinv_pol : ℝ
  f_tetrad_u : Fin 4 → ℂ

/-- The function `stokes_to_f_tetrad(S_A, Iinv, Iinv_pol, f_tetrad_u)`; the argument
`f_tetrad_u` is the array on entry, of which only slots 1 and 2 are assigned. -/
def stokes_to_f_tetrad (S_A : Fin 4 → ℂ) (f_tetrad_u : Fin 4 → ℂ) : JonesOut :=
  let Iinv : ℝ := (S_A 0).re
  let Iinv_pol : ℝ := (csqrt (S_A 1 * S_A 1 + S_A 2 * S_A 2 + S_A 3 * S_A 3)).re
  let Qnorm : ℝ := (S_A 1 / Iinv_pol).re
  let Unorm : ℝ := (S_A 2 / Iinv_pol).re
  let Vnorm : ℝ := (S_A 3 / Iinv_pol).re
  let f1 : ℂ := (Real.sqrt ((1 + Qnorm) / 2) : ℝ)
  let f2 : ℂ :=
    if f1 = 0 then 1
    else Unorm / (2 * f1) - I * Vnorm / (2 * f1)
  { Iinv := Iinv
    Iinv_pol := Iinv_pol
    f_tetrad_u := fun i => if i = 1 then f1 else if i = 2 then f2 else f_tetrad_u i }

/-- The function `f_tetrad_to_f(f_u, tetrad_u, f_tetrad_u)`: the contents of `f_u`. -/
def f_tetrad_to_f (tetrad_u : Fin 4 → Fin 4 → ℝ) (f_tetrad_u : Fin 4 → ℂ) : Fin 4 → ℂ :=
  fun i => (List.finRange 4).foldl (fun a j => a + tetrad_u i j * f_tetrad_u j) 0

/-- The function `f_to_f_tetrad(f_tetrad_u, tetrad_d, f_u)`: the contents of `f_tetrad_u`. -/
def f_to_f_tetrad (tetrad_d : Fin 4 → Fin 4 → ℝ) (f_u : Fin 4 → ℂ) : Fin 4 → ℂ :=
  fun i => (List.finRange 4).foldl (fun a j => a + tetrad_d j i * f_u j) 0

/-- The truncated exponential `1 + tau + 0.5 tau² + 1/6 tau³ + 1/24 tau⁴` that
`check_stiffness` forms for each `tau`. -/
def stiff_mag (tau : ℂ) : ℂ :=
  1 + tau + 0.5 * tau * tau + 1 / 6 * tau * tau * tau + 1 / 24 * tau * tau * tau * tau

/-- The function `check_stiffness`. -/
def check_stiffness (jI jQ jU jV rQ rU rV aI aQ aU aV dl_current : ℝ) : ℤ :=
  let a2 : ℝ := rQ * rQ + rV * rV - aQ * aQ - aV * aV
  let a0 : ℝ := -2 * aV * aQ * rV * rQ - aQ * aQ * rQ * rQ - aV * aV * rV * rV
  let zplus : ℂ := ((-a2 + Real.sqrt (a2 * a2 - 4 * a0)) / 2 : ℝ)
  let zminus : ℂ := ((-a2 - Real.sqrt (a2 * a2 - 4 * a0)) / 2 : ℝ)
  let l1 : ℂ := aI + csqrt zplus
  let l2 : ℂ := aI - csqrt zplus
  let l3 : ℂ := aI + csqrt zminus
  let l4 : ℂ := aI - csqrt zminus
  let tau1 : ℂ := dl_current * l1
  let tau2 : ℂ := dl_current * l2
  let tau3 : ℂ := dl_current * l3
  let tau4 : ℂ := dl_current * l4
  let mag1 : ℂ := stiff_mag tau1
  let mag2 : ℂ := stiff_mag tau2
  let mag3 : ℂ := stiff_mag tau3
  let mag4 : ℂ := stiff_mag tau4
  let res1 : ℝ := (csqrt (mag1 * (starRingEnd ℂ) mag1)).re
  let res2 : ℝ := (csqrt (mag2 * (starRingEnd ℂ) mag2)).re
  let res3 : ℝ := (csqrt (mag3 * (starRingEnd ℂ) mag3)).re
  let res4 : ℝ := (csqrt (mag4 * (starRingEnd ℂ) mag4)).re
  let STIFFTHRESH : ℝ := 0.99
  if res1 > STIFFTHRESH ∨ res2 > STIFFTHRESH ∨ res3 > STIFFTHRESH ∨ res4 > STIFFTHRESH then 1
  else 0

/-- The function `pol_rte_rk4_step`: the contents of `S_A` on return. -/
def pol_rte_rk4_step (jI jQ jU jV rQ rU rV aI aQ aU aV dl_current C : ℝ)
    (S_A : Fin 4 → ℂ) : Fin 4 → ℂ :=
  let I0 : ℂ := S_A 0
  let Q0 : ℂ := S_A 1
  let U0 : ℂ := S_A 2
  let V0 : ℂ := S_A 3
  let Ik1 : ℂ := dl_current * C * jI -
    dl_current * C * (aI * I0 + aQ * Q0 + aU * U0 + aV * V0)
  let Qk1 : ℂ := dl_current * C * jQ -
    dl_current * C * (aQ * I0 + aI * Q0 + rV * U0 - rU * V0)
  let Uk1 : ℂ := dl_current * C * jU -
    dl_current * C * (aU * I0 - rV * Q0 + aI * U0 + rQ * V0)
  let Vk1 : ℂ := dl_current * C * jV -
    dl_current * C * (aV * I0 + rU * Q0 - rQ * U0 + aI * V0)
  let Ik2 : ℂ := dl_current * C * jI -
    dl_current * C * (aI * (I0 + 0.5 * Ik1) + aQ * (Q0 + 0.5 * Qk1) + aU * (U0 + 0.5 * Uk1) + aV * (V0 + 0.5 * Vk1))
  let Qk2 : ℂ := dl_current * C * jQ -
    dl_current * C * (aQ * (I0 + 0.5 * Ik1) + aI * (Q0 + 0.5 * Qk1) + rV * (U0 + 0.5 * Uk1) - rU * (V0 + 0.5 * Vk1))
  let Uk2 : ℂ := dl_current * C * jU -
    dl_current * C * (aU * (I0 + 0.5 * Ik1) - rV * (Q0 + 0.5 * Qk1) + aI * (U0 + 0.5 * Uk1) + rQ * (V0 + 0.5 * Vk1))
  let Vk2 : ℂ := dl_current * C * jV -
    dl_current * C * (aV * (I0 + 0.5 * Ik1) + rU * (Q0 + 0.5 * Qk1) - rQ * (U0 + 0.5 * Uk1) + aI * (V0 + 0.5 * Vk1))
  let Ik3 : ℂ := dl_current * C * jI -
    dl_current * C * (aI * (I0 + 0.5 * Ik2) + aQ * (Q0 + 0.5 * Qk2) + aU * (U0 + 0.5 * Uk2) + aV * (V0 + 0.5 * Vk2))
  let Qk3 : ℂ := dl_current * C * jQ -
    dl_current * C * (aQ * (I0 + 0.5 * Ik2) + aI * (Q0 + 0.5 * Qk2) + rV * (U0 + 0.5 * Uk2) - rU * (V0 + 0.5 * Vk2))
  let Uk3 : ℂ := dl_current * C * jU -
    dl_current * C * (aU * (I0 + 0.5 * Ik2) - rV * (Q0 + 0.5 * Qk2) + aI * (U0 + 0.5 * Uk2) + rQ * (V0 + 0.5 * Vk2))
  let Vk3 : ℂ := dl_current * C * jV -
    dl_current * C * (aV * (I0 + 0.5 * Ik2) + rU * (Q0 + 0.5 * Qk2) - rQ * (U0 + 0.5 * Uk2) + aI * (V0 + 0.5 * Vk2))
  let Ik4 : ℂ := dl_current * C * jI -
    dl_current * C * (aI * (I0 + Ik3) + aQ * (Q0 + Qk3) + aU * (U0 + Uk3) + aV * (V0 + Vk3))
  let Qk4 : ℂ := dl_current * C * jQ -
    dl_current * C * (aQ * (I0 + Ik3) + aI * (Q0 + Qk3) + rV * (U0 + Uk3) - rU * (V0 + Vk3))
  let Uk4 : ℂ := dl_current * C * jU -
    dl_current * C * (aU * (I0 + Ik3) - rV * (Q0 + Qk3) + aI * (U0 + Uk3) + rQ * (V0 + Vk3))
  let Vk4 : ℂ := dl_current * C * jV -
    dl_current * C * (aV * (I0 + Ik3) + rU * (Q0 + Qk3) - rQ * (U0 + Uk3) + aI * (V0 + Vk3))
  ![I0 + 1 / 6 * (Ik1 + 2 * Ik2 + 2 * Ik3 + Ik4),
    Q0 + 1 / 6 * (Qk1 + 2 * Qk2 + 2 * Qk3 + Qk4),
    U0 + 1 / 6 * (Uk1 + 2 * Uk2 + 2 * Uk3 + Uk4),
    V0 + 1 / 6 * (Vk1 + 2 * Vk2 + 2 * Vk3 + Vk4)]

/-- The entries of the hand-derived LU factorisation in `pol_rte_trapezoid_step`. -/
structure LUEntries where
  u11 : ℝ
  u12 : ℝ
  u14 : ℝ
  l21 : ℝ
  u22 : ℝ
  u23 : ℝ
  u24 : ℝ
  l32 : ℝ
  u33 : ℝ
  u34 : ℝ
  l41 : ℝ
  l42 : ℝ
  l43 : ℝ
  u44 : ℝ

/-- The block of `pol_rte_trapezoid_step` that computes `u11 … u44`. -/
def trapezoid_lu (rQ rV aI aQ aV dl_current C : ℝ) : LUEntries :=
  let u11 := 1 + 0.5 * dl_current * C * aI
  let u12 := 0.5 * dl_current * C * aQ
  let u14 := 0.5 * dl_current * C * aV
  let l21 := 0.5 * dl_current * C * aQ / u11
  let u22 := 1 + 0.5 * dl_current * C * aI - l21 * u12
  let u23 := 0.5 * dl_current * C * rV
  let u24 := -l21 * u14
  let l32 := -0.5 * dl_current * C * rV / u22
  let u33 := 1 + 0.5 * dl_current * C * aI - l32 * u23
  let u34 := 0.5 * dl_current * C * rQ - l32 * u24
  let l41 := 0.5 * dl_current * C * aV / u11
  let l42 := -l41 * u12 / u22
  let l43 := (-0.5 * dl_current * C * rQ - l42 * u23) / u33
  let u44 := 1 + 0.5 * dl_current * C * aI - l41 * u14 - l42 * u24 - l43 * u34
  { u11 := u11, u12 := u12, u14 := u14, l21 := l21, u22 := u22, u23 := u23, u24 := u24,
    l32 := l32, u33 := u33, u34 := u34, l41 := l41, l42 := l42, l43 := l43, u44 := u44 }

/-- The block "Construct b-vector" of `pol_rte_trapezoid_step`.  The right-hand sides
`b1 … b4` are `double`s, so they keep the real part of the complex expression. -/
def trapezoid_b (jI jQ jU jV rQ rV aI aQ aV dl_current C : ℝ) (S_A : Fin 4 → ℂ) :
    Fin 4 → ℝ :=
  let I0 : ℂ := S_A 0
  let Q0 : ℂ := S_A 1
  let U0 : ℂ := S_A 2
  let V0 : ℂ := S_A 3
  let b1 : ℝ := (I0 + dl_current * C / 2 * (2 * jI - (aI * I0 + aQ * Q0 + aV * V0))).re
  let b2 : ℝ := (Q0 + dl_current * C / 2 * (2 * jQ - (aQ * I0 + aI * Q0 + rV * U0))).re
  let b3 : ℝ := (U0 + dl_current * C / 2 * (2 * jU - (-rV * Q0 + aI * U0 + rQ * V0))).re
  let b4 : ℝ := (V0 + dl_current * C / 2 * (2 * jV - (aV * I0 - rQ * U0 + aI * V0))).re
  ![b1, b2, b3, b4]

/-- The blocks "Construct y" and "Construct x" of `pol_rte_trapezoid_step`: forward and back
substitution with the entries `m` on the right-hand side `b`. -/
def lu_solve (m : LUEntries) (b : Fin 4 → ℝ) : Fin 4 → ℝ :=
  let b1 := b 0
  let b2 := b 1
  let b3 := b 2
  let b4 := b 3
  -- Construct y.
  let y1 := b1
  let y2 := b2 - m.l21 * y1
  let y3 := b3 - m.l32 * y2
  let y4 := b4 - m.l41 * y1 - m.l42 * y2 - m.l43 * y3
  -- Construct x.
  let x4 := y4 / m.u44
  let x3 := (y3 - m.u34 * x4) / m.u33
  let x2 := (y2 - m.u23 * x3 - m.u24 * x4) / m.u22
  let x1 := (y1 - m.u12 * x2 - m.u14 * x4) / m.u11
  ![x1, x2, x3, x4]

/-- The function `pol_rte_trapezoid_step`: the contents of `S_A` on return. -/
def pol_rte_trapezoid_step (jI jQ jU jV rQ rU rV aI aQ aU aV dl_current C : ℝ)
    (S_A : Fin 4 → ℂ) : Fin 4 → ℂ :=
  let m := trapezoid_lu rQ rV aI aQ aV dl_current C
  let b := trapezoid_b jI jQ jU jV rQ rV aI aQ aV dl_current C S_A
  let x := lu_solve m b
  ![(x 0 : ℂ), (x 1 : ℂ), (x 2 : ℂ), (x 3 : ℂ)]

/-- The block of `pol_integration_step` that calls `check_stiffness` and then one of the two
transfer steppers: the contents of `S_A` after it. -/
def transfer_step (jI jQ jU jV rQ rU rV aI aQ aU aV dl_current C : ℝ)
    (S_A : Fin 4 → ℂ) : Fin 4 → ℂ :=
  let STIFF := check_stiffness jI jQ jU jV rQ rU rV aI aQ aU aV dl_current
  if STIFF = 0 then
    pol_rte_rk4_step jI jQ jU jV rQ rU rV aI aQ aU aV dl_current C S_A
  else
    pol_rte_trapezoid_step jI jQ jU jV rQ rU rV aI aQ aU aV dl_current C S_A

/-- The function `f_to_stokes`: the contents of `f_tetrad_u` and of `S_A` on return. -/
def f_to_stokes (f_u : Fin 4 → ℂ) (tetrad_d : Fin 4 → Fin 4 → ℝ) (Iinv Iinv_pol : ℝ) :
    (Fin 4 → ℂ) × (Fin 4 → ℂ) :=
  let f_tetrad_u := f_to_f_tetrad tetrad_d f_u
  (f_tetrad_u, f_tetrad_to_stokes Iinv Iinv_pol f_tetrad_u)

/-- The function `stokes_to_f`: the values written by `stokes_to_f_tetrad` and the contents of
`f_u` on return. -/
def stokes_to_f (f_tetrad_u : Fin 4 → ℂ) (tetrad_u : Fin 4 → Fin 4 → ℝ) (S_A : Fin 4 → ℂ) :
    JonesOut × (Fin 4 → ℂ) :=
  let out := stokes_to_f_tetrad S_A f_tetrad_u
  (out, f_tetrad_to_f tetrad_u out.f_tetrad_u)

/-- The constant `PLANCK_CONSTANT` of `definitions.h`. -/
def PLANCK_CONSTANT : ℝ := 6.62606885e-27

/-- The constant `ELECTRON_MASS` of `definitions.h`. -/
def ELECTRON_MASS : ℝ := 9.1093829e-28

/-- The constant `SPEED_OF_LIGHT` of `definitions.h`. -/
def SPEED_OF_LIGHT : ℝ := 2.99792458e10

/-- The eleven transfer coefficients written by `evaluate_coeffs`. -/
structure Coeffs where
  jI : ℝ
  jQ : ℝ
  jU : ℝ
  jV : ℝ
  rQ : ℝ
  rU : ℝ
  rV : ℝ
  aI : ℝ
  aQ : ℝ
  aU : ℝ
  aV : ℝ

/-- External functions called by the polarized transfer: the metric backend, the
coefficient closures and the tetrad constructors. -/
structure PolEnv where
  pitch_angle : (Fin 4 → ℝ) → (Fin 4 → ℝ) → (Fin 4 → ℝ) → (Fin 4 → ℝ) → ℝ
  lower_index : (Fin 4 → ℝ) → (Fin 4 → ℝ) → Fin 4 → ℝ
  freq_in_plasma_frame : (Fin 4 → ℝ) → (Fin 4 → ℝ) → ℝ
  j_I : ℝ → ℝ → ℝ → ℝ → ℝ → ℝ
  j_Q : ℝ → ℝ → ℝ → ℝ → ℝ → ℝ
  j_V : ℝ → ℝ → ℝ → ℝ → ℝ → ℝ
  rho_Q : ℝ → ℝ → ℝ → ℝ → ℝ → ℝ
  rho_V : ℝ → ℝ → ℝ → ℝ → ℝ → ℝ
  absorption_coeff_TH : ℝ → ℝ → ℝ → ℝ
  create_observer_tetrad :
    (Fin 4 → ℝ) → (Fin 4 → ℝ) → (Fin 4 → ℝ) → (Fin 4 → ℝ) → Fin 4 → Fin 4 → ℝ
  create_tetrad_d : (Fin 4 → ℝ) → (Fin 4 → Fin 4 → ℝ) → Fin 4 → Fin 4 → ℝ

/-- The function `evaluate_coeffs`: the eleven values it writes. -/
def evaluate_coeffs (e : PolEnv) (nu_p THETA_e n_e B pitch_ang : ℝ) : Coeffs :=
  let jI := e.j_I THETA_e n_e nu_p B pitch_ang
  let jQ := e.j_Q THETA_e n_e nu_p B pitch_ang
  let jU : ℝ := 0
  let jV := e.j_V THETA_e n_e nu_p B pitch_ang
  let rQ := e.rho_Q THETA_e n_e nu_p B pitch_ang
  let rU : ℝ := 0
  let rV := e.rho_V THETA_e n_e nu_p B pitch_ang
  let aI := e.absorption_coeff_TH jI nu_p THETA_e
  let aQ := e.absorption_coeff_TH jQ nu_p THETA_e
  let aU := e.absorption_coeff_TH jU nu_p THETA_e
  let aV := e.absorption_coeff_TH jV nu_p THETA_e
  -- Transform to invariant forms
  { jI := jI / (nu_p * nu_p)
    jQ := jQ / (nu_p * nu_p)
    jU := jU / (nu_p * nu_p)
    jV := jV / (nu_p * nu_p)
    aI := aI * nu_p
    aQ := aQ * nu_p
    aU := aU * nu_p
    aV := aV * nu_p
    rQ := rQ * nu_p
    rU := rU * nu_p
    rV := rV * nu_p }

/-- The variables that `pol_integration_step` reads and writes through pointers and arrays. -/
structure PolState where
  co : Coeffs
  nu_p : ℝ
  pitch_ang : ℝ
  dl_current : ℝ
  k_u : Fin 4 → ℝ
  k_d : Fin 4 → ℝ
  POLARIZATION_ACTIVE : Bool
  f_u : Fin 4 → ℂ
  f_tetrad_u : Fin 4 → ℂ
  tetrad_d : Fin 4 → Fin 4 → ℝ
  tetrad_u : Fin 4 → Fin 4 → ℝ
  S_A : Fin 4 → ℂ
  Iinv : ℝ
  Iinv_pol : ℝ

/-- The function `pol_integration_step`: the state of its pointer and array arguments on
return. -/
def pol_integration_step (e : PolEnv) (THETA_e n_e B frequency C : ℝ)
    (X_u B_u Uplasma_u : Fin 4 → ℝ) (s : PolState) : PolState :=
  -- TRANSFER STEP
  let pitch_ang := e.pitch_angle X_u s.k_u B_u Uplasma_u
  let k_u : Fin 4 → ℝ := fun i =>
    s.k_u i * (PLANCK_CONSTANT * frequency / (ELECTRON_MASS * SPEED_OF_LIGHT * SPEED_OF_LIGHT))
  let dl_current :=
    s.dl_current * ((ELECTRON_MASS * SPEED_OF_LIGHT * SPEED_OF_LIGHT) /
      (PLANCK_CONSTANT * frequency))
  let k_d := e.lower_index X_u k_u
  let nu_p := e.freq_in_plasma_frame Uplasma_u k_d
  -- POLARIZED EMISSION/ABSORPTION COEFFS
  let co := evaluate_coeffs e nu_p THETA_e n_e B pitch_ang
  let tetrad_u := e.create_observer_tetrad X_u k_u Uplasma_u B_u
  let tetrad_d := e.create_tetrad_d X_u tetrad_u
  -- FROM F VECTOR TO STOKES (when applicable)
  let fs : (Fin 4 → ℂ) × (Fin 4 → ℂ) :=
    if s.POLARIZATION_ACTIVE then f_to_stokes s.f_u tetrad_d s.Iinv s.Iinv_pol
    else (s.f_tetrad_u, s.S_A)
  let f_tetrad_u := fs.1
  let S_A := transfer_step co.jI co.jQ co.jU co.jV co.rQ co.rU co.rV co.aI co.aQ co.aU co.aV
    dl_current C fs.2
  -- FROM STOKES TO F VECTOR
  let Iinv : ℝ := (S_A 0).re
  let Iinv_pol : ℝ := (csqrt (S_A 1 * S_A 1 + S_A 2 * S_A 2 + S_A 3 * S_A 3)).re
  if Iinv_pol > 1e-100 then
    let r := stokes_to_f f_tetrad_u tetrad_u S_A
    { co := co, nu_p := nu_p, pitch_ang := pitch_ang, dl_current := dl_current, k_u := k_u,
      k_d := k_d, POLARIZATION_ACTIVE := true, f_u := r.2, f_tetrad_u := r.1.f_tetrad_u,
      tetrad_d := tetrad_d, tetrad_u := tetrad_u, S_A := S_A, Iinv := r.1.Iinv,
      Iinv_pol := r.1.Iinv_pol }
  else
    { co := co, nu_p := nu_p, pitch_ang := pitch_ang, dl_current := dl_current, k_u := k_u,
      k_d := k_d, POLARIZATION_ACTIVE := false, f_u := s.f_u, f_tetrad_u := f_tetrad_u,
      tetrad_d := tetrad_d, tetrad_u := tetrad_u,
      S_A := fun i => if i = 1 ∨ i = 2 ∨ i = 3 then 0 else S_A i,
      Iinv := Iinv, Iinv_pol := Iinv_pol }

/-- The transfer matrix `K` of the spec (§4.9). -/
def Kmat (rQ rU rV aI aQ aU aV : ℝ) : Matrix (Fin 4) (Fin 4) ℝ :=
  !![aI, aQ, aU, aV;
     aQ, aI, rV, -rU;
     aU, -rV, aI, rQ;
     aV, rU, -rQ, aI]

/-- The right-hand side `C·(j − K·S)` of the transfer equation of the spec, scaled by the
step: `h·(j − K·S)`, for a complex Stokes vector `S`. -/
def rte_rhs (h : ℝ) (j : Fin 4 → ℝ) (K : Matrix (Fin 4) (Fin 4) ℝ) (S : Fin 4 → ℂ) :
    Fin 4 → ℂ :=
  fun i => (h : ℂ) * ((j i : ℂ) - ∑ k, (K i k : ℂ) * S k)

/-- Classical fourth-order Runge–Kutta step for a right-hand side `g` that already contains
the step length: `S + (k1 + 2·k2 + 2·k3 + k4)/6` with `k1 = g(S)`, `k2 = g(S + k1/2)`,
`k3 = g(S + k2/2)`, `k4 = g(S + k3)`. -/
def rk4_classical (g : (Fin 4 → ℂ) → Fin 4 → ℂ) (S : Fin 4 → ℂ) : Fin 4 → ℂ :=
  let k1 := g S
  let k2 := g (fun n => S n + k1 n / 2)
  let k3 := g (fun n => S n + k2 n / 2)
  let k4 := g (fun n => S n + k3 n)
  fun i => S i + (k1 i + 2 * k2 i + 2 * k3 i + k4 i) / 6

/-- A real Stokes quartet stored in the `double complex` array `S_A`. -/
def toC (S : Fin 4 → ℝ) : Fin 4 → ℂ := fun i => (S i : ℂ)

/-- Euclidean norm of a complex 4-vector. -/
def norm4 (S : Fin 4 → ℂ) : ℝ := Real.sqrt (∑ i, Complex.abs (S i) ^ 2)

/-- The fourth-order Taylor polynomial `M(τ) = 1 + τ + τ²/2 + τ³/6 + τ⁴/24` of the spec
(§4.8). -/
def taylor4 (tau : ℂ) : ℂ := 1 + tau + tau ^ 2 / 2 + tau ^ 3 / 6 + tau ^ 4 / 24

/-- The coefficient `a₂ = ρ_Q² + ρ_V² − a_Q² − a_V²` of the spec (§4.8). -/
def stiff_a2 (rQ rV aQ aV : ℝ) : ℝ := rQ ^ 2 + rV ^ 2 - aQ ^ 2 - aV ^ 2

/-- The coefficient `a₀ = −2·a_V·a_Q·ρ_V·ρ_Q − a_Q²·ρ_Q² − a_V²·ρ_V²` of the spec (§4.8). -/
def stiff_a0 (rQ rV aQ aV : ℝ) : ℝ :=
  -2 * aV * aQ * rV * rQ - aQ ^ 2 * rQ ^ 2 - aV ^ 2 * rV ^ 2

/-- The root `z₊ = (−a₂ + √(a₂² − 4a₀))/2` of the spec (§4.8). -/
def stiff_zplus (rQ rV aQ aV : ℝ) : ℝ :=
  (-stiff_a2 rQ rV aQ aV +
    Real.sqrt (stiff_a2 rQ rV aQ aV ^ 2 - 4 * stiff_a0 rQ rV aQ aV)) / 2

/-- The root `z₋ = (−a₂ − √(a₂² − 4a₀))/2` of the spec (§4.8). -/
def stiff_zminus (rQ rV aQ aV : ℝ) : ℝ :=
  (-stiff_a2 rQ rV aQ aV -
    Real.sqrt (stiff_a2 rQ rV aQ aV ^ 2 - 4 * stiff_a0 rQ rV aQ aV)) / 2

/-! ## Polarized radiative transfer along a path -/

/-- The constant `GGRAV` of `definitions.h`. -/
def GGRAV : ℝ := 6.674e-8

/-- The function `f_parallel(y, f_u, fvector, f_u_vector)`: the contents of `fvector` and of
`f_u_vector`.  `A_u` is a `double complex` array that starts at 0 for each of the two loops;
`fvector[i + 4] = A_u[i]` stores its real part in a `double`. -/
def f_parallel (connection_udd : (Fin 4 → ℝ) → Fin 4 → Fin 4 → Fin 4 → ℝ)
    (y : Fin 8 → ℝ) (f_u : Fin 4 → ℂ) : (Fin 8 → ℝ) × (Fin 4 → ℂ) :=
  let X_u := pos y
  let U_u := vel y
  let gamma_udd := connection_udd X_u
  -- Compute 4-acceleration using the geodesic equation
  let A_u : Fin 4 → ℂ := fun i =>
    (List.finRange 4).foldl
      (fun a j => (List.finRange 4).foldl
        (fun a k => a - ((gamma_udd i j k * U_u j * U_u k : ℝ) : ℂ)) a) 0
  let fvector : Fin 8 → ℝ := join U_u (fun i => (A_u i).re)
  -- Compute f_u vector acceleration
  let A_u2 : Fin 4 → ℂ := fun i =>
    (List.finRange 4).foldl
      (fun a j => (List.finRange 4).foldl
        (fun a k => a - ((gamma_udd i j k * U_u j : ℝ) : ℂ) * f_u k) a) 0
  (fvector, A_u2)

/-- Working arrays of `rk4_step_f`: `dx[q*8+i]` as `dx q i`, `df[q*4+i]` as `df q i`, and
the shifted copies `yshift`, `f_u_shift`. -/
structure RKFState where
  dx : Fin 4 → Fin 8 → ℝ
  df : Fin 4 → Fin 4 → ℂ
  yshift : Fin 8 → ℝ
  f_u_shift : Fin 4 → ℂ

/-- The array `double complex weights[4] = {0.5, 0.5, 1., 0.}` of `rk4_step_f`. -/
def rk4_weights_f : Fin 4 → ℂ := ![0.5, 0.5, 1, 0]

/-- One pass `q` of the stage loop of `rk4_step_f`.  `yshift` is a `double` array, so
`y[i] + dx[q*8+i] * weights[q]` is stored as its real part. -/
def rk4_stage_f (connection_udd : (Fin 4 → ℝ) → Fin 4 → Fin 4 → Fin 4 → ℝ)
    (y : Fin 8 → ℝ) (f_u : Fin 4 → ℂ) (dt : ℝ) (s : RKFState) (q : Fin 4) : RKFState :=
  let fv := f_parallel connection_udd s.yshift s.f_u_shift
  let dx : Fin 4 → Fin 8 → ℝ := fun q' i => if q' = q then dt * fv.1 i else s.dx q' i
  let df : Fin 4 → Fin 4 → ℂ := fun q' i => if q' = q then dt * fv.2 i else s.df q' i
  { dx := dx
    df := df
    yshift := fun i => ((y i : ℂ) + (dx q i : ℂ) * rk4_weights_f q).re
    f_u_shift := fun i => f_u i + df q i * rk4_weights_f q }

/-- The function `rk4_step_f(y, f_u, dt)`: the new contents of `y` and of `f_u`. -/
def rk4_step_f (connection_udd : (Fin 4 → ℝ) → Fin 4 → Fin 4 → Fin 4 → ℝ)
    (y : Fin 8 → ℝ) (f_u : Fin 4 → ℂ) (dt : ℝ) : (Fin 8 → ℝ) × (Fin 4 → ℂ) :=
  let s := (List.finRange 4).foldl (rk4_stage_f connection_udd y f_u dt)
    ⟨fun _ _ => 0, fun _ _ => 0, y, f_u⟩
  (fun i => y i + 1 / 6 * (s.dx 0 i + s.dx 1 i * 2 + s.dx 2 i * 2 + s.dx 3 i),
   fun i => f_u i + 1 / 6 * (s.df 0 i + s.df 1 i * 2 + s.df 2 i * 2 + s.df 3 i))

/-- The block of `construct_U_vector` that builds the one-form `U_d` from the entries
`g_uu[0][0]`, `g_uu[0][3]`, `g_uu[3][3]` of the inverse metric. -/
def construct_U_d (g_uu : Fin 4 → Fin 4 → ℝ) : Fin 4 → ℝ :=
  let g_uu00 := g_uu 0 0
  let g_uu03 := g_uu 0 3
  let g_uu33 := g_uu 3 3
  -- Observer/plasma wave vector:
  let U_d0 : Fin 4 → ℝ := ![-1, 0, 0, 0]
  let B__ := -g_uu03 * U_d0 0 / g_uu33
  let C__ := -(1 + g_uu00 * U_d0 0 * U_d0 0) / g_uu33
  -- Properly normalize U_u:
  ![-1, 0, 0, B__ + Real.sqrt (B__ * B__ + C__)]

/-- The function `construct_U_vector(X_u, U_u)`: the contents of `U_u`, which is zeroed and
then written by the external `raise_index(X_u, U_d, U_u)`. -/
def construct_U_vector (metric_uu : (Fin 4 → ℝ) → Fin 4 → Fin 4 → ℝ)
    (raise_index : (Fin 4 → ℝ) → (Fin 4 → ℝ) → Fin 4 → ℝ) (X_u : Fin 4 → ℝ) : Fin 4 → ℝ :=
  let g_uu := metric_uu X_u
  let U_d := construct_U_d g_uu
  raise_index X_u U_d

/-- The variables that `get_fluid_params` writes through its pointer arguments. -/
structure Fluid where
  n_e : ℝ
  THETA_e : ℝ
  B : ℝ
  B_u : Fin 4 → ℝ
  Uplasma_u : Fin 4 → ℝ
  IN_VOLUME : ℤ

/-- What `radiative_transfer_polarized` takes from outside `integrator.c`: the externals of
`pol_integration_step`, the fluid sampler `get_fluid_params(X_u, …)` acting on the variables
it may write, the metric backend, the macro `logscale` and the global `MBH`. -/
structure TransferEnv where
  pol : PolEnv
  get_fluid_params : (Fin 4 → ℝ) → Fluid → Fluid
  connection_udd : (Fin 4 → ℝ) → Fin 4 → Fin 4 → Fin 4 → ℝ
  metric_uu : (Fin 4 → ℝ) → Fin 4 → Fin 4 → ℝ
  raise_index : (Fin 4 → ℝ) → (Fin 4 → ℝ) → Fin 4 → ℝ
  logscale : Bool
  MBH : ℝ

/-- The locals of `radiative_transfer_polarized` that live across passes of its loop. -/
structure RTState where
  fl : Fluid
  ps : PolState

/-- The block "PLASMA INTEGRATION STEP" of the loop of `radiative_transfer_polarized`:
`pol_integration_step` is called when `IN_VOLUME && r_current2 < OUTER_BOUND_POL`. -/
def rt_plasma_step (e : TransferEnv) (frequency C : ℝ) (X_u : Fin 4 → ℝ) (fl : Fluid)
    (ps : PolState) : PolState :=
  let r_current2 : ℝ := if e.logscale then Real.exp (X_u 1) else X_u 1
  let OUTER_BOUND_POL : ℝ := 1000
  if fl.IN_VOLUME ≠ 0 ∧ r_current2 < OUTER_BOUND_POL then
    pol_integration_step e.pol fl.THETA_e fl.n_e fl.B frequency C X_u fl.B_u fl.Uplasma_u ps
  else ps

/-- The block "SPACETIME-INTEGRATION STEP" of the loop of `radiative_transfer_polarized`:
with the latch set, `photon_u_current` is loaded from `X_u`, `k_u` and `rk4_step_f`
transports `f_u` by `dl_current`. -/
def rt_transport_step (e : TransferEnv) (X_u : Fin 4 → ℝ) (path_counter : ℕ)
    (ps : PolState) : PolState :=
  if ps.POLARIZATION_ACTIVE = true ∧ path_counter > 0 then
    let photon_u_current : Fin 8 → ℝ := join X_u ps.k_u
    { ps with f_u := (rk4_step_f e.connection_udd photon_u_current ps.f_u ps.dl_current).2 }
  else ps

/-- One pass of the loop of `radiative_transfer_polarized`, at `path_counter`. -/
def rt_pol_body (e : TransferEnv) (lightpath : ℕ → ℝ) (frequency C : ℝ) (path_counter : ℕ)
    (s : RTState) : RTState :=
  -- Current position, wave vector, and dlambda
  let X_u : Fin 4 → ℝ := fun i => lightpath (path_counter * 9 + i.val)
  let k_u : Fin 4 → ℝ := fun i => lightpath (path_counter * 9 + 4 + i.val)
  let dl_current : ℝ := |lightpath ((path_counter - 1) * 9 + 8)|
  let fl := e.get_fluid_params X_u s.fl
  let ps0 : PolState := { s.ps with k_u := k_u, dl_current := dl_current }
  let ps1 := rt_plasma_step e frequency C X_u fl ps0
  let ps2 := rt_transport_step e X_u path_counter ps1
  { fl := fl, ps := ps2 }

/-- The loop `for (path_counter = steps - 1; path_counter > 0; path_counter--)`, started at
the counter value `path_counter`. -/
def rt_pol_loop (e : TransferEnv) (lightpath : ℕ → ℝ) (frequency C : ℝ) :
    ℕ → RTState → RTState
  | 0, s => s
  | path_counter + 1, s =>
    rt_pol_loop e lightpath frequency C path_counter
      (rt_pol_body e lightpath frequency C (path_counter + 1) s)

/-- The locals of `radiative_transfer_polarized` on entry to its loop: the latch, the
tetrads, `f_tetrad_u`, `f_u` and `S_A` are initialised to 0, the others keep the
indeterminate values `u`. -/
def rt_pol_init (u : RTState) : RTState :=
  { fl := u.fl
    ps := { u.ps with
      POLARIZATION_ACTIVE := false
      tetrad_u := fun _ _ => 0
      tetrad_d := fun _ _ => 0
      f_tetrad_u := fun _ => 0
      f_u := fun _ => 0
      S_A := fun _ => 0 } }

/-- The function `radiative_transfer_polarized(lightpath, steps, frequency, …, IQUV)`: the
contents of `IQUV` and the return value.  The arguments `f_x`, `f_y`, `p`, `PRINT_POLAR`
are not read.  `u` holds the indeterminate initial values of the locals declared without an
initialiser; the latch, the tetrads, `f_tetrad_u`, `f_u` and `S_A` start at 0. -/
def radiative_transfer_polarized (e : TransferEnv) (lightpath : ℕ → ℝ) (steps : ℤ)
    (frequency : ℝ) (u : RTState) : (Fin 4 → ℝ) × ℝ :=
  let init : RTState := rt_pol_init u
  -- Constant used in integration (to produce correct units)
  let Rg : ℝ := GGRAV * e.MBH / SPEED_OF_LIGHT / SPEED_OF_LIGHT
  let C : ℝ := Rg * PLANCK_CONSTANT / (ELECTRON_MASS * SPEED_OF_LIGHT * SPEED_OF_LIGHT)
  -- Move backward along constructed lightpath
  let s := rt_pol_loop e lightpath frequency C (steps - 1).toNat init
  -- CONSTRUCT FINAL (NON-INVARIANT) STOKES PARAMS SEEN BY OBSERVER
  let X_u : Fin 4 → ℝ := fun i => lightpath i.val
  let k_u : Fin 4 → ℝ := fun i => lightpath (4 + i.val)
  let cam_up_u : Fin 4 → ℝ := ![0, 0, 0, -1]
  let U_obs_u := construct_U_vector e.metric_uu e.raise_index X_u
  let obs_tetrad_u := e.pol.create_observer_tetrad X_u k_u U_obs_u cam_up_u
  let obs_tetrad_d := e.pol.create_tetrad_d X_u obs_tetrad_u
  -- Convert f_u to f_obs_tetrad_u
  let f_obs_tetrad_u : Fin 4 → ℂ := fun i =>
    (List.finRange 4).foldl (fun a j => a + obs_tetrad_d j i * s.ps.f_u j) 0
  let S_f : Fin 4 → ℂ :=
    if s.ps.POLARIZATION_ACTIVE = true then
      let S_A := f_tetrad_to_stokes s.ps.Iinv s.ps.Iinv_pol f_obs_tetrad_u
      -- Construct final (NON-INVARIANT) Stokes params.
      fun i => S_A i * ((frequency ^ 3 : ℝ) : ℂ)
    else fun _ => 0
  (fun i => (S_f i).re, (S_f 0).re)

/-- The sampler's output variables after the first `d` passes of the loop of
`radiative_transfer_polarized` started at `path_counter = n`: pass number `d` (counted
from 0) runs at `path_counter = n - d` and calls `get_fluid_params` on the position stored
there. -/
def rt_fluid (e : TransferEnv) (lightpath : ℕ → ℝ) (n : ℕ) (fl0 : Fluid) : ℕ → Fluid
  | 0 => fl0
  | d + 1 =>
    e.get_fluid_params (fun i => lightpath ((n - d) * 9 + i.val)) (rt_fluid e lightpath n fl0 d)

/-- The test `IN_VOLUME && r_current2 < OUTER_BOUND_POL` as the loop started at counter `n`
evaluates it in the pass at `path_counter`. -/
def rt_in_volume (e : TransferEnv) (lightpath : ℕ → ℝ) (n : ℕ) (fl0 : Fluid)
    (path_counter : ℕ) : Prop :=
  (rt_fluid e lightpath n fl0 (n - path_counter + 1)).IN_VOLUME ≠ 0 ∧
    (if e.logscale then Real.exp (lightpath (path_counter * 9 + 1))
      else lightpath (path_counter * 9 + 1)) < 1000

/-- A uniform unpolarized emitter: every sample is flagged in-volume, `j_I = 1`, all other
emission, absorption and rotation closures are 0, `ν_p = 1`, `MBH = 1`. -/
def slabEnv : TransferEnv where
  pol :=
    { pitch_angle := fun _ _ _ _ => 0
      lower_index := fun _ k => k
      freq_in_plasma_frame := fun _ _ => 1
      j_I := fun _ _ _ _ _ => 1
      j_Q := fun _ _ _ _ _ => 0
      j_V := fun _ _ _ _ _ => 0
      rho_Q := fun _ _ _ _ _ => 0
      rho_V := fun _ _ _ _ _ => 0
      absorption_coeff_TH := fun _ _ _ => 0
      create_observer_tetrad := fun _ _ _ _ _ _ => 0
      create_tetrad_d := fun _ _ _ _ => 0 }
  get_fluid_params := fun _ _ =>
    { n_e := 1, THETA_e := 1, B := 1, B_u := fun _ => 0, Uplasma_u := fun _ => 0,
      IN_VOLUME := 1 }
  connection_udd := fun _ _ _ _ => 0
  metric_uu := fun _ _ _ => 0
  raise_index := fun _ U_d => U_d
  logscale := false
  MBH := 1

/-- All-zero contents for the locals that `radiative_transfer_polarized` declares without
an initialiser. -/
def zeroLocals : RTState where
  fl := { n_e := 0, THETA_e := 0, B := 0, B_u := fun _ => 0, Uplasma_u := fun _ => 0,
          IN_VOLUME := 0 }
  ps := { co := { jI := 0, jQ := 0, jU := 0, jV := 0, rQ := 0, rU := 0, rV := 0, aI := 0,
                  aQ := 0, aU := 0, aV := 0 }
          nu_p := 0, pitch_ang := 0, dl_current := 0, k_u := fun _ => 0, k_d := fun _ => 0,
          POLARIZATION_ACTIVE := false, f_u := fun _ => 0, f_tetrad_u := fun _ => 0,
          tetrad_d := fun _ _ => 0, tetrad_u := fun _ _ => 0, S_A := fun _ => 0,
          Iinv := 0, Iinv_pol := 0 }

/-- The inverse Minkowski metric `diag(−1, 1, 1, 1)` as a `metric_uu` backend. -/
def minkowski_uu : (Fin 4 → ℝ) → Fin 4 → Fin 4 → ℝ :=
  fun _ i j => if i = j then (if i = 0 then -1 else 1) else 0

/-- The polynomial `M = 1 + X + X²/2 + X³/6 + X⁴/24` whose value at `τ` is `taylor4 τ`. -/
def taylor4_poly : Polynomial ℂ :=
  1 + Polynomial.X + Polynomial.C (1 / 2) * Polynomial.X ^ 2 +
    Polynomial.C (1 / 6) * Polynomial.X ^ 3 + Polynomial.C (1 / 24) * Polynomial.X ^ 4

/-- The matrix `h·K` with `h = Δl·C`, with complex entries. -/
def hK (rQ rU rV aI aQ aU aV dl_current C : ℝ) : Matrix (Fin 4) (Fin 4) ℂ :=
  ((dl_current * C) • Kmat rQ rU rV aI aQ aU aV).map (fun x : ℝ => (x : ℂ))

/-- The state `(X, s·U)`: the wave vector of `y` rescaled by `s`. -/
def rescale (s : ℝ) (y : Fin 8 → ℝ) : Fin 8 → ℝ := join (pos y) (fun i => s * vel y i)

/-! ## Unpolarized radiative transfer along a path -/

/-- The constant `RT_OUTER_CUTOFF` of `definitions.h`. -/
def RT_OUTER_CUTOFF : ℝ := 1000

/-- What `radiative_transfer` takes from outside `integrator.c`: the externals it shares with
the polarized path (`get_fluid_params`, `pitch_angle`, `lower_index`,
`freq_in_plasma_frame`, `absorption_coeff_TH`, `MBH`), the emissivity
`emission_coeff_THSYNCHAV(B, THETA_e, nu_p, n_e)` and the macro `ABSORPTION`. -/
structure ScalarEnv where
  env : TransferEnv
  emission_coeff_THSYNCHAV : ℝ → ℝ → ℝ → ℝ → ℝ
  ABSORPTION : ℤ

/-- The locals of `radiative_transfer` that live across passes of its loop. -/
structure ScalarState where
  fl : Fluid
  I_current : ℝ
  j_nu : ℝ
  a_nu : ℝ

/-- The innermost block of `radiative_transfer`: the new `I_current` from `Ii = I_current`,
`j_inv`, `K_inv` and `dtau`. -/
def scalar_update (Ii j_inv K_inv dtau : ℝ) : ℝ :=
  let S := j_inv / K_inv
  if K_inv = 0 then Ii
  else if dtau < 1e-5 then
    Ii - (Ii - S) * (0.166666667 * dtau * (6 - dtau * (3 - dtau)))
  else
    let efac := Real.exp (-dtau)
    Ii * efac + S * (1 - efac)

/-- One pass of the loop of `radiative_transfer`, at `path_counter`.  `dtau_old` is 0
throughout: it is initialised and never assigned.  The test `j_nu == j_nu` fails only for a
NaN and holds for every real `j_nu`. -/
def rt_scalar_body (e : ScalarEnv) (lightpath : ℕ → ℝ) (frequency : ℝ) (path_counter : ℕ)
    (s : ScalarState) : ScalarState :=
  let Rg : ℝ := GGRAV * e.env.MBH / SPEED_OF_LIGHT / SPEED_OF_LIGHT
  let dtau_old : ℝ := 0
  -- Current position, wave vector, and dlambda
  let X_u : Fin 4 → ℝ := fun i => lightpath (path_counter * 9 + i.val)
  let k_u : Fin 4 → ℝ := fun i => lightpath (path_counter * 9 + 4 + i.val)
  let dl_current : ℝ := |lightpath ((path_counter - 1) * 9 + 8)|
  let fl := e.env.get_fluid_params X_u s.fl
  if fl.IN_VOLUME ≠ 0 then
    -- Scale the wave vector to correct energy
    let k_u : Fin 4 → ℝ := fun i =>
      k_u i * (PLANCK_CONSTANT * frequency / (ELECTRON_MASS * SPEED_OF_LIGHT * SPEED_OF_LIGHT))
    -- Convert distance dlambda accordingly
    let dl_current :=
      dl_current * ((ELECTRON_MASS * SPEED_OF_LIGHT * SPEED_OF_LIGHT) /
        (PLANCK_CONSTANT * frequency))
    let k_d := e.env.pol.lower_index X_u k_u
    let nu_p := e.env.pol.freq_in_plasma_frame fl.Uplasma_u k_d
    let j_nu := e.emission_coeff_THSYNCHAV fl.B fl.THETA_e nu_p fl.n_e
    let a_nu :=
      if e.ABSORPTION ≠ 0 then e.env.pol.absorption_coeff_TH j_nu nu_p fl.THETA_e else s.a_nu
    let C : ℝ := Rg * PLANCK_CONSTANT / (ELECTRON_MASS * SPEED_OF_LIGHT * SPEED_OF_LIGHT)
    let dtau : ℝ := nu_p * a_nu * dl_current * C + dtau_old
    let K_inv : ℝ := nu_p * a_nu
    let j_inv : ℝ := j_nu / (nu_p * nu_p)
    if j_nu = j_nu ∧ Real.exp (X_u 1) < RT_OUTER_CUTOFF then
      { fl := fl, I_current := scalar_update s.I_current j_inv K_inv dtau, j_nu := j_nu,
        a_nu := a_nu }
    else
      { fl := fl, I_current := s.I_current, j_nu := j_nu, a_nu := a_nu }
  else
    { fl := fl, I_current := s.I_current, j_nu := s.j_nu, a_nu := s.a_nu }

/-- The loop `for (path_counter = steps - 1; path_counter > 0; path_counter--)` of
`radiative_transfer`, started at the counter value `path_counter`. -/
def rt_scalar_loop (e : ScalarEnv) (lightpath : ℕ → ℝ) (frequency : ℝ) :
    ℕ → ScalarState → ScalarState
  | 0, s => s
  | path_counter + 1, s =>
    rt_scalar_loop e lightpath frequency path_counter
      (rt_scalar_body e lightpath frequency (path_counter + 1) s)

/-- The function `radiative_transfer(lightpath, steps, frequency)`: its return value.
`fl0` holds the indeterminate initial values of the sampler's output variables. -/
def radiative_transfer (e : ScalarEnv) (lightpath : ℕ → ℝ) (steps : ℤ) (frequency : ℝ)
    (fl0 : Fluid) : ℝ :=
  let s := rt_scalar_loop e lightpath frequency (steps - 1).toNat
    { fl := fl0, I_current := 0, j_nu := 0, a_nu := 0 }
  s.I_current * frequency ^ 3

/-- An absorbing uniform emitter: every sample is flagged in-volume, `ν_p = 1`, `j_ν = 1`,
`a_ν = 1`, `MBH = 1`, `ABSORPTION` on. -/
def thinEnv : ScalarEnv where
  env := { slabEnv with pol := { slabEnv.pol with absorption_coeff_TH := fun _ _ _ => 1 } }
  emission_coeff_THSYNCHAV := fun _ _ _ _ => 1
  ABSORPTION := 1

/-- A path whose samples sit at the coordinate origin, with stored step length 1 in slot 8. -/
def unitPath : ℕ → ℝ := fun n => if n = 8 then 1 else 0

/-- The values of `nu_p`, `j_nu`, `a_nu` and of the rescaled `dl_current` in an in-volume pass
of the loop of `radiative_transfer`. -/
structure ScalarSample where
  nu_p : ℝ
  j_nu : ℝ
  a_nu : ℝ
  dl_current : ℝ

/-- The values that the pass of `radiative_transfer` at `path_counter` computes for
`nu_p`, `j_nu`, `a_nu` and `dl_current` when the sample is in the volume. -/
def scalar_sample (e : ScalarEnv) (lightpath : ℕ → ℝ) (frequency : ℝ) (path_counter : ℕ)
    (s : ScalarState) : ScalarSample :=
  let X_u : Fin 4 → ℝ := fun i => lightpath (path_counter * 9 + i.val)
  let k_u : Fin 4 → ℝ := fun i => lightpath (path_counter * 9 + 4 + i.val)
  let dl_current : ℝ := |lightpath ((path_counter - 1) * 9 + 8)|
  let fl := e.env.get_fluid_params X_u s.fl
  let k_u : Fin 4 → ℝ := fun i =>
    k_u i * (PLANCK_CONSTANT * frequency / (ELECTRON_MASS * SPEED_OF_LIGHT * SPEED_OF_LIGHT))
  let dl_current :=
    dl_current * ((ELECTRON_MASS * SPEED_OF_LIGHT * SPEED_OF_LIGHT) /
      (PLANCK_CONSTANT * frequency))
  let k_d := e.env.pol.lower_index X_u k_u
  let nu_p := e.env.pol.freq_in_plasma_frame fl.Uplasma_u k_d
  let j_nu := e.emission_coeff_THSYNCHAV fl.B fl.THETA_e nu_p fl.n_e
  let a_nu :=
    if e.ABSORPTION ≠ 0 then e.env.pol.absorption_coeff_TH j_nu nu_p fl.THETA_e else s.a_nu
  { nu_p := nu_p, j_nu := j_nu, a_nu := a_nu, dl_current := dl_current }

/-- The unit constant `C = Rg·h/(m_e c²)` with `Rg = G·MBH/c²` of the transfer loops. -/
def unit_C (MBH : ℝ) : ℝ :=
  GGRAV * MBH / SPEED_OF_LIGHT / SPEED_OF_LIGHT * PLANCK_CONSTANT /
    (ELECTRON_MASS * SPEED_OF_LIGHT * SPEED_OF_LIGHT)

/-! ## The implicit step with checked divisions -/

/-- A quotient of two `double`s read as a real number: `none` when the divisor is zero, where
IEEE arithmetic produces `±∞` or NaN and no real number. -/
def fdiv (a b : ℝ) : Option ℝ := if b = 0 then none else some (a / b)

/-- The block of `pol_rte_trapezoid_step` that computes `u11 … u44`, with every division
checked: `none` when one of the divisors `u11`, `u22`, `u33` is zero. -/
def trapezoid_lu_checked (rQ rV aI aQ aV dl_current C : ℝ) : Option LUEntries :=
  let u11 := 1 + 0.5 * dl_current * C * aI
  let u12 := 0.5 * dl_current * C * aQ
  let u14 := 0.5 * dl_current * C * aV
  (fdiv (0.5 * dl_current * C * aQ) u11).bind fun l21 =>
  let u22 := 1 + 0.5 * dl_current * C * aI - l21 * u12
  let u23 := 0.5 * dl_current * C * rV
  let u24 := -l21 * u14
  (fdiv (-0.5 * dl_current * C * rV) u22).bind fun l32 =>
  let u33 := 1 + 0.5 * dl_current * C * aI - l32 * u23
  let u34 := 0.5 * dl_current * C * rQ - l32 * u24
  (fdiv (0.5 * dl_current * C * aV) u11).bind fun l41 =>
  (fdiv (-l41 * u12) u22).bind fun l42 =>
  (fdiv (-0.5 * dl_current * C * rQ - l42 * u23) u33).bind fun l43 =>
  let u44 := 1 + 0.5 * dl_current * C * aI - l41 * u14 - l42 * u24 - l43 * u34
  some { u11 := u11, u12 := u12, u14 := u14, l21 := l21, u22 := u22, u23 := u23, u24 := u24,
         l32 := l32, u33 := u33, u34 := u34, l41 := l41, l42 := l42, l43 := l43, u44 := u44 }

/-- The blocks "Construct y" and "Construct x" of `pol_rte_trapezoid_step`, with every
division checked: `none` when one of the divisors `u44`, `u33`, `u22`, `u11` is zero. -/
def lu_solve_checked (m : LUEntries) (b : Fin 4 → ℝ) : Option (Fin 4 → ℝ) :=
  let b1 := b 0
  let b2 := b 1
  let b3 := b 2
  let b4 := b 3
  -- Construct y.
  let y1 := b1
  let y2 := b2 - m.l21 * y1
  let y3 := b3 - m.l32 * y2
  let y4 := b4 - m.l41 * y1 - m.l42 * y2 - m.l43 * y3
  -- Construct x.
  (fdiv y4 m.u44).bind fun x4 =>
  (fdiv (y3 - m.u34 * x4) m.u33).bind fun x3 =>
  (fdiv (y2 - m.u23 * x3 - m.u24 * x4) m.u22).bind fun x2 =>
  (fdiv (y1 - m.u12 * x2 - m.u14 * x4) m.u11).bind fun x1 =>
  some ![x1, x2, x3, x4]

/-- The function `pol_rte_trapezoid_step` with every division checked: the contents of `S_A`
on return when no divisor is zero, and `none` when a division by zero occurs, in which case
the quotient stored in `S_A` by the C code is `±∞` or NaN. -/
def pol_rte_trapezoid_step_checked (jI jQ jU jV rQ rU rV aI aQ aU aV dl_current C : ℝ)
    (S_A : Fin 4 → ℂ) : Option (Fin 4 → ℂ) :=
  (trapezoid_lu_checked rQ rV aI aQ aV dl_current C).bind fun m =>
  (lu_solve_checked m (trapezoid_b jI jQ jU jV rQ rV aI aQ aV dl_current C S_A)).bind fun x =>
  some ![(x 0 : ℂ), (x 1 : ℂ), (x 2 : ℂ), (x 3 : ℂ)]

end Transfer

/-! # Theorems -/

section GeodesicTheorems

variable {α : Type} [LinearOrderedField α]

theorem finRange_four : List.finRange 4 = [0, 1, 2, 3] := rfl

theorem pos_join (x v : Fin 4 → α) : pos (join x v) = x := by
  funext i
  have h : i.val < 4 := i.isLt
  simp [pos, join, h]

theorem vel_join (x v : Fin 4 → α) : vel (join x v) = v := by
  funext i
  simp [vel, join]

theorem join_pos_vel (y : Fin 8 → α) : join (pos y) (vel y) = y := by
  funext n
  by_cases h : n.val < 4
  · simp [join, pos, h]
  · have h4 : n.val - 4 + 4 = n.val := by omega
    simp [join, vel, h, h4]

/-- The stage loop of `rk4_step` unrolled: the four passes evaluate `f` at `y` and at the
three shifted states, the state shifted with `weights[3]` is not evaluated. -/
theorem rk4_step_stages (f : (Fin 8 → α) → Fin 8 → α) (y : Fin 8 → α) (dt : α) :
    rk4_step f y dt =
      fun i =>
        y i + 1 / 6 *
          (dt * f y i
            + dt * f (fun j => y j + dt * f y j * 0.5) i * 2
            + dt * f (fun j => y j + dt * f (fun j => y j + dt * f y j * 0.5) j * 0.5) i * 2
            + dt * f (fun j => y j +
                dt * f (fun j => y j + dt * f (fun j => y j + dt * f y j * 0.5) j * 0.5) j * 1)
              i) := by
  funext i
  simp [rk4_step, rk4_stage, rk4_weights, finRange_four]

/-- Claim C1. `rk4_step` replaces `y` by `y + (k1 + 2·k2 + 2·k3 + k4)/6` with
`k1 = dt·f(y)`, `k2 = dt·f(y + k1/2)`, `k3 = dt·f(y + k2/2)`, `k4 = dt·f(y + k3)`:
the right-hand side is evaluated at these four states only, the state built with
the fourth weight `0` is never evaluated. -/
theorem rk4_step_classical (f : (Fin 8 → α) → Fin 8 → α) (y : Fin 8 → α) (dt : α) :
    rk4_step f y dt =
      fun i =>
        y i +
          (dt * f y i
            + 2 * (dt * f (fun j => y j + dt * f y j / 2) i)
            + 2 * (dt * f (fun j => y j + dt * f (fun j => y j + dt * f y j / 2) j / 2) i)
            + dt * f (fun j => y j +
                dt * f (fun j => y j + dt * f (fun j => y j + dt * f y j / 2) j / 2) j) i) / 6 := by
  have h12 : ∀ a b : α, a + b * 0.5 = a + b / 2 := by intro a b; norm_num; ring
  have h1 : ∀ a b : α, a + b * 1 = a + b := by intro a b; ring
  rw [rk4_step_stages]
  funext i
  simp only [h12, h1]
  ring

theorem trace_body_steps (c : Setup α) (beta : α) (s : TraceState α) :
    (trace_body c beta s).steps = s.steps + 1 := rfl

theorem trace_body_recorded (c : Setup α) (beta : α) (y0 : Fin 8 → α) (s : TraceState α)
    (h : Recorded c y0 s) : Recorded c y0 (trace_body c beta s) := by
  obtain ⟨hy, hrec⟩ := h
  refine ⟨?_, ?_⟩
  · show advance_ray c s.photon_u _ = ray c y0 (s.steps + 1)
    rw [hy]; rfl
  · intro n hn
    have hn' : n < s.steps + 1 := hn
    rcases Nat.lt_succ_iff_lt_or_eq.mp hn' with hlt | heq
    · obtain ⟨h1, h2⟩ := hrec n hlt
      refine ⟨?_, ?_⟩
      · intro q
        have hq := q.isLt
        have e1 : n * 9 + q.val ≠ s.steps * 9 + 8 := by omega
        have e2 : ¬ (s.steps * 9 ≤ n * 9 + q.val ∧ n * 9 + q.val < s.steps * 9 + 8) := by omega
        simp only [trace_body, e1, e2, if_false, dif_neg, not_false_eq_true]
        exact h1 q
      · have e1 : n * 9 + 8 ≠ s.steps * 9 + 8 := by omega
        have e2 : ¬ (s.steps * 9 ≤ n * 9 + 8 ∧ n * 9 + 8 < s.steps * 9 + 8) := by omega
        simp only [trace_body, e1, e2, if_false, dif_neg, not_false_eq_true]
        exact h2
    · subst heq
      refine ⟨?_, ?_⟩
      · intro q
        have hq := q.isLt
        have e1 : s.steps * 9 + q.val ≠ s.steps * 9 + 8 := by omega
        have e2 : s.steps * 9 ≤ s.steps * 9 + q.val ∧
            s.steps * 9 + q.val < s.steps * 9 + 8 := by omega
        have e3 : (⟨s.steps * 9 + q.val - s.steps * 9, by omega⟩ : Fin 8) = q := by
          apply Fin.ext
          simp
        simp only [trace_body, e1, e2, if_false, dif_pos, and_self, e3]
        rw [← hy]
      · simp only [trace_body, if_true]
        rw [← hy]

theorem trace_loop_recorded (c : Setup α) (beta cutoff_inner : α) (y0 : Fin 8 → α) (fuel : ℕ) :
    ∀ s : TraceState α, Recorded c y0 s → Recorded c y0 (trace_loop c beta cutoff_inner fuel s) := by
  induction fuel with
  | zero => intro s h; exact h
  | succ k ih =>
    intro s h
    unfold trace_loop
    split
    · exact ih _ (trace_body_recorded c beta y0 s h)
    · exact h

theorem integrate_geodesic_recorded (c : Setup α) (alpha beta : α) (photon_u : Fin 8 → α)
    (lightpath : ℕ → α) (cutoff_inner td : α) :
    Recorded c (c.initialize_photon alpha beta photon_u 0)
      (integrate_geodesic c alpha beta photon_u lightpath cutoff_inner td) := by
  unfold integrate_geodesic
  apply trace_loop_recorded
  refine ⟨rfl, ?_⟩
  intro n hn
  exact absurd hn (Nat.not_lt_zero n)

theorem f_geodesic_flat (Γ : (Fin 4 → α) → Fin 4 → Fin 4 → Fin 4 → α)
    (hΓ : ∀ X i j k, Γ X i j k = 0) :
    f_geodesic Γ = fun y => join (vel y) (fun _ => 0) := by
  funext y
  simp [f_geodesic, finRange_four, hΓ]

theorem join_lo (x v : Fin 4 → α) (i : Fin 4) (h : i.val < 8) : join x v ⟨i.val, h⟩ = x i := by
  have h4 : i.val < 4 := i.isLt
  simp [join, h4]

theorem join_hi (x v : Fin 4 → α) (i : Fin 4) (h : i.val + 4 < 8) :
    join x v ⟨i.val + 4, h⟩ = v i := by
  simp [join]

theorem rk4_step_flat (Γ : (Fin 4 → α) → Fin 4 → Fin 4 → Fin 4 → α)
    (hΓ : ∀ X i j k, Γ X i j k = 0) (y : Fin 8 → α) (dt : α) :
    rk4_step (f_geodesic Γ) y dt = join (fun i => pos y i + dt * vel y i) (vel y) := by
  rw [f_geodesic_flat Γ hΓ, rk4_step_stages, ← join_pos_vel (fun i => _)]
  refine congrArg₂ join ?_ ?_
  · funext i
    simp only [pos, vel, join_lo, join_hi]
    norm_num
    ring
  · funext i
    simp only [pos, vel, join_lo, join_hi]
    norm_num

theorem verlet_step_flat (Γ : (Fin 4 → α) → Fin 4 → Fin 4 → Fin 4 → α)
    (hΓ : ∀ X i j k, Γ X i j k = 0) (y : Fin 8 → α) (dl : α) :
    verlet_step (f_geodesic Γ) y dl = join (fun i => pos y i + dl * vel y i) (vel y) := by
  rw [f_geodesic_flat Γ hΓ]
  unfold verlet_step
  refine congrArg₂ join ?_ ?_
  · funext i
    simp only [pos_join, vel_join]
    ring
  · funext i
    simp only [pos_join, vel_join]
    ring

theorem advance_ray_flat (c : Setup α) (hΓ : ∀ X i j k, c.connection_udd X i j k = 0)
    (y : Fin 8 → α) (dl : α) :
    advance_ray c y dl = join (fun i => pos y i + dl * vel y i) (vel y) := by
  unfold advance_ray
  cases c.int_method
  · exact rk4_step_flat _ hΓ y dl
  · exact verlet_step_flat _ hΓ y dl

theorem ray_flat (c : Setup α) (hΓ : ∀ X i j k, c.connection_udd X i j k = 0)
    (y0 : Fin 8 → α) (n : ℕ) :
    ray c y0 n =
      join (fun i => pos y0 i +
          (∑ m in Finset.range n,
            stepsize c.STEPSIZE (pos (ray c y0 m)) (vel (ray c y0 m))) * vel y0 i)
        (vel y0) := by
  induction n with
  | zero =>
    simp only [ray, Finset.range_zero, Finset.sum_empty, zero_mul, add_zero]
    exact (join_pos_vel y0).symm
  | succ k ih =>
    have hp : pos (ray c y0 k) = fun i => pos y0 i +
          (∑ m in Finset.range k,
            stepsize c.STEPSIZE (pos (ray c y0 m)) (vel (ray c y0 m))) * vel y0 i := by
      rw [ih, pos_join]
    have hv : vel (ray c y0 k) = vel y0 := by rw [ih, vel_join]
    rw [Finset.sum_range_succ]
    show advance_ray c (ray c y0 k) _ = _
    rw [advance_ray_flat c hΓ, hv]
    refine congrArg₂ join ?_ rfl
    funext i
    rw [hp]
    ring

theorem trace_loop_exit (c : Setup α) (beta cutoff_inner : α) (fuel : ℕ) :
    ∀ s : TraceState α, c.max_steps ≤ s.steps + fuel →
      loop_cond c cutoff_inner (trace_loop c beta cutoff_inner fuel s) = false := by
  induction fuel with
  | zero =>
    intro s h
    have hs : ¬ s.steps < c.max_steps := by omega
    unfold trace_loop loop_cond
    cases c.metric <;> simp [hs]
  | succ k ih =>
    intro s h
    unfold trace_loop
    split
    · apply ih
      rw [trace_body_steps]
      omega
    · rename_i hc
      simpa using hc

/-- Claim C2. With an identically zero connection, for the RK4 and for the Verlet tracer,
every recorded sample `n` of `integrate_geodesic` has `U_n = U_0` and
`X_n = X_0 + Λ_n · U_0`, where `(X_0, U_0)` is the state made by `initialize_photon` and
`Λ_n` is the sum of the signed steps `stepsize(X_m, U_m)` over the recorded samples `m < n`. -/
theorem flat_spacetime_straight_lines (c : Setup α)
    (hΓ : ∀ X i j k, c.connection_udd X i j k = 0)
    (alpha beta : α) (photon_u : Fin 8 → α) (lightpath : ℕ → α) (cutoff_inner td : α)
    (n : ℕ)
    (hn : n < (integrate_geodesic c alpha beta photon_u lightpath cutoff_inner td).steps)
    (i : Fin 4) :
    (integrate_geodesic c alpha beta photon_u lightpath cutoff_inner td).lightpath
          (n * 9 + (i.val + 4)) = vel (c.initialize_photon alpha beta photon_u 0) i ∧
      (integrate_geodesic c alpha beta photon_u lightpath cutoff_inner td).lightpath
          (n * 9 + i.val) =
        pos (c.initialize_photon alpha beta photon_u 0) i +
          (∑ m in Finset.range n,
            stepsize c.STEPSIZE
              (fun j : Fin 4 =>
                (integrate_geodesic c alpha beta photon_u lightpath cutoff_inner td).lightpath
                  (m * 9 + j.val))
              (fun j : Fin 4 =>
                (integrate_geodesic c alpha beta photon_u lightpath cutoff_inner td).lightpath
                  (m * 9 + (j.val + 4)))) *
            vel (c.initialize_photon alpha beta photon_u 0) i := by
  set out := integrate_geodesic c alpha beta photon_u lightpath cutoff_inner td with hout
  set y0 := c.initialize_photon alpha beta photon_u 0 with hy0
  set X : ℕ → Fin 4 → α := fun m j => out.lightpath (m * 9 + j.val) with hXdef
  set U : ℕ → Fin 4 → α := fun m j => out.lightpath (m * 9 + (j.val + 4)) with hUdef
  show U n i = vel y0 i ∧
      X n i = pos y0 i + (∑ m in Finset.range n, stepsize c.STEPSIZE (X m) (U m)) * vel y0 i
  obtain ⟨_, hrec⟩ := integrate_geodesic_recorded c alpha beta photon_u lightpath cutoff_inner td
  have hX : ∀ m, m < out.steps → X m = pos (ray c y0 m) := by
    intro m hm
    funext j
    exact (hrec m hm).1 ⟨j.val, by omega⟩
  have hU : ∀ m, m < out.steps → U m = vel (ray c y0 m) := by
    intro m hm
    funext j
    exact (hrec m hm).1 ⟨j.val + 4, by omega⟩
  have hsum : (∑ m in Finset.range n, stepsize c.STEPSIZE (X m) (U m)) =
      ∑ m in Finset.range n, stepsize c.STEPSIZE (pos (ray c y0 m)) (vel (ray c y0 m)) := by
    apply Finset.sum_congr rfl
    intro m hm
    have hm' : m < out.steps := lt_trans (Finset.mem_range.mp hm) hn
    rw [hX m hm', hU m hm']
  rw [hsum, hX n hn, hU n hn, ray_flat c hΓ y0 n, pos_join, vel_join]
  exact ⟨rfl, rfl⟩

theorem flatSetup_steps :
    (integrate_geodesic flatSetup 0 0 (fun _ => 0) (fun _ => 0) 1 0).steps = 1 := by
  have h : (10 : ℚ) < 100 := by norm_num
  simp [integrate_geodesic, trace_loop, loop_cond, flatSetup, radius, trace_body, h]

theorem small_sq_pos : (0 : α) < 1e-40 * 1e-40 := by norm_num

theorem small_sq_eq : (1e-40 * 1e-40 : α) = 1e-80 := by norm_num

/-- The inverse step `1 / (|d| + SMALL²)` of `stepsize` is positive. -/
theorem inv_step_pos (d : α) : 0 < 1 / (|d| + 1e-40 * 1e-40) :=
  one_div_pos.mpr (add_pos_of_nonneg_of_pos (abs_nonneg d) small_sq_pos)

/-- The inverse step is antitone in the magnitude of the step. -/
theorem inv_step_anti (d d' : α) (h : |d| ≤ |d'|) :
    1 / (|d'| + 1e-40 * 1e-40) ≤ 1 / (|d| + 1e-40 * 1e-40) :=
  one_div_le_one_div_of_le (add_pos_of_nonneg_of_pos (abs_nonneg d) small_sq_pos)
    (add_le_add_right h _)

theorem stepsize_eq (STEPSIZE : α) (X_u U_u : Fin 4 → α) :
    stepsize STEPSIZE X_u U_u =
      (-1) / (1 / (|STEPSIZE / (|U_u 1| + 1e-40 * 1e-40)| + 1e-40 * 1e-40) +
        1 / (|STEPSIZE * min (X_u 2) (M_PI - X_u 2) / (|U_u 2| + 1e-40 * 1e-40)| +
          1e-40 * 1e-40) +
        1 / (|STEPSIZE / (|U_u 3| + 1e-40 * 1e-40)| + 1e-40 * 1e-40)) := rfl

/-- The magnitude of `stepsize` is the reciprocal of the sum of the three inverse steps. -/
theorem stepsize_abs (STEPSIZE : α) (X_u U_u : Fin 4 → α) :
    |stepsize STEPSIZE X_u U_u| =
      1 / (1 / (|STEPSIZE / (|U_u 1| + 1e-40 * 1e-40)| + 1e-40 * 1e-40) +
        1 / (|STEPSIZE * min (X_u 2) (M_PI - X_u 2) / (|U_u 2| + 1e-40 * 1e-40)| +
          1e-40 * 1e-40) +
        1 / (|STEPSIZE / (|U_u 3| + 1e-40 * 1e-40)| + 1e-40 * 1e-40)) := by
  have h1 := inv_step_pos (STEPSIZE / (|U_u 1| + 1e-40 * 1e-40))
  have h2 := inv_step_pos (STEPSIZE * min (X_u 2) (M_PI - X_u 2) / (|U_u 2| + 1e-40 * 1e-40))
  have h3 := inv_step_pos (STEPSIZE / (|U_u 3| + 1e-40 * 1e-40))
  rw [stepsize_eq, abs_div, abs_neg, abs_one, abs_of_pos (add_pos (add_pos h1 h2) h3)]

/-- Claim C15. For every position, four-velocity and scale, `stepsize(X, U)` is strictly
negative: every denominator carries the positive floor `SMALL² = 10⁻⁸⁰`, so the three inverse
steps are positive (no division by zero) and the result is `−1/(positive sum)`. -/
theorem stepsize_neg (STEPSIZE : α) (X_u U_u : Fin 4 → α) :
    stepsize STEPSIZE X_u U_u < 0 ∧
      (0 < |U_u 1| + 1e-80 ∧ 0 < |U_u 2| + 1e-80 ∧ 0 < |U_u 3| + 1e-80) ∧
      ∃ i1 i2 i3 : α, 0 < i1 ∧ 0 < i2 ∧ 0 < i3 ∧
        stepsize STEPSIZE X_u U_u = (-1) / (i1 + i2 + i3) := by
  have h1 := inv_step_pos (STEPSIZE / (|U_u 1| + 1e-40 * 1e-40))
  have h2 := inv_step_pos (STEPSIZE * min (X_u 2) (M_PI - X_u 2) / (|U_u 2| + 1e-40 * 1e-40))
  have h3 := inv_step_pos (STEPSIZE / (|U_u 3| + 1e-40 * 1e-40))
  have hfloor : ∀ u : α, 0 < |u| + 1e-80 := by
    intro u
    rw [← small_sq_eq]
    exact add_pos_of_nonneg_of_pos (abs_nonneg u) small_sq_pos
  refine ⟨?_, ⟨hfloor _, hfloor _, hfloor _⟩, _, _, _, h1, h2, h3, stepsize_eq STEPSIZE X_u U_u⟩
  rw [stepsize_eq]
  exact div_neg_of_neg_of_pos (by norm_num) (add_pos (add_pos h1 h2) h3)

/-- Claim C16. For fixed `X`, `U²`, `U³` and `STEPSIZE`, the magnitude of `stepsize` does not
increase when `|U¹|` grows. -/
theorem stepsize_antitone_U1 (STEPSIZE : α) (X_u U_u U_u' : Fin 4 → α)
    (h2 : U_u' 2 = U_u 2) (h3 : U_u' 3 = U_u 3) (h : |U_u 1| ≤ |U_u' 1|) :
    |stepsize STEPSIZE X_u U_u'| ≤ |stepsize STEPSIZE X_u U_u| := by
  rw [stepsize_abs, stepsize_abs, h2, h3]
  have hd : |STEPSIZE / (|U_u' 1| + 1e-40 * 1e-40)| ≤ |STEPSIZE / (|U_u 1| + 1e-40 * 1e-40)| := by
    rw [abs_div, abs_div]
    apply div_le_div_of_nonneg_left (abs_nonneg _)
    · exact abs_pos.mpr (ne_of_gt (add_pos_of_nonneg_of_pos (abs_nonneg _) small_sq_pos))
    · rw [abs_of_pos (add_pos_of_nonneg_of_pos (abs_nonneg (U_u 1)) small_sq_pos),
        abs_of_pos (add_pos_of_nonneg_of_pos (abs_nonneg (U_u' 1)) small_sq_pos)]
      exact add_le_add_right h _
  have hi := inv_step_anti _ _ hd
  have h1 := inv_step_pos (STEPSIZE / (|U_u 1| + 1e-40 * 1e-40))
  have h2' := inv_step_pos (STEPSIZE * min (X_u 2) (M_PI - X_u 2) / (|U_u 2| + 1e-40 * 1e-40))
  have h3' := inv_step_pos (STEPSIZE / (|U_u 3| + 1e-40 * 1e-40))
  apply one_div_le_one_div_of_le (add_pos (add_pos h1 h2') h3')
  exact add_le_add_right (add_le_add_right hi _) _

/-- Witness for claim C16: `|U¹|` grows from 1 to 2 at `X² = 1`, `STEPSIZE = 1`. -/
theorem stepsize_antitone_U1_witness :
    |stepsize (1 : ℚ) ![0, 10, 1, 0] ![1, 2, 1, 1]| ≤
      |stepsize (1 : ℚ) ![0, 10, 1, 0] ![1, 1, 1, 1]| :=
  stepsize_antitone_U1 1 ![0, 10, 1, 0] ![1, 1, 1, 1] ![1, 2, 1, 1] rfl rfl (by norm_num)

theorem M_PI_nonneg : (0 : α) ≤ M_PI := by
  unfold M_PI
  norm_num

/-- The magnitude of `stepsize` is at most the polar step `|dlx2|` plus the floor. -/
theorem stepsize_abs_le_polar (STEPSIZE : α) (X_u U_u : Fin 4 → α) :
    |stepsize STEPSIZE X_u U_u| ≤
      |STEPSIZE * min (X_u 2) (M_PI - X_u 2) / (|U_u 2| + 1e-40 * 1e-40)| + 1e-40 * 1e-40 := by
  have h1 := inv_step_pos (STEPSIZE / (|U_u 1| + 1e-40 * 1e-40))
  have h2 := inv_step_pos (STEPSIZE * min (X_u 2) (M_PI - X_u 2) / (|U_u 2| + 1e-40 * 1e-40))
  have h3 := inv_step_pos (STEPSIZE / (|U_u 3| + 1e-40 * 1e-40))
  rw [stepsize_abs]
  calc 1 / (1 / (|STEPSIZE / (|U_u 1| + 1e-40 * 1e-40)| + 1e-40 * 1e-40) +
        1 / (|STEPSIZE * min (X_u 2) (M_PI - X_u 2) / (|U_u 2| + 1e-40 * 1e-40)| +
          1e-40 * 1e-40) +
        1 / (|STEPSIZE / (|U_u 3| + 1e-40 * 1e-40)| + 1e-40 * 1e-40))
      ≤ 1 / (1 / (|STEPSIZE * min (X_u 2) (M_PI - X_u 2) / (|U_u 2| + 1e-40 * 1e-40)| +
          1e-40 * 1e-40)) := by
        apply one_div_le_one_div_of_le h2
        linarith
    _ = |STEPSIZE * min (X_u 2) (M_PI - X_u 2) / (|U_u 2| + 1e-40 * 1e-40)| +
          1e-40 * 1e-40 := one_div_one_div _

/-- Claim C17. Polar guard: `|stepsize(X, U)| ≤ |STEPSIZE·min(X², π − X²)| / (|U²| + 10⁻⁸⁰) +
10⁻⁸⁰` with `π` the constant `M_PI`; at `X² = 0` or `X² = M_PI` the magnitude is at most
`10⁻⁸⁰`; for `X²` in `[0, M_PI]` the magnitude is non-decreasing in `min(X², M_PI − X²)`. -/
theorem stepsize_polar_guard (STEPSIZE : α) (X_u U_u : Fin 4 → α) :
    |stepsize STEPSIZE X_u U_u| ≤
        |STEPSIZE * min (X_u 2) (M_PI - X_u 2)| / (|U_u 2| + 1e-80) + 1e-80 ∧
      (X_u 2 = 0 ∨ X_u 2 = M_PI → |stepsize STEPSIZE X_u U_u| ≤ 1e-80) ∧
      ∀ X_u' : Fin 4 → α, 0 ≤ X_u 2 → X_u 2 ≤ M_PI → 0 ≤ X_u' 2 → X_u' 2 ≤ M_PI →
        min (X_u 2) (M_PI - X_u 2) ≤ min (X_u' 2) (M_PI - X_u' 2) →
        |stepsize STEPSIZE X_u U_u| ≤ |stepsize STEPSIZE X_u' U_u| := by
  have hden : (0 : α) < |U_u 2| + 1e-40 * 1e-40 :=
    add_pos_of_nonneg_of_pos (abs_nonneg _) small_sq_pos
  have hle := stepsize_abs_le_polar STEPSIZE X_u U_u
  rw [abs_div, abs_of_pos hden, small_sq_eq] at hle
  refine ⟨hle, ?_, ?_⟩
  · intro h0
    have hmin : min (X_u 2) (M_PI - X_u 2) = 0 := by
      rcases h0 with h | h
      · rw [h, sub_zero]; exact min_eq_left M_PI_nonneg
      · rw [h, sub_self]; exact min_eq_right M_PI_nonneg
    rw [hmin, mul_zero, abs_zero, zero_div, zero_add] at hle
    exact hle
  · intro X_u' a0 a1 b0 b1 hmin
    have m0 : 0 ≤ min (X_u 2) (M_PI - X_u 2) := le_min a0 (sub_nonneg.mpr a1)
    have m0' : 0 ≤ min (X_u' 2) (M_PI - X_u' 2) := le_min b0 (sub_nonneg.mpr b1)
    have hd : |STEPSIZE * min (X_u 2) (M_PI - X_u 2) / (|U_u 2| + 1e-40 * 1e-40)| ≤
        |STEPSIZE * min (X_u' 2) (M_PI - X_u' 2) / (|U_u 2| + 1e-40 * 1e-40)| := by
      rw [abs_div, abs_div, abs_mul, abs_mul, abs_of_nonneg m0, abs_of_nonneg m0']
      exact div_le_div_of_nonneg_right (mul_le_mul_of_nonneg_left hmin (abs_nonneg _))
        (abs_nonneg _)
    have hi := inv_step_anti _ _ hd
    have h1 := inv_step_pos (STEPSIZE / (|U_u 1| + 1e-40 * 1e-40))
    have h2 := inv_step_pos (STEPSIZE * min (X_u' 2) (M_PI - X_u' 2) / (|U_u 2| + 1e-40 * 1e-40))
    have h3 := inv_step_pos (STEPSIZE / (|U_u 3| + 1e-40 * 1e-40))
    rw [stepsize_abs, stepsize_abs]
    apply one_div_le_one_div_of_le (add_pos (add_pos h1 h2) h3)
    linarith

/-- Witness for claim C17: on the pole `X² = 0` the step is at the floor, and the step at
`X² = 1/2` is no longer than the step at `X² = 1`. -/
theorem stepsize_polar_guard_witness :
    |stepsize (1 : ℚ) ![0, 10, 0, 0] ![1, 1, 1, 1]| ≤ 1e-80 ∧
      |stepsize (1 : ℚ) ![0, 10, 1 / 2, 0] ![1, 1, 1, 1]| ≤
        |stepsize (1 : ℚ) ![0, 10, 1, 0] ![1, 1, 1, 1]| :=
  ⟨(stepsize_polar_guard 1 ![0, 10, 0, 0] ![1, 1, 1, 1]).2.1 (Or.inl rfl),
    (stepsize_polar_guard 1 ![0, 10, 1 / 2, 0] ![1, 1, 1, 1]).2.2 ![0, 10, 1, 0]
      (by norm_num) (by norm_num [M_PI]) (by norm_num) (by norm_num [M_PI])
      (by norm_num [M_PI, min_def])⟩

/-- A pass of the loop runs only with the radius strictly inside the cutoffs and with
`steps < max_steps`, whichever variant of the loop head is compiled. -/
theorem loop_cond_true (c : Setup α) (cutoff_inner : α) (s : TraceState α)
    (h : loop_cond c cutoff_inner s = true) :
    cutoff_inner < s.r_current ∧ s.r_current < c.cutoff_outer ∧ s.steps < c.max_steps ∧
      s.TERMINATE = false := by
  unfold loop_cond at h
  cases hm : c.metric <;> simp [hm] at h <;> obtain ⟨⟨⟨h1, h2⟩, h3⟩, h4⟩ := h
  · exact ⟨h1, h2, h3, h4⟩
  · exact ⟨h2, h1, h3, h4⟩

theorem loop_cond_false (c : Setup α) (cutoff_inner : α) (s : TraceState α)
    (h : loop_cond c cutoff_inner s = false) :
    s.r_current ≤ cutoff_inner ∨ c.cutoff_outer ≤ s.r_current ∨ c.max_steps ≤ s.steps ∨
      s.TERMINATE = true := by
  by_contra hne
  push_neg at hne
  obtain ⟨h1, h2, h3, h4⟩ := hne
  have h4' : s.TERMINATE = false := by simpa using h4
  have : loop_cond c cutoff_inner s = true := by
    unfold loop_cond
    cases c.metric <;> simp [h1, h2, h3, h4']
  rw [h] at this
  exact Bool.noConfusion this

/-- Loop invariant for the radial bounds: `r_current` is the radius of `photon_u`, at most
`max_steps` samples are recorded, every recorded sample lies strictly inside the cutoffs, and
the buffer beyond the recorded samples is as the caller left it. -/
theorem trace_loop_bounds (c : Setup α) (beta cutoff_inner : α) (y0 : Fin 8 → α)
    (lightpath0 : ℕ → α) (fuel : ℕ) :
    ∀ s : TraceState α,
      (s.r_current = radius c s.photon_u ∧ s.photon_u = ray c y0 s.steps ∧
        s.steps ≤ c.max_steps ∧
        (∀ n, n < s.steps →
          cutoff_inner < radius c (ray c y0 n) ∧ radius c (ray c y0 n) < c.cutoff_outer) ∧
        ∀ idx, s.steps * 9 ≤ idx → s.lightpath idx = lightpath0 idx) →
      ((trace_loop c beta cutoff_inner fuel s).r_current =
          radius c (trace_loop c beta cutoff_inner fuel s).photon_u ∧
        (trace_loop c beta cutoff_inner fuel s).photon_u =
          ray c y0 (trace_loop c beta cutoff_inner fuel s).steps ∧
        (trace_loop c beta cutoff_inner fuel s).steps ≤ c.max_steps ∧
        (∀ n, n < (trace_loop c beta cutoff_inner fuel s).steps →
          cutoff_inner < radius c (ray c y0 n) ∧ radius c (ray c y0 n) < c.cutoff_outer) ∧
        ∀ idx, (trace_loop c beta cutoff_inner fuel s).steps * 9 ≤ idx →
          (trace_loop c beta cutoff_inner fuel s).lightpath idx = lightpath0 idx) := by
  induction fuel with
  | zero => intro s h; exact h
  | succ k ih =>
    intro s h
    unfold trace_loop
    split
    · rename_i hc
      obtain ⟨c1, c2, c3, _⟩ := loop_cond_true c cutoff_inner s hc
      obtain ⟨hr, hy, _, hin, hout⟩ := h
      apply ih
      refine ⟨rfl, ?_, ?_, ?_, ?_⟩
      · show advance_ray c s.photon_u _ = ray c y0 (s.steps + 1)
        rw [hy]; rfl
      · show s.steps + 1 ≤ c.max_steps
        omega
      · intro n hn
        have hn' : n < s.steps + 1 := hn
        rcases Nat.lt_succ_iff_lt_or_eq.mp hn' with hlt | heq
        · exact hin n hlt
        · subst heq
          rw [← hy, ← hr]
          exact ⟨c1, c2⟩
      · intro idx hidx
        have hidx' : (s.steps + 1) * 9 ≤ idx := hidx
        have e1 : idx ≠ s.steps * 9 + 8 := by omega
        have e2 : ¬ (s.steps * 9 ≤ idx ∧ idx < s.steps * 9 + 8) := by omega
        simp only [trace_body, e1, e2, if_false, dif_neg, not_false_eq_true]
        exact hout idx (by omega)
    · exact h

/-- The two variants of the loop head give the same loop condition. -/
theorem loop_cond_metric (c : Setup α) (m : MetricKind) (cutoff_inner : α) (s : TraceState α) :
    loop_cond { c with metric := m } cutoff_inner s = loop_cond c cutoff_inner s := by
  unfold loop_cond
  cases m <;> cases c.metric <;> simp [Bool.and_comm]

theorem trace_loop_metric (c : Setup α) (m : MetricKind) (beta cutoff_inner : α) (fuel : ℕ) :
    ∀ s : TraceState α,
      trace_loop { c with metric := m } beta cutoff_inner fuel s =
        trace_loop c beta cutoff_inner fuel s := by
  induction fuel with
  | zero => intro s; rfl
  | succ k ih =>
    intro s
    unfold trace_loop
    rw [loop_cond_metric]
    have hb : trace_body { c with metric := m } beta s = trace_body c beta s := rfl
    rw [hb, ih]

/-- Claim C13. `integrate_geodesic` returns with `steps ≤ max_steps` and a false loop
condition; every recorded sample `n < steps` has its radius (`X¹`, or `exp(X¹)` with
`logscale`) strictly between `cutoff_inner` and `cutoff_outer`; nothing is written beyond the
recorded samples; on return `r ≤ cutoff_inner`, `r ≥ cutoff_outer`, `steps = max_steps` or
`TERMINATE` holds; the two variants of the loop head give the same result. -/
theorem tracer_bounds (c : Setup α) (alpha beta : α) (photon_u : Fin 8 → α)
    (lightpath : ℕ → α) (cutoff_inner td : α) :
    (integrate_geodesic c alpha beta photon_u lightpath cutoff_inner td).steps ≤ c.max_steps ∧
    loop_cond c cutoff_inner
      (integrate_geodesic c alpha beta photon_u lightpath cutoff_inner td) = false ∧
    (∀ n, n < (integrate_geodesic c alpha beta photon_u lightpath cutoff_inner td).steps →
      cutoff_inner <
          (if c.logscale then
            c.exp ((integrate_geodesic c alpha beta photon_u lightpath cutoff_inner td).lightpath
              (n * 9 + 1))
          else (integrate_geodesic c alpha beta photon_u lightpath cutoff_inner td).lightpath
              (n * 9 + 1)) ∧
        (if c.logscale then
            c.exp ((integrate_geodesic c alpha beta photon_u lightpath cutoff_inner td).lightpath
              (n * 9 + 1))
          else (integrate_geodesic c alpha beta photon_u lightpath cutoff_inner td).lightpath
              (n * 9 + 1)) < c.cutoff_outer) ∧
    (∀ idx,
      (integrate_geodesic c alpha beta photon_u lightpath cutoff_inner td).steps * 9 ≤ idx →
      (integrate_geodesic c alpha beta photon_u lightpath cutoff_inner td).lightpath idx =
        lightpath idx) ∧
    ((integrate_geodesic c alpha beta photon_u lightpath cutoff_inner td).r_current ≤
        cutoff_inner ∨
      c.cutoff_outer ≤
        (integrate_geodesic c alpha beta photon_u lightpath cutoff_inner td).r_current ∨
      (integrate_geodesic c alpha beta photon_u lightpath cutoff_inner td).steps = c.max_steps ∨
      (integrate_geodesic c alpha beta photon_u lightpath cutoff_inner td).TERMINATE = true) ∧
    integrate_geodesic { c with metric := MetricKind.BLlike } alpha beta photon_u lightpath
        cutoff_inner td =
      integrate_geodesic { c with metric := MetricKind.KSlike } alpha beta photon_u lightpath
        cutoff_inner td := by
  have hexit : loop_cond c cutoff_inner
      (integrate_geodesic c alpha beta photon_u lightpath cutoff_inner td) = false := by
    unfold integrate_geodesic
    apply trace_loop_exit
    show c.max_steps ≤ 0 + c.max_steps
    omega
  have hrec := integrate_geodesic_recorded c alpha beta photon_u lightpath cutoff_inner td
  have hb : _ := trace_loop_bounds c beta cutoff_inner (c.initialize_photon alpha beta photon_u 0)
    lightpath c.max_steps
    { photon_u := c.initialize_photon alpha beta photon_u 0
      lightpath := lightpath
      steps := 0
      theta_turns := 0
      thetadot_prev := td
      TERMINATE := false
      lambda := 0
      r_current := radius c (c.initialize_photon alpha beta photon_u 0) }
    ⟨rfl, rfl, Nat.zero_le _, fun n hn => absurd hn (Nat.not_lt_zero n), fun idx _ => rfl⟩
  obtain ⟨_, _, hsteps, hin, hout⟩ := hb
  refine ⟨hsteps, hexit, ?_, hout, ?_, ?_⟩
  · intro n hn
    have h1 := (hrec.2 n hn).1 1
    have h2 := hin n hn
    have e : (n * 9 + ((1 : Fin 8) : ℕ)) = n * 9 + 1 := rfl
    rw [e] at h1
    unfold radius at h2
    rw [← h1] at h2
    exact h2
  · rcases loop_cond_false c cutoff_inner _ hexit with h | h | h | h
    · exact Or.inl h
    · exact Or.inr (Or.inl h)
    · exact Or.inr (Or.inr (Or.inl (le_antisymm hsteps h)))
    · exact Or.inr (Or.inr (Or.inr h))
  · unfold integrate_geodesic
    rw [trace_loop_metric c MetricKind.BLlike, trace_loop_metric c MetricKind.KSlike]
    rfl

/-- Witness for claim C13: the first sample of the flat-spacetime ray has radius 10, between
the cutoffs 1 and 100. -/
theorem tracer_bounds_witness :
    (1 : ℚ) <
        (if flatSetup.logscale then
          flatSetup.exp ((integrate_geodesic flatSetup 0 0 (fun _ => 0) (fun _ => 0) 1 0).lightpath
            (0 * 9 + 1))
        else (integrate_geodesic flatSetup 0 0 (fun _ => 0) (fun _ => 0) 1 0).lightpath
            (0 * 9 + 1)) ∧
      (if flatSetup.logscale then
          flatSetup.exp ((integrate_geodesic flatSetup 0 0 (fun _ => 0) (fun _ => 0) 1 0).lightpath
            (0 * 9 + 1))
        else (integrate_geodesic flatSetup 0 0 (fun _ => 0) (fun _ => 0) 1 0).lightpath
            (0 * 9 + 1)) < flatSetup.cutoff_outer :=
  (tracer_bounds flatSetup 0 0 (fun _ => 0) (fun _ => 0) 1 0).2.2.1 0
    (by rw [flatSetup_steps]; exact Nat.zero_lt_one)

/-- Claim C14. Path record: for every `n < steps` the slots `lightpath[9n .. 9n+7]` hold the
state `Y_n` and slot `9n+8` holds `|stepsize(X_n, U_n)| ≥ 0`, where `Y_0` is the state made
by `initialize_photon` and `Y_{n+1}` is the chosen stepper applied to `Y_n` with `f_geodesic`
and the signed step `stepsize(X_n, U_n)`; on return `photon_u` is `Y_steps`. -/
theorem path_record (c : Setup α) (alpha beta : α) (photon_u : Fin 8 → α)
    (lightpath : ℕ → α) (cutoff_inner td : α) (n : ℕ)
    (hn : n < (integrate_geodesic c alpha beta photon_u lightpath cutoff_inner td).steps) :
    (∀ q : Fin 8,
      (integrate_geodesic c alpha beta photon_u lightpath cutoff_inner td).lightpath
          (n * 9 + q.val) = ray c (c.initialize_photon alpha beta photon_u 0) n q) ∧
    (integrate_geodesic c alpha beta photon_u lightpath cutoff_inner td).lightpath (n * 9 + 8) =
      |stepsize c.STEPSIZE (pos (ray c (c.initialize_photon alpha beta photon_u 0) n))
        (vel (ray c (c.initialize_photon alpha beta photon_u 0) n))| ∧
    0 ≤ (integrate_geodesic c alpha beta photon_u lightpath cutoff_inner td).lightpath
      (n * 9 + 8) ∧
    ray c (c.initialize_photon alpha beta photon_u 0) 0 =
      c.initialize_photon alpha beta photon_u 0 ∧
    ray c (c.initialize_photon alpha beta photon_u 0) (n + 1) =
      (match c.int_method with
        | IntMethod.RK4 => rk4_step (f_geodesic c.connection_udd)
            (ray c (c.initialize_photon alpha beta photon_u 0) n)
            (stepsize c.STEPSIZE (pos (ray c (c.initialize_photon alpha beta photon_u 0) n))
              (vel (ray c (c.initialize_photon alpha beta photon_u 0) n)))
        | IntMethod.VER => verlet_step (f_geodesic c.connection_udd)
            (ray c (c.initialize_photon alpha beta photon_u 0) n)
            (stepsize c.STEPSIZE (pos (ray c (c.initialize_photon alpha beta photon_u 0) n))
              (vel (ray c (c.initialize_photon alpha beta photon_u 0) n)))) ∧
    (integrate_geodesic c alpha beta photon_u lightpath cutoff_inner td).photon_u =
      ray c (c.initialize_photon alpha beta photon_u 0)
        (integrate_geodesic c alpha beta photon_u lightpath cutoff_inner td).steps := by
  obtain ⟨hy, hrec⟩ :=
    integrate_geodesic_recorded c alpha beta photon_u lightpath cutoff_inner td
  obtain ⟨h1, h2⟩ := hrec n hn
  refine ⟨h1, h2, ?_, rfl, rfl, hy⟩
  rw [h2]
  exact abs_nonneg _

/-- Witness for claim C14: sample 0 of the flat-spacetime ray. -/
theorem path_record_witness :
    (integrate_geodesic flatSetup 0 0 (fun _ => 0) (fun _ => 0) 1 0).lightpath (0 * 9 + 8) =
      |stepsize flatSetup.STEPSIZE
        (pos (ray flatSetup (flatSetup.initialize_photon 0 0 (fun _ => 0) 0) 0))
        (vel (ray flatSetup (flatSetup.initialize_photon 0 0 (fun _ => 0) 0) 0))| :=
  (path_record flatSetup 0 0 (fun _ => 0) (fun _ => 0) 1 0 0
    (by rw [flatSetup_steps]; exact Nat.zero_lt_one)).2.1

theorem counted_flips_succ (U2 : ℕ → α) (N : ℕ) :
    counted_flips U2 (N + 1) =
      counted_flips U2 N + (if 3 ≤ N ∧ U2 (N - 1) * U2 N < 0 then 1 else 0) := by
  unfold counted_flips
  rw [Finset.range_succ, Finset.filter_insert]
  split_ifs with h
  · rw [Finset.card_insert_of_not_mem]
    intro hmem
    have := (Finset.mem_filter.mp hmem).1
    exact absurd (Finset.mem_range.mp this) (lt_irrefl N)
  · rfl

theorem sign_flips_le (U2 : ℕ → α) (N : ℕ) : sign_flips U2 N ≤ counted_flips U2 N + 2 := by
  unfold sign_flips counted_flips
  have hsub : (Finset.range N).filter (fun n => 1 ≤ n ∧ U2 (n - 1) * U2 n < 0) ⊆
      (Finset.range N).filter (fun n => 3 ≤ n ∧ U2 (n - 1) * U2 n < 0) ∪ {1, 2} := by
    intro n hn
    obtain ⟨h1, h2, h3⟩ := Finset.mem_filter.mp hn
    by_cases h : 3 ≤ n
    · exact Finset.mem_union_left _ (Finset.mem_filter.mpr ⟨h1, h, h3⟩)
    · apply Finset.mem_union_right
      have : n = 1 ∨ n = 2 := by omega
      rcases this with e | e <;> simp [e]
  calc ((Finset.range N).filter (fun n => 1 ≤ n ∧ U2 (n - 1) * U2 n < 0)).card
      ≤ ((Finset.range N).filter (fun n => 3 ≤ n ∧ U2 (n - 1) * U2 n < 0) ∪ {1, 2}).card :=
        Finset.card_le_card hsub
    _ ≤ ((Finset.range N).filter (fun n => 3 ≤ n ∧ U2 (n - 1) * U2 n < 0)).card +
          ({1, 2} : Finset ℕ).card := Finset.card_union_le _ _
    _ = _ := by simp

theorem flips_congr (U2 V2 : ℕ → α) (N : ℕ) (h : ∀ n, n < N → U2 n = V2 n) :
    sign_flips U2 N = sign_flips V2 N ∧ counted_flips U2 N = counted_flips V2 N := by
  unfold sign_flips counted_flips
  constructor
  · congr 1
    apply Finset.filter_congr
    intro n hn
    have hn' := Finset.mem_range.mp hn
    rw [h n hn', h (n - 1) (by omega)]
  · congr 1
    apply Finset.filter_congr
    intro n hn
    have hn' := Finset.mem_range.mp hn
    rw [h n hn', h (n - 1) (by omega)]

theorem trace_body_turns (c : Setup α) (beta cutoff_inner : α) (y0 : Fin 8 → α)
    (s : TraceState α) (hc : loop_cond c cutoff_inner s = true) (h : TurnsInv c beta y0 s) :
    TurnsInv c beta y0 (trace_body c beta s) := by
  obtain ⟨hy, hprev, htt, hT, _, _⟩ := h
  obtain ⟨_, _, _, hterm⟩ := loop_cond_true c cutoff_inner s hc
  obtain ⟨hneg, hpos⟩ := hT hterm
  have hcond : (s.thetadot_prev * s.photon_u 6 < 0 ∧ s.steps > 2) ↔
      (3 ≤ s.steps ∧ ray c y0 (s.steps - 1) 6 * ray c y0 s.steps 6 < 0) := by
    constructor
    · rintro ⟨h1, h2⟩
      rw [hprev (by omega), hy] at h1
      exact ⟨h2, h1⟩
    · rintro ⟨h1, h2⟩
      rw [hprev (by omega), hy]
      exact ⟨h2, h1⟩
  have htt' : (trace_body c beta s).theta_turns =
      counted_flips (fun n => ray c y0 n 6) (s.steps + 1) := by
    rw [counted_flips_succ, ← htt]
    show (if s.thetadot_prev * s.photon_u 6 < 0 ∧ s.steps > 2 then s.theta_turns + 1
      else s.theta_turns) = _
    by_cases hb : s.thetadot_prev * s.photon_u 6 < 0 ∧ s.steps > 2
    · rw [if_pos hb, if_pos (hcond.mp hb)]
    · rw [if_neg hb, if_neg (fun h' => hb (hcond.mpr h'))]
      rfl
  have hle : (trace_body c beta s).theta_turns ≤ s.theta_turns + 1 := by
    show (if s.thetadot_prev * s.photon_u 6 < 0 ∧ s.steps > 2 then s.theta_turns + 1
      else s.theta_turns) ≤ _
    split_ifs <;> omega
  refine ⟨?_, ?_, htt', ?_, ?_, ?_⟩
  · show advance_ray c s.photon_u _ = ray c y0 (s.steps + 1)
    rw [hy]; rfl
  · intro _
    show s.photon_u 6 = ray c y0 (s.steps + 1 - 1) 6
    rw [hy]
    rfl
  · intro hT'
    have hT'' : (if (beta < 0 ∧ ((trace_body c beta s).theta_turns : ℤ) > c.max_order) ∨
        (beta > 0 ∧ ((trace_body c beta s).theta_turns : ℤ) > c.max_order + 1) then true
        else s.TERMINATE) = false := hT'
    by_cases hb : (beta < 0 ∧ ((trace_body c beta s).theta_turns : ℤ) > c.max_order) ∨
        (beta > 0 ∧ ((trace_body c beta s).theta_turns : ℤ) > c.max_order + 1)
    · rw [if_pos hb] at hT''
      exact Bool.noConfusion hT''
    · push_neg at hb
      exact ⟨fun hβ => hb.1 hβ, fun hβ => hb.2 hβ⟩
  · intro hβ
    have := hneg hβ
    have h2 : ((trace_body c beta s).theta_turns : ℤ) ≤ (s.theta_turns : ℤ) + 1 := by
      exact_mod_cast hle
    linarith
  · intro hβ
    have := hpos hβ
    have h2 : ((trace_body c beta s).theta_turns : ℤ) ≤ (s.theta_turns : ℤ) + 1 := by
      exact_mod_cast hle
    linarith

theorem trace_loop_turns (c : Setup α) (beta cutoff_inner : α) (y0 : Fin 8 → α) (fuel : ℕ) :
    ∀ s : TraceState α, TurnsInv c beta y0 s →
      TurnsInv c beta y0 (trace_loop c beta cutoff_inner fuel s) := by
  induction fuel with
  | zero => intro s h; exact h
  | succ k ih =>
    intro s h
    unfold trace_loop
    split
    · rename_i hc
      exact ih _ (trace_body_turns c beta cutoff_inner y0 s hc h)
    · exact h

theorem integrate_geodesic_turns (c : Setup α) (h0 : 0 ≤ c.max_order) (alpha beta : α)
    (photon_u : Fin 8 → α) (lightpath : ℕ → α) (cutoff_inner td : α) :
    TurnsInv c beta (c.initialize_photon alpha beta photon_u 0)
      (integrate_geodesic c alpha beta photon_u lightpath cutoff_inner td) := by
  unfold integrate_geodesic
  apply trace_loop_turns
  refine ⟨rfl, ?_, ?_, ?_, ?_, ?_⟩
  · intro h
    have h' : 1 ≤ 0 := h
    omega
  · simp [counted_flips]
  · intro _
    refine ⟨fun _ => ?_, fun _ => ?_⟩
    · simpa using h0
    · show ((0 : ℕ) : ℤ) ≤ c.max_order + 1
      simp only [Nat.cast_zero]
      linarith
  · intro _
    show ((0 : ℕ) : ℤ) ≤ c.max_order + 1
    simp only [Nat.cast_zero]
    linarith
  · intro _
    show ((0 : ℕ) : ℤ) ≤ c.max_order + 2
    simp only [Nat.cast_zero]
    linarith

theorem stepsize_zero (X_u U_u : Fin 4 → α) : stepsize 0 X_u U_u = -(1e-80 / 3) := by
  rw [stepsize_eq]
  simp only [zero_div, zero_mul, abs_zero, zero_add]
  norm_num

theorem verlet_step_pos (f : (Fin 8 → α) → Fin 8 → α) (y : Fin 8 → α) (dl : α) (i : Fin 4) :
    pos (verlet_step f y dl) i = pos y i + (dl * vel y i + 0.5 * dl * dl * vel (f y) i) := by
  unfold verlet_step
  simp only [pos_join]

theorem verlet_step_vel (f : (Fin 8 → α) → Fin 8 → α) (y : Fin 8 → α) (dl : α) (i : Fin 4) :
    vel (verlet_step f y dl) i =
      vel y i + 0.5 * (vel (f y) i +
        vel (f (join (fun i => pos y i + (dl * vel y i + 0.5 * dl * dl * vel (f y) i))
          (fun i => vel y i + vel (f y) i * dl))) i) * dl := by
  unfold verlet_step
  simp only [vel_join]

theorem cull_acceleration (y : Fin 8 → ℚ) (i : Fin 4) :
    vel (f_geodesic cull_connection y) i =
      if i = 2 then -(cull_gamma (pos y 0) * vel y 0 * vel y 0) else 0 := by
  unfold f_geodesic
  rw [vel_join]
  fin_cases i <;> simp [finRange_four, cull_connection]

/-- One Verlet step of the culling configuration from a state with `U⁰ = 1`, `U¹ = 0`:
`X⁰` moves by `-10⁻⁸⁰/3`, `X¹`, `U⁰` and `U¹` stay, and `U²` changes by half the sum of
the accelerations before and after, times the step. -/
theorem cull_advance (y : Fin 8 → ℚ) (h4 : vel y 0 = 1) (h5 : vel y 1 = 0) :
    pos (advance_ray cullSetup y (stepsize cullSetup.STEPSIZE (pos y) (vel y))) 0 =
      pos y 0 - 1e-80 / 3 ∧
    pos (advance_ray cullSetup y (stepsize cullSetup.STEPSIZE (pos y) (vel y))) 1 = pos y 1 ∧
    vel (advance_ray cullSetup y (stepsize cullSetup.STEPSIZE (pos y) (vel y))) 0 = 1 ∧
    vel (advance_ray cullSetup y (stepsize cullSetup.STEPSIZE (pos y) (vel y))) 1 = 0 ∧
    vel (advance_ray cullSetup y (stepsize cullSetup.STEPSIZE (pos y) (vel y))) 2 =
      vel y 2 + 0.5 * (-cull_gamma (pos y 0) + -cull_gamma (pos y 0 - 1e-80 / 3)) *
        -(1e-80 / 3) := by
  have hs : cullSetup.STEPSIZE = 0 := rfl
  have hm : advance_ray cullSetup y (stepsize cullSetup.STEPSIZE (pos y) (vel y)) =
      verlet_step (f_geodesic cull_connection) y (-(1e-80 / 3)) := by
    rw [hs, stepsize_zero]
    rfl
  rw [hm]
  have a0 : vel (f_geodesic cull_connection y) 0 = 0 := by rw [cull_acceleration]; simp
  have a1 : vel (f_geodesic cull_connection y) 1 = 0 := by rw [cull_acceleration]; simp
  refine ⟨?_, ?_, ?_, ?_, ?_⟩
  · rw [verlet_step_pos, a0, h4]; ring
  · rw [verlet_step_pos, a1, h5]; ring
  · rw [verlet_step_vel, a0, cull_acceleration, h4]; simp
  · rw [verlet_step_vel, a1, cull_acceleration, h5]; simp
  · rw [verlet_step_vel, cull_acceleration, cull_acceleration, pos_join, vel_join, if_pos rfl,
      if_pos rfl, a0, h4]
    ring_nf

/-- With at most three passes allowed and `max_order ≥ 0` the culling counter stays 0, so the
loop runs `max_steps` passes whenever the radius of every sample stays inside the cutoffs. -/
theorem trace_loop_short (c : Setup α) (beta cutoff_inner : α) (y0 : Fin 8 → α)
    (h0 : 0 ≤ c.max_order) (hmax : c.max_steps ≤ 3)
    (hin : ∀ n, n < c.max_steps →
      cutoff_inner < radius c (ray c y0 n) ∧ radius c (ray c y0 n) < c.cutoff_outer)
    (fuel : ℕ) :
    ∀ s : TraceState α, s.steps + fuel = c.max_steps → s.photon_u = ray c y0 s.steps →
      s.r_current = radius c s.photon_u → s.theta_turns = 0 → s.TERMINATE = false →
      (trace_loop c beta cutoff_inner fuel s).steps = c.max_steps := by
  induction fuel with
  | zero =>
    intro s hs _ _ _ _
    simpa using hs
  | succ k ih =>
    intro s hs hy hr htt hT
    have hlt : s.steps < c.max_steps := by omega
    obtain ⟨r1, r2⟩ := hin s.steps hlt
    rw [← hy, ← hr] at r1 r2
    have hc : loop_cond c cutoff_inner s = true := by
      unfold loop_cond
      cases c.metric <;> simp [r1, r2, hlt, hT]
    unfold trace_loop
    rw [if_pos hc]
    have h2 : ¬ (s.thetadot_prev * s.photon_u 6 < 0 ∧ s.steps > 2) := by
      intro h
      omega
    have htt' : (trace_body c beta s).theta_turns = 0 := by
      show (if s.thetadot_prev * s.photon_u 6 < 0 ∧ s.steps > 2 then s.theta_turns + 1
        else s.theta_turns) = 0
      rw [if_neg h2, htt]
    have hT' : (trace_body c beta s).TERMINATE = false := by
      show (if (beta < 0 ∧ ((trace_body c beta s).theta_turns : ℤ) > c.max_order) ∨
        (beta > 0 ∧ ((trace_body c beta s).theta_turns : ℤ) > c.max_order + 1) then true
        else s.TERMINATE) = false
      rw [htt', hT, if_neg]
      simp only [Nat.cast_zero]
      intro h
      rcases h with ⟨_, h⟩ | ⟨_, h⟩ <;> linarith
    apply ih
    · show s.steps + 1 + k = c.max_steps
      omega
    · show advance_ray c s.photon_u _ = ray c y0 (s.steps + 1)
      rw [hy]; rfl
    · rfl
    · exact htt'
    · exact hT'

theorem cull_gamma_values :
    cull_gamma 0 = -12e80 ∧ cull_gamma (0 - 1e-80 / 3) = 0 ∧
      cull_gamma (0 - 1e-80 / 3 - 1e-80 / 3) = 12e80 := by
  unfold cull_gamma
  norm_num

/-- The first three samples of the culling ray: `X¹ = 10`, `U⁰ = 1`, `U¹ = 0` throughout and
`U² = 1, -1, 1`. -/
theorem cull_ray :
    (pos (ray cullSetup ![0, 10, 1, 0, 1, 0, 1, 0] 0) 1 = 10 ∧
      vel (ray cullSetup ![0, 10, 1, 0, 1, 0, 1, 0] 0) 2 = 1) ∧
    (pos (ray cullSetup ![0, 10, 1, 0, 1, 0, 1, 0] 1) 1 = 10 ∧
      vel (ray cullSetup ![0, 10, 1, 0, 1, 0, 1, 0] 1) 2 = -1) ∧
    (pos (ray cullSetup ![0, 10, 1, 0, 1, 0, 1, 0] 2) 1 = 10 ∧
      vel (ray cullSetup ![0, 10, 1, 0, 1, 0, 1, 0] 2) 2 = 1) := by
  obtain ⟨g0, g1, g2⟩ := cull_gamma_values
  have p0 : pos (ray cullSetup ![0, 10, 1, 0, 1, 0, 1, 0] 0) 0 = 0 := rfl
  have p1 : pos (ray cullSetup ![0, 10, 1, 0, 1, 0, 1, 0] 0) 1 = 10 := rfl
  have v0 : vel (ray cullSetup ![0, 10, 1, 0, 1, 0, 1, 0] 0) 0 = 1 := rfl
  have v1 : vel (ray cullSetup ![0, 10, 1, 0, 1, 0, 1, 0] 0) 1 = 0 := rfl
  have v2 : vel (ray cullSetup ![0, 10, 1, 0, 1, 0, 1, 0] 0) 2 = 1 := rfl
  obtain ⟨q0, q1, w0, w1, w2⟩ := cull_advance (ray cullSetup ![0, 10, 1, 0, 1, 0, 1, 0] 0) v0 v1
  rw [p0] at q0 w2
  rw [p1] at q1
  rw [v2, g0, g1] at w2
  have e1 : ray cullSetup ![0, 10, 1, 0, 1, 0, 1, 0] 1 =
      advance_ray cullSetup (ray cullSetup ![0, 10, 1, 0, 1, 0, 1, 0] 0)
        (stepsize cullSetup.STEPSIZE (pos (ray cullSetup ![0, 10, 1, 0, 1, 0, 1, 0] 0))
          (vel (ray cullSetup ![0, 10, 1, 0, 1, 0, 1, 0] 0))) := rfl
  rw [← e1] at q0 q1 w0 w1 w2
  obtain ⟨r0, r1, x0, x1, x2⟩ := cull_advance (ray cullSetup ![0, 10, 1, 0, 1, 0, 1, 0] 1) w0 w1
  rw [q0] at r0 x2
  rw [q1] at r1
  rw [w2, g1, g2] at x2
  have e2 : ray cullSetup ![0, 10, 1, 0, 1, 0, 1, 0] 2 =
      advance_ray cullSetup (ray cullSetup ![0, 10, 1, 0, 1, 0, 1, 0] 1)
        (stepsize cullSetup.STEPSIZE (pos (ray cullSetup ![0, 10, 1, 0, 1, 0, 1, 0] 1))
          (vel (ray cullSetup ![0, 10, 1, 0, 1, 0, 1, 0] 1))) := rfl
  rw [← e2] at r0 r1 x0 x1 x2
  refine ⟨⟨p1, v2⟩, ⟨q1, ?_⟩, ⟨r1, ?_⟩⟩
  · rw [w2]; norm_num
  · rw [x2]; norm_num

theorem cull_radius (y : Fin 8 → ℚ) : radius cullSetup y = pos y 1 := by
  simp [radius, cullSetup, pos]

theorem cullSetup_steps :
    (integrate_geodesic cullSetup 0 (-1) (fun _ => 0) (fun _ => 0) 1 0).steps = 3 := by
  obtain ⟨⟨a0, _⟩, ⟨a1, _⟩, ⟨a2, _⟩⟩ := cull_ray
  have h := trace_loop_short cullSetup (-1) 1 ![0, 10, 1, 0, 1, 0, 1, 0]
    (le_refl (0 : ℤ)) (le_refl 3)
    (by
      intro n hn
      have hn' : n < 3 := hn
      rw [cull_radius]
      have hc : cullSetup.cutoff_outer = 100 := rfl
      rw [hc]
      interval_cases n
      · rw [a0]; norm_num
      · rw [a1]; norm_num
      · rw [a2]; norm_num)
    3
    { photon_u := ![0, 10, 1, 0, 1, 0, 1, 0]
      lightpath := fun _ => 0
      steps := 0
      theta_turns := 0
      thetadot_prev := 0
      TERMINATE := false
      lambda := 0
      r_current := radius cullSetup ![0, 10, 1, 0, 1, 0, 1, 0] }
    rfl rfl rfl rfl rfl
  exact h

theorem cull_sign_flips :
    sign_flips (fun n =>
      (integrate_geodesic cullSetup 0 (-1) (fun _ => 0) (fun _ => 0) 1 0).lightpath (n * 9 + 6))
      (integrate_geodesic cullSetup 0 (-1) (fun _ => 0) (fun _ => 0) 1 0).steps = 2 := by
  obtain ⟨⟨_, b0⟩, ⟨_, b1⟩, ⟨_, b2⟩⟩ := cull_ray
  obtain ⟨_, hrec⟩ :=
    integrate_geodesic_recorded cullSetup 0 (-1) (fun _ => 0) (fun _ => 0) 1 0
  have hcong := (flips_congr
    (fun n =>
      (integrate_geodesic cullSetup 0 (-1) (fun _ => 0) (fun _ => 0) 1 0).lightpath (n * 9 + 6))
    (fun n => vel (ray cullSetup ![0, 10, 1, 0, 1, 0, 1, 0] n) 2)
    (integrate_geodesic cullSetup 0 (-1) (fun _ => 0) (fun _ => 0) 1 0).steps
    (fun n hn => (hrec n hn).1 6)).1
  rw [hcong, cullSetup_steps]
  unfold sign_flips
  rw [Finset.card_filter]
  simp only [Finset.sum_range_succ, Finset.sum_range_zero]
  simp [b0, b1, b2]

/-- Claim C12, amended. Order culling with `max_order ≥ 0`: the loop counts a sign flip of
`U²` between the recorded samples `n - 1` and `n` only for `n ≥ 3` (the guard `*steps > 2`);
the counted flips of a recorded path are at most `max_order + 2` when `β > 0` and at most
`max_order + 1` when `β < 0`, and all sign flips, the two uncounted positions included, are
at most `max_order + 4` when `β > 0` and at most `max_order + 3` when `β < 0`. -/
theorem order_culling (c : Setup α) (h0 : 0 ≤ c.max_order) (alpha beta : α)
    (photon_u : Fin 8 → α) (lightpath : ℕ → α) (cutoff_inner td : α) :
    (beta > 0 →
      (counted_flips (fun n =>
          (integrate_geodesic c alpha beta photon_u lightpath cutoff_inner td).lightpath
            (n * 9 + 6))
        (integrate_geodesic c alpha beta photon_u lightpath cutoff_inner td).steps : ℤ) ≤
          c.max_order + 2 ∧
      (sign_flips (fun n =>
          (integrate_geodesic c alpha beta photon_u lightpath cutoff_inner td).lightpath
            (n * 9 + 6))
        (integrate_geodesic c alpha beta photon_u lightpath cutoff_inner td).steps : ℤ) ≤
          c.max_order + 4) ∧
    (beta < 0 →
      (counted_flips (fun n =>
          (integrate_geodesic c alpha beta photon_u lightpath cutoff_inner td).lightpath
            (n * 9 + 6))
        (integrate_geodesic c alpha beta photon_u lightpath cutoff_inner td).steps : ℤ) ≤
          c.max_order + 1 ∧
      (sign_flips (fun n =>
          (integrate_geodesic c alpha beta photon_u lightpath cutoff_inner td).lightpath
            (n * 9 + 6))
        (integrate_geodesic c alpha beta photon_u lightpath cutoff_inner td).steps : ℤ) ≤
          c.max_order + 3) := by
  obtain ⟨_, hrec⟩ :=
    integrate_geodesic_recorded c alpha beta photon_u lightpath cutoff_inner td
  obtain ⟨_, _, htt, _, hneg, hpos⟩ :=
    integrate_geodesic_turns c h0 alpha beta photon_u lightpath cutoff_inner td
  obtain ⟨e1, e2⟩ := flips_congr
    (fun n =>
      (integrate_geodesic c alpha beta photon_u lightpath cutoff_inner td).lightpath (n * 9 + 6))
    (fun n => ray c (c.initialize_photon alpha beta photon_u 0) n 6)
    (integrate_geodesic c alpha beta photon_u lightpath cutoff_inner td).steps
    (fun n hn => (hrec n hn).1 6)
  have hle := sign_flips_le (fun n => ray c (c.initialize_photon alpha beta photon_u 0) n 6)
    (integrate_geodesic c alpha beta photon_u lightpath cutoff_inner td).steps
  rw [e1, e2, ← htt]
  rw [← htt] at hle
  have hle' : (sign_flips (fun n => ray c (c.initialize_photon alpha beta photon_u 0) n 6)
      (integrate_geodesic c alpha beta photon_u lightpath cutoff_inner td).steps : ℤ) ≤
      ((integrate_geodesic c alpha beta photon_u lightpath cutoff_inner td).theta_turns : ℤ)
        + 2 := by
    exact_mod_cast hle
  refine ⟨fun hb => ⟨hpos hb, ?_⟩, fun hb => ⟨hneg hb, ?_⟩⟩
  · have := hpos hb
    linarith
  · have := hneg hb
    linarith

/-- Witness for claim C12 (amended): the retrograde culling run, whose bound is `0 + 3`. -/
theorem order_culling_witness :
    (0 : ℤ) ≤ cullSetup.max_order ∧
    (sign_flips (fun n =>
        (integrate_geodesic cullSetup 0 (-1) (fun _ => 0) (fun _ => 0) 1 0).lightpath
          (n * 9 + 6))
      (integrate_geodesic cullSetup 0 (-1) (fun _ => 0) (fun _ => 0) 1 0).steps : ℤ) ≤
        cullSetup.max_order + 3 :=
  ⟨le_refl 0,
    ((order_culling cullSetup (le_refl 0) 0 (-1) (fun _ => 0) (fun _ => 0) 1 0).2
      (by norm_num)).2⟩

/-- Counterexample to claim C12 as stated: with `max_order = 0` and `β = -1 < 0`, the Verlet
run of `cullSetup` records three samples with `U² = 1, -1, 1`, so the path has 2 sign flips,
more than `max_order + 1 = 1`; both flips sit at `n ≤ 2`, where the guard `*steps > 2` keeps
the loop from counting them. -/
theorem order_culling_counterexample :
    (-1 : ℚ) < 0 ∧ cullSetup.max_order = 0 ∧
    (integrate_geodesic cullSetup 0 (-1) (fun _ => 0) (fun _ => 0) 1 0).steps = 3 ∧
    sign_flips (fun n =>
        (integrate_geodesic cullSetup 0 (-1) (fun _ => 0) (fun _ => 0) 1 0).lightpath
          (n * 9 + 6))
      (integrate_geodesic cullSetup 0 (-1) (fun _ => 0) (fun _ => 0) 1 0).steps = 2 ∧
    ¬ ((sign_flips (fun n =>
        (integrate_geodesic cullSetup 0 (-1) (fun _ => 0) (fun _ => 0) 1 0).lightpath
          (n * 9 + 6))
      (integrate_geodesic cullSetup 0 (-1) (fun _ => 0) (fun _ => 0) 1 0).steps : ℤ) ≤
        cullSetup.max_order + 1) := by
  refine ⟨by norm_num, rfl, cullSetup_steps, cull_sign_flips, ?_⟩
  rw [cull_sign_flips]
  have h : cullSetup.max_order = 0 := rfl
  rw [h]
  norm_num

/-- Claim C22. Velocity-Verlet: for every `f`, state `(x, v)` and step `dl`, with `A` the
acceleration part of `f(x, v)`, `verlet_step` sets `x' = x + v·dl + ½·A·dl²` and
`v' = v + ½·(A + A')·dl`, where `A'` is the acceleration part of `f` at the predicted state
`(x', v + A·dl)`. -/
theorem verlet_step_velocity_verlet (f : (Fin 8 → α) → Fin 8 → α) (y : Fin 8 → α) (dl : α) :
    (∀ i, pos (verlet_step f y dl) i =
      pos y i + vel y i * dl + 1 / 2 * vel (f y) i * dl ^ 2) ∧
    (∀ i, vel (verlet_step f y dl) i =
      vel y i + 1 / 2 *
        (vel (f y) i +
          vel (f (join (pos (verlet_step f y dl)) (fun k => vel y k + vel (f y) k * dl))) i) *
        dl) := by
  have hpos : ∀ i, pos (verlet_step f y dl) i =
      pos y i + vel y i * dl + 1 / 2 * vel (f y) i * dl ^ 2 := by
    intro i
    rw [verlet_step_pos]
    norm_num
    ring
  have hp : pos (verlet_step f y dl) =
      fun i => pos y i + (dl * vel y i + 0.5 * dl * dl * vel (f y) i) := by
    funext i
    rw [verlet_step_pos]
  refine ⟨hpos, ?_⟩
  intro i
  rw [verlet_step_vel, hp]
  norm_num

theorem trace_body_terminate_zero (c : Setup α) (s : TraceState α) :
    (trace_body c 0 s).TERMINATE = s.TERMINATE := by
  show (if ((0 : α) < 0 ∧ ((trace_body c 0 s).theta_turns : ℤ) > c.max_order) ∨
      ((0 : α) > 0 ∧ ((trace_body c 0 s).theta_turns : ℤ) > c.max_order + 1) then true
    else s.TERMINATE) = s.TERMINATE
  rw [if_neg]
  intro h
  rcases h with ⟨h, _⟩ | ⟨h, _⟩ <;> exact lt_irrefl (0 : α) h

theorem trace_loop_terminate_zero (c : Setup α) (cutoff_inner : α) (fuel : ℕ) :
    ∀ s : TraceState α, s.TERMINATE = false →
      (trace_loop c 0 cutoff_inner fuel s).TERMINATE = false := by
  induction fuel with
  | zero =>
    intro s h
    exact h
  | succ k ih =>
    intro s h
    unfold trace_loop
    split
    · apply ih
      rw [trace_body_terminate_zero]
      exact h
    · exact h

/-- Claim C33. For an impact parameter `β` exactly 0 the order-culling test never sets
`TERMINATE`, whatever the value of `theta_turns`: a pass of the loop leaves `TERMINATE` as it
was, `integrate_geodesic` returns with `TERMINATE` false, and on return `r ≤ cutoff_inner`,
`r ≥ cutoff_outer` or `steps = max_steps`. -/
theorem culling_off_at_zero_beta (c : Setup α) (alpha : α) (photon_u : Fin 8 → α)
    (lightpath : ℕ → α) (cutoff_inner td : α) :
    (∀ s : TraceState α, (trace_body c 0 s).TERMINATE = s.TERMINATE) ∧
    (integrate_geodesic c alpha 0 photon_u lightpath cutoff_inner td).TERMINATE = false ∧
    ((integrate_geodesic c alpha 0 photon_u lightpath cutoff_inner td).r_current ≤
        cutoff_inner ∨
      c.cutoff_outer ≤
        (integrate_geodesic c alpha 0 photon_u lightpath cutoff_inner td).r_current ∨
      (integrate_geodesic c alpha 0 photon_u lightpath cutoff_inner td).steps = c.max_steps) := by
  have hT : (integrate_geodesic c alpha 0 photon_u lightpath cutoff_inner td).TERMINATE =
      false := by
    unfold integrate_geodesic
    exact trace_loop_terminate_zero c cutoff_inner c.max_steps _ rfl
  have hexit : loop_cond c cutoff_inner
      (integrate_geodesic c alpha 0 photon_u lightpath cutoff_inner td) = false := by
    unfold integrate_geodesic
    apply trace_loop_exit
    show c.max_steps ≤ 0 + c.max_steps
    omega
  have hb : _ := trace_loop_bounds c 0 cutoff_inner (c.initialize_photon alpha 0 photon_u 0)
    lightpath c.max_steps
    { photon_u := c.initialize_photon alpha 0 photon_u 0
      lightpath := lightpath
      steps := 0
      theta_turns := 0
      thetadot_prev := td
      TERMINATE := false
      lambda := 0
      r_current := radius c (c.initialize_photon alpha 0 photon_u 0) }
    ⟨rfl, rfl, Nat.zero_le _, fun n hn => absurd hn (Nat.not_lt_zero n), fun idx _ => rfl⟩
  obtain ⟨_, _, hsteps, _, _⟩ := hb
  refine ⟨trace_body_terminate_zero c, hT, ?_⟩
  rcases loop_cond_false c cutoff_inner _ hexit with h | h | h | h
  · exact Or.inl h
  · exact Or.inr (Or.inl h)
  · exact Or.inr (Or.inr (le_antisymm hsteps h))
  · rw [hT] at h
    exact Bool.noConfusion h

/-- The magnitude of `stepsize` is at most the radial candidate `|dlx1|` plus the floor. -/
theorem stepsize_abs_le_radial (STEPSIZE : α) (X_u U_u : Fin 4 → α) :
    |stepsize STEPSIZE X_u U_u| ≤ |STEPSIZE / (|U_u 1| + 1e-40 * 1e-40)| + 1e-40 * 1e-40 := by
  have h1 := inv_step_pos (STEPSIZE / (|U_u 1| + 1e-40 * 1e-40))
  have h2 := inv_step_pos (STEPSIZE * min (X_u 2) (M_PI - X_u 2) / (|U_u 2| + 1e-40 * 1e-40))
  have h3 := inv_step_pos (STEPSIZE / (|U_u 3| + 1e-40 * 1e-40))
  rw [stepsize_abs]
  calc 1 / (1 / (|STEPSIZE / (|U_u 1| + 1e-40 * 1e-40)| + 1e-40 * 1e-40) +
        1 / (|STEPSIZE * min (X_u 2) (M_PI - X_u 2) / (|U_u 2| + 1e-40 * 1e-40)| +
          1e-40 * 1e-40) +
        1 / (|STEPSIZE / (|U_u 3| + 1e-40 * 1e-40)| + 1e-40 * 1e-40))
      ≤ 1 / (1 / (|STEPSIZE / (|U_u 1| + 1e-40 * 1e-40)| + 1e-40 * 1e-40)) := by
        apply one_div_le_one_div_of_le h1
        linarith
    _ = |STEPSIZE / (|U_u 1| + 1e-40 * 1e-40)| + 1e-40 * 1e-40 := one_div_one_div _

theorem flat3_connection : ∀ X i j k, flatSetup3.connection_udd X i j k = 0 :=
  fun _ _ _ _ => rfl

/-- Every step of the ray of `flatSetup3` has magnitude at most 2. -/
theorem flat3_step (m : ℕ) :
    |stepsize flatSetup3.STEPSIZE (pos (ray flatSetup3 ![0, 10, 1, 0, 1, -1, 0, 0] m))
      (vel (ray flatSetup3 ![0, 10, 1, 0, 1, -1, 0, 0] m))| ≤ 2 := by
  have hv : vel (ray flatSetup3 ![0, 10, 1, 0, 1, -1, 0, 0] m) 1 = -1 := by
    rw [ray_flat flatSetup3 flat3_connection, vel_join]
    rfl
  have hS : flatSetup3.STEPSIZE = 1 := rfl
  refine le_trans (stepsize_abs_le_radial _ _ _) ?_
  rw [hv, hS]
  norm_num
  rw [abs_of_pos (by norm_num)]
  norm_num

/-- The radius of sample `n` of the ray of `flatSetup3` is within `2n` of 10. -/
theorem flat3_radius (n : ℕ) :
    |radius flatSetup3 (ray flatSetup3 ![0, 10, 1, 0, 1, -1, 0, 0] n) - 10| ≤ 2 * n := by
  have hr : radius flatSetup3 (ray flatSetup3 ![0, 10, 1, 0, 1, -1, 0, 0] n) =
      pos (ray flatSetup3 ![0, 10, 1, 0, 1, -1, 0, 0] n) 1 := by
    simp [radius, flatSetup3, flatSetup, pos]
  rw [hr, ray_flat flatSetup3 flat3_connection, pos_join]
  have h10 : pos (![0, 10, 1, 0, 1, -1, 0, 0] : Fin 8 → ℚ) 1 = 10 := rfl
  have hm1 : vel (![0, 10, 1, 0, 1, -1, 0, 0] : Fin 8 → ℚ) 1 = -1 := rfl
  simp only [h10, hm1]
  have hsum : |∑ m in Finset.range n,
      stepsize flatSetup3.STEPSIZE (pos (ray flatSetup3 ![0, 10, 1, 0, 1, -1, 0, 0] m))
        (vel (ray flatSetup3 ![0, 10, 1, 0, 1, -1, 0, 0] m))| ≤ 2 * n := by
    refine le_trans (Finset.abs_sum_le_sum_abs _ _) ?_
    refine le_trans (Finset.sum_le_sum (fun m _ => flat3_step m)) ?_
    simp
    linarith
  have e : (10 : ℚ) + (∑ m in Finset.range n,
      stepsize flatSetup3.STEPSIZE (pos (ray flatSetup3 ![0, 10, 1, 0, 1, -1, 0, 0] m))
        (vel (ray flatSetup3 ![0, 10, 1, 0, 1, -1, 0, 0] m))) * -1 - 10 =
      -(∑ m in Finset.range n,
      stepsize flatSetup3.STEPSIZE (pos (ray flatSetup3 ![0, 10, 1, 0, 1, -1, 0, 0] m))
        (vel (ray flatSetup3 ![0, 10, 1, 0, 1, -1, 0, 0] m))) := by ring
  rw [e, abs_neg]
  exact hsum

theorem flatSetup3_steps :
    (integrate_geodesic flatSetup3 0 0 (fun _ => 0) (fun _ => 0) 1 0).steps = 3 := by
  have h := trace_loop_short flatSetup3 0 1 ![0, 10, 1, 0, 1, -1, 0, 0]
    (by decide) (le_refl 3)
    (by
      intro n hn
      have hn' : n < 3 := hn
      have hc : flatSetup3.cutoff_outer = 100 := rfl
      rw [hc]
      have hb := abs_le.mp (flat3_radius n)
      have hn2 : (n : ℚ) ≤ 2 := by
        have : n ≤ 2 := by omega
        exact_mod_cast this
      constructor <;> linarith [hb.1, hb.2])
    3
    { photon_u := ![0, 10, 1, 0, 1, -1, 0, 0]
      lightpath := fun _ => 0
      steps := 0
      theta_turns := 0
      thetadot_prev := 0
      TERMINATE := false
      lambda := 0
      r_current := radius flatSetup3 ![0, 10, 1, 0, 1, -1, 0, 0] }
    rfl rfl rfl rfl rfl
  exact h

theorem stepsize_lt_zero (STEPSIZE : α) (X_u U_u : Fin 4 → α) :
    stepsize STEPSIZE X_u U_u < 0 := by
  have h1 := inv_step_pos (STEPSIZE / (|U_u 1| + 1e-40 * 1e-40))
  have h2 := inv_step_pos (STEPSIZE * min (X_u 2) (M_PI - X_u 2) / (|U_u 2| + 1e-40 * 1e-40))
  have h3 := inv_step_pos (STEPSIZE / (|U_u 3| + 1e-40 * 1e-40))
  rw [stepsize_eq]
  exact div_neg_of_neg_of_pos (by norm_num) (add_pos (add_pos h1 h2) h3)

/-- Witness for claim C2: sample `n = 1` of the three-sample RK4 ray of `flatSetup3`, radial
component.  The sum has the one term `stepsize(X_0, U_0) < 0` and `U¹ = −1`, so the ray has
moved: `X¹_1 > 10 = X¹_0`. -/
theorem flat_spacetime_straight_lines_witness :
    ((integrate_geodesic flatSetup3 0 0 (fun _ => 0) (fun _ => 0) 1 0).lightpath
          (1 * 9 + ((1 : Fin 4).val + 4)) =
        vel (flatSetup3.initialize_photon 0 0 (fun _ => 0) 0) 1 ∧
      (integrate_geodesic flatSetup3 0 0 (fun _ => 0) (fun _ => 0) 1 0).lightpath
          (1 * 9 + (1 : Fin 4).val) =
        pos (flatSetup3.initialize_photon 0 0 (fun _ => 0) 0) 1 +
          (∑ m in Finset.range 1,
            stepsize flatSetup3.STEPSIZE
              (fun j : Fin 4 =>
                (integrate_geodesic flatSetup3 0 0 (fun _ => 0) (fun _ => 0) 1 0).lightpath
                  (m * 9 + j.val))
              (fun j : Fin 4 =>
                (integrate_geodesic flatSetup3 0 0 (fun _ => 0) (fun _ => 0) 1 0).lightpath
                  (m * 9 + (j.val + 4)))) *
            vel (flatSetup3.initialize_photon 0 0 (fun _ => 0) 0) 1) ∧
    (integrate_geodesic flatSetup3 0 0 (fun _ => 0) (fun _ => 0) 1 0).steps = 3 ∧
    10 < (integrate_geodesic flatSetup3 0 0 (fun _ => 0) (fun _ => 0) 1 0).lightpath
      (1 * 9 + (1 : Fin 4).val) := by
  have h := flat_spacetime_straight_lines flatSetup3 (fun _ _ _ _ => rfl) 0 0 (fun _ => 0)
    (fun _ => 0) 1 0 1 (by rw [flatSetup3_steps]; norm_num) 1
  refine ⟨h, flatSetup3_steps, ?_⟩
  rw [h.2, Finset.sum_range_one]
  have hp : pos (flatSetup3.initialize_photon 0 0 (fun _ => 0) 0) 1 = 10 := rfl
  have hv : vel (flatSetup3.initialize_photon 0 0 (fun _ => 0) 0) 1 = -1 := rfl
  rw [hp, hv]
  have hneg := stepsize_lt_zero flatSetup3.STEPSIZE
    (fun j : Fin 4 =>
      (integrate_geodesic flatSetup3 0 0 (fun _ => 0) (fun _ => 0) 1 0).lightpath
        (0 * 9 + j.val))
    (fun j : Fin 4 =>
      (integrate_geodesic flatSetup3 0 0 (fun _ => 0) (fun _ => 0) 1 0).lightpath
        (0 * 9 + (j.val + 4)))
  linarith

end GeodesicTheorems

section TransferTheorems

open Complex

theorem csqrt_ofReal (x : ℝ) (hx : 0 ≤ x) : csqrt (x : ℂ) = ((Real.sqrt x : ℝ) : ℂ) := by
  unfold csqrt
  rw [Real.sqrt_eq_rpow, Complex.ofReal_cpow hx]
  norm_num

theorem csqrt_zero : csqrt 0 = 0 := by
  have h := csqrt_ofReal 0 le_rfl
  simpa using h

theorem csqrt_mul_conj_re (z : ℂ) : (csqrt (z * (starRingEnd ℂ) z)).re = Complex.abs z := by
  rw [Complex.mul_conj, csqrt_ofReal _ (Complex.normSq_nonneg z)]
  simp [Complex.abs_apply]

/-- Jones to Stokes on the vector that `stokes_to_f_tetrad` builds from normalised
`(q, u, v)` gives back `p·(q, u, v)`. -/
theorem jones_of_unit_stokes (Iv p q u v : ℝ) (hquv : q ^ 2 + u ^ 2 + v ^ 2 = 1)
    (F : Fin 4 → ℂ)
    (hF1 : F 1 = ((Real.sqrt ((1 + q) / 2) : ℝ) : ℂ))
    (hF2 : F 2 = if ((Real.sqrt ((1 + q) / 2) : ℝ) : ℂ) = 0 then 1
      else (u : ℂ) / (2 * ((Real.sqrt ((1 + q) / 2) : ℝ) : ℂ)) -
        I * v / (2 * ((Real.sqrt ((1 + q) / 2) : ℝ) : ℂ))) :
    f_tetrad_to_stokes Iv p F = ![(Iv : ℂ), ((p * q : ℝ) : ℂ), ((p * u : ℝ) : ℂ), ((p * v : ℝ) : ℂ)] := by
  have hq1 : 0 ≤ (1 + q) / 2 := by nlinarith [sq_nonneg u, sq_nonneg v, sq_nonneg (1 + q)]
  have hs2 : Real.sqrt ((1 + q) / 2) * Real.sqrt ((1 + q) / 2) = (1 + q) / 2 :=
    Real.mul_self_sqrt hq1
  have hs0 : 0 ≤ Real.sqrt ((1 + q) / 2) := Real.sqrt_nonneg _
  generalize Real.sqrt ((1 + q) / 2) = s at hF1 hF2 hs2 hs0
  unfold f_tetrad_to_stokes
  rw [hF1, hF2]
  by_cases hz : s = 0
  · have hq' : q = -1 := by
      have h0 : (1 + q) / 2 = 0 := by rw [← hs2, hz]; ring
      linarith
    have huv : u ^ 2 + v ^ 2 = 0 := by rw [hq'] at hquv; linarith
    have hu0 : u = 0 := by
      have h2 : u ^ 2 = 0 := by nlinarith [sq_nonneg u, sq_nonneg v]
      exact pow_eq_zero_iff (two_ne_zero) |>.mp h2
    have hv0 : v = 0 := by
      have h2 : v ^ 2 = 0 := by nlinarith [sq_nonneg u, sq_nonneg v]
      exact pow_eq_zero_iff (two_ne_zero) |>.mp h2
    subst hz hq' hu0 hv0
    simp
  · have hzc : (s : ℂ) ≠ 0 := by exact_mod_cast hz
    have h1q : 1 + q ≠ 0 := by
      intro h; apply hz
      have : s * s = 0 := by rw [hs2, h]; ring
      exact mul_self_eq_zero.mp this
    have hf : (u : ℂ) / (2 * s) - I * v / (2 * s) =
        ((u / (2 * s) : ℝ) : ℂ) - I * ((v / (2 * s) : ℝ) : ℂ) := by
      push_cast; ring
    have hab : (u / (2 * s)) * (u / (2 * s)) + (v / (2 * s)) * (v / (2 * s)) = (1 - q) / 2 := by
      field_simp
      nlinarith [hs2, hquv]
    have hsu : s * (u / (2 * s)) = u / 2 := by field_simp; ring
    have hsv : s * (v / (2 * s)) = v / 2 := by field_simp; ring
    rw [if_neg hzc, hf]
    generalize u / (2 * s) = a at hab hsu
    generalize v / (2 * s) = b at hab hsv
    have hns : Complex.abs ((a : ℂ) - I * (b : ℂ)) * Complex.abs ((a : ℂ) - I * (b : ℂ)) =
        (1 - q) / 2 := by
      rw [Complex.mul_self_abs, Complex.normSq_apply]
      simp
      linarith
    have habs : Complex.abs (s : ℂ) = s := Complex.abs_of_nonneg hs0
    have e1 : ((Complex.abs (s : ℂ) : ℂ) * (Complex.abs (s : ℂ) : ℂ) -
        (Complex.abs ((a : ℂ) - I * (b : ℂ)) : ℂ) * (Complex.abs ((a : ℂ) - I * (b : ℂ)) : ℂ)) =
        ((q : ℝ) : ℂ) := by
      rw [habs, ← Complex.ofReal_mul, ← Complex.ofReal_mul, hns, hs2, ← Complex.ofReal_sub]
      congr 1
      ring
    have e2 : ((starRingEnd ℂ) (s : ℂ) * ((a : ℂ) - I * (b : ℂ)) +
        (s : ℂ) * (starRingEnd ℂ) ((a : ℂ) - I * (b : ℂ))) = ((u : ℝ) : ℂ) := by
      have hu2 : u = 2 * (s * a) := by rw [hsu]; ring
      rw [hu2]
      apply Complex.ext
      · simp
        ring
      · simp
    have e3 : (I * ((starRingEnd ℂ) (s : ℂ) * ((a : ℂ) - I * (b : ℂ)) -
        (s : ℂ) * (starRingEnd ℂ) ((a : ℂ) - I * (b : ℂ)))) = ((v : ℝ) : ℂ) := by
      have hv2 : v = 2 * (s * b) := by rw [hsv]; ring
      rw [hv2]
      apply Complex.ext
      · simp
        ring
      · simp
    rw [e1, e2, e3]
    push_cast
    rfl

/-- Claim C3. Stokes round trip: for a real quartet `(I, Q, U, V)` with
`I_pol = sqrt(Q² + U² + V²) > 0`, `stokes_to_f_tetrad` followed by `f_tetrad_to_stokes` on the
returned `(Iinv, Iinv_pol, F)` gives back the quartet exactly, on the branch `F¹ = 0` too. -/
theorem stokes_round_trip (Iv Q U V : ℝ) (hpol : 0 < Real.sqrt (Q ^ 2 + U ^ 2 + V ^ 2))
    (f0 : Fin 4 → ℂ) :
    f_tetrad_to_stokes
        (stokes_to_f_tetrad ![(Iv : ℂ), (Q : ℂ), (U : ℂ), (V : ℂ)] f0).Iinv
        (stokes_to_f_tetrad ![(Iv : ℂ), (Q : ℂ), (U : ℂ), (V : ℂ)] f0).Iinv_pol
        (stokes_to_f_tetrad ![(Iv : ℂ), (Q : ℂ), (U : ℂ), (V : ℂ)] f0).f_tetrad_u =
      ![(Iv : ℂ), (Q : ℂ), (U : ℂ), (V : ℂ)] := by
  set S_A : Fin 4 → ℂ := ![(Iv : ℂ), (Q : ℂ), (U : ℂ), (V : ℂ)] with hS
  set out := stokes_to_f_tetrad S_A f0 with hout
  have hp2 : Real.sqrt (Q ^ 2 + U ^ 2 + V ^ 2) ^ 2 = Q ^ 2 + U ^ 2 + V ^ 2 :=
    Real.sq_sqrt (by positivity)
  have hcs : (csqrt ((Q : ℂ) * Q + (U : ℂ) * U + (V : ℂ) * V)).re =
      Real.sqrt (Q ^ 2 + U ^ 2 + V ^ 2) := by
    have h : ((Q : ℂ) * Q + (U : ℂ) * U + (V : ℂ) * V) = ((Q ^ 2 + U ^ 2 + V ^ 2 : ℝ) : ℂ) := by
      push_cast; ring
    rw [h, csqrt_ofReal _ (by positivity)]
    simp
  generalize Real.sqrt (Q ^ 2 + U ^ 2 + V ^ 2) = p at hpol hp2 hcs
  have hpne : p ≠ 0 := ne_of_gt hpol
  have hquv : (Q / p) ^ 2 + (U / p) ^ 2 + (V / p) ^ 2 = 1 := by
    field_simp; linarith
  have hI : out.Iinv = Iv := by
    simp [out, S_A, stokes_to_f_tetrad]
  have hIp : out.Iinv_pol = p := by
    simp [out, S_A, stokes_to_f_tetrad, hcs]
  have hf1 : out.f_tetrad_u 1 = ((Real.sqrt ((1 + Q / p) / 2) : ℝ) : ℂ) := by
    simp [out, S_A, stokes_to_f_tetrad, hcs]
  have hf2 : out.f_tetrad_u 2 =
      if ((Real.sqrt ((1 + Q / p) / 2) : ℝ) : ℂ) = 0 then 1
      else ((U / p : ℝ) : ℂ) / (2 * ((Real.sqrt ((1 + Q / p) / 2) : ℝ) : ℂ)) -
        I * ((V / p : ℝ) : ℂ) / (2 * ((Real.sqrt ((1 + Q / p) / 2) : ℝ) : ℂ)) := by
    simp [out, S_A, stokes_to_f_tetrad, hcs]
  rw [hI, hIp, jones_of_unit_stokes Iv p (Q / p) (U / p) (V / p) hquv _ hf1 hf2]
  have e1 : p * (Q / p) = Q := by field_simp
  have e2 : p * (U / p) = U := by field_simp
  have e3 : p * (V / p) = V := by field_simp
  rw [e1, e2, e3]

/-- Witness for claim C3 on the branch `F¹ = 0`: the quartet `(1, -1, 0, 0)`. -/
theorem stokes_round_trip_witness :
    f_tetrad_to_stokes
        (stokes_to_f_tetrad ![((1 : ℝ) : ℂ), ((-1 : ℝ) : ℂ), ((0 : ℝ) : ℂ), ((0 : ℝ) : ℂ)]
          (fun _ => 0)).Iinv
        (stokes_to_f_tetrad ![((1 : ℝ) : ℂ), ((-1 : ℝ) : ℂ), ((0 : ℝ) : ℂ), ((0 : ℝ) : ℂ)]
          (fun _ => 0)).Iinv_pol
        (stokes_to_f_tetrad ![((1 : ℝ) : ℂ), ((-1 : ℝ) : ℂ), ((0 : ℝ) : ℂ), ((0 : ℝ) : ℂ)]
          (fun _ => 0)).f_tetrad_u =
      ![((1 : ℝ) : ℂ), ((-1 : ℝ) : ℂ), ((0 : ℝ) : ℂ), ((0 : ℝ) : ℂ)] :=
  stokes_round_trip 1 (-1) 0 0 (Real.sqrt_pos.mpr (by norm_num)) (fun _ => 0)

/-- The four right-hand-side expressions that `pol_rte_rk4_step` writes out at every stage,
as a function of the stage state `X`. -/
theorem rk4_stage_rows (jI jQ jU jV rQ rU rV aI aQ aU aV dl_current C : ℝ) (X : Fin 4 → ℂ) :
    (![(dl_current : ℂ) * C * jI - dl_current * C * (aI * X 0 + aQ * X 1 + aU * X 2 + aV * X 3),
       (dl_current : ℂ) * C * jQ - dl_current * C * (aQ * X 0 + aI * X 1 + rV * X 2 - rU * X 3),
       (dl_current : ℂ) * C * jU - dl_current * C * (aU * X 0 - rV * X 1 + aI * X 2 + rQ * X 3),
       (dl_current : ℂ) * C * jV - dl_current * C * (aV * X 0 + rU * X 1 - rQ * X 2 + aI * X 3)] :
        Fin 4 → ℂ) =
      rte_rhs (dl_current * C) ![jI, jQ, jU, jV] (Kmat rQ rU rV aI aQ aU aV) X := by
  funext i
  fin_cases i <;> simp [rte_rhs, Kmat, Fin.sum_univ_four] <;> ring

theorem vec4_eta (X : Fin 4 → ℂ) : ![X 0, X 1, X 2, X 3] = X := by
  funext i
  fin_cases i <;> rfl

theorem pol_rte_rk4_step_stages (jI jQ jU jV rQ rU rV aI aQ aU aV dl_current C : ℝ)
    (S_A : Fin 4 → ℂ) (g : (Fin 4 → ℂ) → Fin 4 → ℂ)
    (hg : g = rte_rhs (dl_current * C) ![jI, jQ, jU, jV] (Kmat rQ rU rV aI aQ aU aV)) :
    pol_rte_rk4_step jI jQ jU jV rQ rU rV aI aQ aU aV dl_current C S_A =
      fun i => S_A i +
        (g S_A i
          + 2 * g (fun n => S_A n + g S_A n / 2) i
          + 2 * g (fun n => S_A n + g (fun n => S_A n + g S_A n / 2) n / 2) i
          + g (fun n => S_A n + g (fun n => S_A n + g (fun n => S_A n + g S_A n / 2) n / 2) n) i) / 6 := by
  unfold pol_rte_rk4_step
  lift_lets
  extract_lets I0 Q0 U0 V0 Ik1 Qk1 Uk1 Vk1 Ik2 Qk2 Uk2 Vk2 Ik3 Qk3 Uk3 Vk3 Ik4 Qk4 Uk4 Vk4
  have hS : S_A = ![I0, Q0, U0, V0] := (vec4_eta S_A).symm
  have h1 : g S_A = ![Ik1, Qk1, Uk1, Vk1] := by
    rw [hg]
    exact (rk4_stage_rows jI jQ jU jV rQ rU rV aI aQ aU aV dl_current C S_A).symm
  have h2 : g (fun n => S_A n + g S_A n / 2) = ![Ik2, Qk2, Uk2, Vk2] := by
    have hx : (fun n => S_A n + g S_A n / 2) =
        ![I0 + 0.5 * Ik1, Q0 + 0.5 * Qk1, U0 + 0.5 * Uk1, V0 + 0.5 * Vk1] := by
      rw [h1]
      funext n
      fin_cases n <;> simp [I0, Q0, U0, V0] <;> ring
    rw [hx, hg]
    exact (rk4_stage_rows jI jQ jU jV rQ rU rV aI aQ aU aV dl_current C _).symm
  have h3 : g (fun n => S_A n + g (fun n => S_A n + g S_A n / 2) n / 2) =
      ![Ik3, Qk3, Uk3, Vk3] := by
    have hx : (fun n => S_A n + g (fun n => S_A n + g S_A n / 2) n / 2) =
        ![I0 + 0.5 * Ik2, Q0 + 0.5 * Qk2, U0 + 0.5 * Uk2, V0 + 0.5 * Vk2] := by
      rw [h2]
      funext n
      fin_cases n <;> simp [I0, Q0, U0, V0] <;> ring
    rw [hx, hg]
    exact (rk4_stage_rows jI jQ jU jV rQ rU rV aI aQ aU aV dl_current C _).symm
  have h4 : g (fun n => S_A n + g (fun n => S_A n + g (fun n => S_A n + g S_A n / 2) n / 2) n) =
      ![Ik4, Qk4, Uk4, Vk4] := by
    have hx : (fun n => S_A n + g (fun n => S_A n + g (fun n => S_A n + g S_A n / 2) n / 2) n) =
        ![I0 + Ik3, Q0 + Qk3, U0 + Uk3, V0 + Vk3] := by
      rw [h3]
      funext n
      fin_cases n <;> simp [I0, Q0, U0, V0]
    rw [hx, hg]
    exact (rk4_stage_rows jI jQ jU jV rQ rU rV aI aQ aU aV dl_current C _).symm
  rw [h4, h3, h2, h1]
  clear_value Ik1 Qk1 Uk1 Vk1 Ik2 Qk2 Uk2 Vk2 Ik3 Qk3 Uk3 Vk3 Ik4 Qk4 Uk4 Vk4
  funext i
  fin_cases i <;> simp [I0, Q0, U0, V0] <;> ring

/-- Claim C5. `pol_rte_rk4_step` is the classical RK4 step for `dS/dl = C·(j − K·S)`: it
returns `S + (k1 + 2·k2 + 2·k3 + k4)/6` with stages `h·(j − K·X)`, `h = Δl·C`, and `K` the
transfer matrix of the spec. -/
theorem pol_rte_rk4_step_classical (jI jQ jU jV rQ rU rV aI aQ aU aV dl_current C : ℝ)
    (S_A : Fin 4 → ℂ) :
    pol_rte_rk4_step jI jQ jU jV rQ rU rV aI aQ aU aV dl_current C S_A =
      rk4_classical
        (rte_rhs (dl_current * C) ![jI, jQ, jU, jV] (Kmat rQ rU rV aI aQ aU aV)) S_A :=
  pol_rte_rk4_step_stages jI jQ jU jV rQ rU rV aI aQ aU aV dl_current C S_A _ rfl

/-- The upper-triangular system that `lu_solve` satisfies after forward substitution. -/
theorem lu_solve_upper (m : LUEntries) (b : Fin 4 → ℝ)
    (h11 : m.u11 ≠ 0) (h22 : m.u22 ≠ 0) (h33 : m.u33 ≠ 0) (h44 : m.u44 ≠ 0) :
    m.u11 * lu_solve m b 0 + m.u12 * lu_solve m b 1 + m.u14 * lu_solve m b 3 = b 0 ∧
    m.u22 * lu_solve m b 1 + m.u23 * lu_solve m b 2 + m.u24 * lu_solve m b 3 =
      b 1 - m.l21 * b 0 ∧
    m.u33 * lu_solve m b 2 + m.u34 * lu_solve m b 3 = b 2 - m.l32 * (b 1 - m.l21 * b 0) ∧
    m.u44 * lu_solve m b 3 =
      b 3 - m.l41 * b 0 - m.l42 * (b 1 - m.l21 * b 0) -
        m.l43 * (b 2 - m.l32 * (b 1 - m.l21 * b 0)) := by
  have e3 : lu_solve m b 3 =
      (b 3 - m.l41 * b 0 - m.l42 * (b 1 - m.l21 * b 0) -
        m.l43 * (b 2 - m.l32 * (b 1 - m.l21 * b 0))) / m.u44 := rfl
  have e2 : lu_solve m b 2 =
      (b 2 - m.l32 * (b 1 - m.l21 * b 0) - m.u34 * lu_solve m b 3) / m.u33 := rfl
  have e1 : lu_solve m b 1 =
      (b 1 - m.l21 * b 0 - m.u23 * lu_solve m b 2 - m.u24 * lu_solve m b 3) / m.u22 := rfl
  have e0 : lu_solve m b 0 =
      (b 0 - m.u12 * lu_solve m b 1 - m.u14 * lu_solve m b 3) / m.u11 := rfl
  generalize lu_solve m b 0 = x0 at *
  generalize lu_solve m b 1 = x1 at *
  generalize lu_solve m b 2 = x2 at *
  generalize lu_solve m b 3 = x3 at *
  refine ⟨?_, ?_, ?_, ?_⟩
  · rw [e0]; field_simp; ring
  · rw [e1]; field_simp; ring
  · rw [e2]; field_simp
  · rw [e3]; field_simp

/-- Forward and back substitution solve `L·U·x = b` when the pivots are non-zero. -/
theorem lu_solve_rows (m : LUEntries) (b : Fin 4 → ℝ)
    (h11 : m.u11 ≠ 0) (h22 : m.u22 ≠ 0) (h33 : m.u33 ≠ 0) (h44 : m.u44 ≠ 0) :
    m.u11 * lu_solve m b 0 + m.u12 * lu_solve m b 1 + m.u14 * lu_solve m b 3 = b 0 ∧
    m.l21 * (m.u11 * lu_solve m b 0 + m.u12 * lu_solve m b 1 + m.u14 * lu_solve m b 3) +
      (m.u22 * lu_solve m b 1 + m.u23 * lu_solve m b 2 + m.u24 * lu_solve m b 3) = b 1 ∧
    m.l32 * (m.u22 * lu_solve m b 1 + m.u23 * lu_solve m b 2 + m.u24 * lu_solve m b 3) +
      (m.u33 * lu_solve m b 2 + m.u34 * lu_solve m b 3) = b 2 ∧
    m.l41 * (m.u11 * lu_solve m b 0 + m.u12 * lu_solve m b 1 + m.u14 * lu_solve m b 3) +
      m.l42 * (m.u22 * lu_solve m b 1 + m.u23 * lu_solve m b 2 + m.u24 * lu_solve m b 3) +
      m.l43 * (m.u33 * lu_solve m b 2 + m.u34 * lu_solve m b 3) + m.u44 * lu_solve m b 3 = b 3 := by
  obtain ⟨E1, E2, E3, E4⟩ := lu_solve_upper m b h11 h22 h33 h44
  refine ⟨E1, ?_, ?_, ?_⟩
  · rw [E1, E2]; ring
  · rw [E2, E3]; ring
  · rw [E1, E2, E3, E4]; ring

/-- Forward and back substitution recover `T` from the right-hand side `L·U·T`. -/
theorem lu_solve_unique (m : LUEntries) (b T : Fin 4 → ℝ)
    (h11 : m.u11 ≠ 0) (h22 : m.u22 ≠ 0) (h33 : m.u33 ≠ 0) (h44 : m.u44 ≠ 0)
    (r0 : m.u11 * T 0 + m.u12 * T 1 + m.u14 * T 3 = b 0)
    (r1 : m.l21 * (m.u11 * T 0 + m.u12 * T 1 + m.u14 * T 3) +
      (m.u22 * T 1 + m.u23 * T 2 + m.u24 * T 3) = b 1)
    (r2 : m.l32 * (m.u22 * T 1 + m.u23 * T 2 + m.u24 * T 3) +
      (m.u33 * T 2 + m.u34 * T 3) = b 2)
    (r3 : m.l41 * (m.u11 * T 0 + m.u12 * T 1 + m.u14 * T 3) +
      m.l42 * (m.u22 * T 1 + m.u23 * T 2 + m.u24 * T 3) +
      m.l43 * (m.u33 * T 2 + m.u34 * T 3) + m.u44 * T 3 = b 3) :
    lu_solve m b = T := by
  obtain ⟨E1, E2, E3, E4⟩ := lu_solve_upper m b h11 h22 h33 h44
  have x3 : lu_solve m b 3 = T 3 := by
    apply mul_left_cancel₀ h44
    rw [E4]; linear_combination (-1 : ℝ) * r3 + m.l41 * r0 + m.l42 * (r1 - m.l21 * r0)
      + m.l43 * (r2 - m.l32 * (r1 - m.l21 * r0))
  have x2 : lu_solve m b 2 = T 2 := by
    apply mul_left_cancel₀ h33
    rw [x3] at E3
    linear_combination E3 - r2 + m.l32 * (r1 - m.l21 * r0)
  have x1 : lu_solve m b 1 = T 1 := by
    apply mul_left_cancel₀ h22
    rw [x3, x2] at E2
    linear_combination E2 - r1 + m.l21 * r0
  have x0 : lu_solve m b 0 = T 0 := by
    apply mul_left_cancel₀ h11
    rw [x3, x1] at E1
    linear_combination E1 - r0
  funext i
  fin_cases i
  · exact x0
  · exact x1
  · exact x2
  · exact x3

/-- The entries computed by `trapezoid_lu` factor the matrix `I + ½·Δl·C·K` (with
`a_U = ρ_U = 0`): products of the unit-lower and the upper factor give its entries. -/
theorem trapezoid_lu_factor (rQ rV aI aQ aV dl_current C : ℝ)
    (h11 : (trapezoid_lu rQ rV aI aQ aV dl_current C).u11 ≠ 0)
    (h22 : (trapezoid_lu rQ rV aI aQ aV dl_current C).u22 ≠ 0)
    (h33 : (trapezoid_lu rQ rV aI aQ aV dl_current C).u33 ≠ 0) :
    (trapezoid_lu rQ rV aI aQ aV dl_current C).u11 = 1 + 1 / 2 * dl_current * C * aI ∧
    (trapezoid_lu rQ rV aI aQ aV dl_current C).u12 = 1 / 2 * dl_current * C * aQ ∧
    (trapezoid_lu rQ rV aI aQ aV dl_current C).u14 = 1 / 2 * dl_current * C * aV ∧
    (trapezoid_lu rQ rV aI aQ aV dl_current C).l21 *
      (trapezoid_lu rQ rV aI aQ aV dl_current C).u11 = 1 / 2 * dl_current * C * aQ ∧
    (trapezoid_lu rQ rV aI aQ aV dl_current C).l21 *
      (trapezoid_lu rQ rV aI aQ aV dl_current C).u12 +
      (trapezoid_lu rQ rV aI aQ aV dl_current C).u22 = 1 + 1 / 2 * dl_current * C * aI ∧
    (trapezoid_lu rQ rV aI aQ aV dl_current C).u23 = 1 / 2 * dl_current * C * rV ∧
    (trapezoid_lu rQ rV aI aQ aV dl_current C).l21 *
      (trapezoid_lu rQ rV aI aQ aV dl_current C).u14 +
      (trapezoid_lu rQ rV aI aQ aV dl_current C).u24 = 0 ∧
    (trapezoid_lu rQ rV aI aQ aV dl_current C).l32 *
      (trapezoid_lu rQ rV aI aQ aV dl_current C).u22 = -(1 / 2 * dl_current * C * rV) ∧
    (trapezoid_lu rQ rV aI aQ aV dl_current C).l32 *
      (trapezoid_lu rQ rV aI aQ aV dl_current C).u23 +
      (trapezoid_lu rQ rV aI aQ aV dl_current C).u33 = 1 + 1 / 2 * dl_current * C * aI ∧
    (trapezoid_lu rQ rV aI aQ aV dl_current C).l32 *
      (trapezoid_lu rQ rV aI aQ aV dl_current C).u24 +
      (trapezoid_lu rQ rV aI aQ aV dl_current C).u34 = 1 / 2 * dl_current * C * rQ ∧
    (trapezoid_lu rQ rV aI aQ aV dl_current C).l41 *
      (trapezoid_lu rQ rV aI aQ aV dl_current C).u11 = 1 / 2 * dl_current * C * aV ∧
    (trapezoid_lu rQ rV aI aQ aV dl_current C).l41 *
      (trapezoid_lu rQ rV aI aQ aV dl_current C).u12 +
      (trapezoid_lu rQ rV aI aQ aV dl_current C).l42 *
      (trapezoid_lu rQ rV aI aQ aV dl_current C).u22 = 0 ∧
    (trapezoid_lu rQ rV aI aQ aV dl_current C).l42 *
      (trapezoid_lu rQ rV aI aQ aV dl_current C).u23 +
      (trapezoid_lu rQ rV aI aQ aV dl_current C).l43 *
      (trapezoid_lu rQ rV aI aQ aV dl_current C).u33 = -(1 / 2 * dl_current * C * rQ) ∧
    (trapezoid_lu rQ rV aI aQ aV dl_current C).l41 *
      (trapezoid_lu rQ rV aI aQ aV dl_current C).u14 +
      (trapezoid_lu rQ rV aI aQ aV dl_current C).l42 *
      (trapezoid_lu rQ rV aI aQ aV dl_current C).u24 +
      (trapezoid_lu rQ rV aI aQ aV dl_current C).l43 *
      (trapezoid_lu rQ rV aI aQ aV dl_current C).u34 +
      (trapezoid_lu rQ rV aI aQ aV dl_current C).u44 = 1 + 1 / 2 * dl_current * C * aI := by
  have e11 : (trapezoid_lu rQ rV aI aQ aV dl_current C).u11 = 1 + 0.5 * dl_current * C * aI := rfl
  have e12 : (trapezoid_lu rQ rV aI aQ aV dl_current C).u12 = 0.5 * dl_current * C * aQ := rfl
  have e14 : (trapezoid_lu rQ rV aI aQ aV dl_current C).u14 = 0.5 * dl_current * C * aV := rfl
  have f21 : (trapezoid_lu rQ rV aI aQ aV dl_current C).l21 =
      0.5 * dl_current * C * aQ / (trapezoid_lu rQ rV aI aQ aV dl_current C).u11 := rfl
  have e22 : (trapezoid_lu rQ rV aI aQ aV dl_current C).u22 =
      1 + 0.5 * dl_current * C * aI - (trapezoid_lu rQ rV aI aQ aV dl_current C).l21 *
        (trapezoid_lu rQ rV aI aQ aV dl_current C).u12 := rfl
  have e23 : (trapezoid_lu rQ rV aI aQ aV dl_current C).u23 = 0.5 * dl_current * C * rV := rfl
  have e24 : (trapezoid_lu rQ rV aI aQ aV dl_current C).u24 =
      -(trapezoid_lu rQ rV aI aQ aV dl_current C).l21 *
        (trapezoid_lu rQ rV aI aQ aV dl_current C).u14 := rfl
  have f32 : (trapezoid_lu rQ rV aI aQ aV dl_current C).l32 =
      -0.5 * dl_current * C * rV / (trapezoid_lu rQ rV aI aQ aV dl_current C).u22 := rfl
  have e33 : (trapezoid_lu rQ rV aI aQ aV dl_current C).u33 =
      1 + 0.5 * dl_current * C * aI - (trapezoid_lu rQ rV aI aQ aV dl_current C).l32 *
        (trapezoid_lu rQ rV aI aQ aV dl_current C).u23 := rfl
  have e34 : (trapezoid_lu rQ rV aI aQ aV dl_current C).u34 =
      0.5 * dl_current * C * rQ - (trapezoid_lu rQ rV aI aQ aV dl_current C).l32 *
        (trapezoid_lu rQ rV aI aQ aV dl_current C).u24 := rfl
  have f41 : (trapezoid_lu rQ rV aI aQ aV dl_current C).l41 =
      0.5 * dl_current * C * aV / (trapezoid_lu rQ rV aI aQ aV dl_current C).u11 := rfl
  have f42 : (trapezoid_lu rQ rV aI aQ aV dl_current C).l42 =
      -(trapezoid_lu rQ rV aI aQ aV dl_current C).l41 *
        (trapezoid_lu rQ rV aI aQ aV dl_current C).u12 /
        (trapezoid_lu rQ rV aI aQ aV dl_current C).u22 := rfl
  have f43 : (trapezoid_lu rQ rV aI aQ aV dl_current C).l43 =
      (-0.5 * dl_current * C * rQ - (trapezoid_lu rQ rV aI aQ aV dl_current C).l42 *
        (trapezoid_lu rQ rV aI aQ aV dl_current C).u23) /
        (trapezoid_lu rQ rV aI aQ aV dl_current C).u33 := rfl
  have e44 : (trapezoid_lu rQ rV aI aQ aV dl_current C).u44 =
      1 + 0.5 * dl_current * C * aI -
        (trapezoid_lu rQ rV aI aQ aV dl_current C).l41 *
          (trapezoid_lu rQ rV aI aQ aV dl_current C).u14 -
        (trapezoid_lu rQ rV aI aQ aV dl_current C).l42 *
          (trapezoid_lu rQ rV aI aQ aV dl_current C).u24 -
        (trapezoid_lu rQ rV aI aQ aV dl_current C).l43 *
          (trapezoid_lu rQ rV aI aQ aV dl_current C).u34 := rfl
  generalize (trapezoid_lu rQ rV aI aQ aV dl_current C) = m at *
  have g21 : m.l21 * m.u11 = 0.5 * dl_current * C * aQ := by rw [f21]; field_simp
  have g32 : m.l32 * m.u22 = -0.5 * dl_current * C * rV := by rw [f32]; field_simp
  have g41 : m.l41 * m.u11 = 0.5 * dl_current * C * aV := by rw [f41]; field_simp
  have g42 : m.l42 * m.u22 = -m.l41 * m.u12 := by rw [f42]; field_simp
  have g43 : m.l43 * m.u33 = -0.5 * dl_current * C * rQ - m.l42 * m.u23 := by
    rw [f43]; field_simp
  refine ⟨?_, ?_, ?_, ?_, ?_, ?_, ?_, ?_, ?_, ?_, ?_, ?_, ?_, ?_⟩
  · rw [e11]; norm_num
  · rw [e12]; norm_num
  · rw [e14]; norm_num
  · rw [g21]; norm_num
  · rw [e22]; norm_num
  · rw [e23]; norm_num
  · rw [e24]; ring
  · rw [g32]; norm_num
  · rw [e33]; norm_num
  · rw [e34]; norm_num
  · rw [g41]; norm_num
  · rw [g42]; ring
  · rw [g43]; norm_num
  · rw [e44]; norm_num

/-- The product `(I + ½·Δl·C·K)·T` written with the entries of `trapezoid_lu`. -/
theorem trapezoid_matrix_rows (rQ rV aI aQ aV dl_current C : ℝ) (T : Fin 4 → ℝ)
    (m : LUEntries) (hm : m = trapezoid_lu rQ rV aI aQ aV dl_current C)
    (h11 : m.u11 ≠ 0) (h22 : m.u22 ≠ 0) (h33 : m.u33 ≠ 0) :
    (1 + (1 / 2 * dl_current * C) • Kmat rQ 0 rV aI aQ 0 aV).mulVec T =
      ![m.u11 * T 0 + m.u12 * T 1 + m.u14 * T 3,
        m.l21 * (m.u11 * T 0 + m.u12 * T 1 + m.u14 * T 3) +
          (m.u22 * T 1 + m.u23 * T 2 + m.u24 * T 3),
        m.l32 * (m.u22 * T 1 + m.u23 * T 2 + m.u24 * T 3) + (m.u33 * T 2 + m.u34 * T 3),
        m.l41 * (m.u11 * T 0 + m.u12 * T 1 + m.u14 * T 3) +
          m.l42 * (m.u22 * T 1 + m.u23 * T 2 + m.u24 * T 3) +
          m.l43 * (m.u33 * T 2 + m.u34 * T 3) + m.u44 * T 3] := by
  subst hm
  obtain ⟨a1, a2, a3, a4, a5, a6, a7, a8, a9, a10, a11, a12, a13, a14⟩ :=
    trapezoid_lu_factor rQ rV aI aQ aV dl_current C h11 h22 h33
  generalize (trapezoid_lu rQ rV aI aQ aV dl_current C) = m at *
  funext i
  fin_cases i
  · simp [Matrix.mulVec, Matrix.dotProduct, Fin.sum_univ_four, Kmat, Matrix.one_apply]
    rw [a1, a2, a3]; ring
  · simp [Matrix.mulVec, Matrix.dotProduct, Fin.sum_univ_four, Kmat, Matrix.one_apply]
    linear_combination (-T 0) * a4 - T 1 * a5 - T 2 * a6 - T 3 * a7
  · simp [Matrix.mulVec, Matrix.dotProduct, Fin.sum_univ_four, Kmat, Matrix.one_apply]
    linear_combination (-T 1) * a8 - T 2 * a9 - T 3 * a10
  · simp [Matrix.mulVec, Matrix.dotProduct, Fin.sum_univ_four, Kmat, Matrix.one_apply]
    linear_combination (-T 0) * a11 - T 1 * a12 - T 2 * a13 - T 3 * a14

/-- On a real Stokes quartet the b-vector of `pol_rte_trapezoid_step` is
`S + ½·Δl·C·(2j − K·S)` (with `a_U = ρ_U = 0`). -/
theorem trapezoid_b_real (jI jQ jU jV rQ rV aI aQ aV dl_current C : ℝ) (S : Fin 4 → ℝ) :
    trapezoid_b jI jQ jU jV rQ rV aI aQ aV dl_current C (toC S) =
      S + (1 / 2 * dl_current * C) •
        (2 • ![jI, jQ, jU, jV] - (Kmat rQ 0 rV aI aQ 0 aV).mulVec S) := by
  have hre : ∀ x : ℝ, ((x : ℂ)).re = x := Complex.ofReal_re
  funext i
  fin_cases i
  · simp only [trapezoid_b, toC]
    norm_cast
    simp [Matrix.mulVec, Matrix.dotProduct, Fin.sum_univ_four, Kmat]
    first | ring1 | (left; ring1)
  · simp only [trapezoid_b, toC]
    norm_cast
    simp [Matrix.mulVec, Matrix.dotProduct, Fin.sum_univ_four, Kmat]
    first | ring1 | (left; ring1)
  · simp only [trapezoid_b, toC]
    norm_cast
    simp [Matrix.mulVec, Matrix.dotProduct, Fin.sum_univ_four, Kmat]
    first | ring1 | (left; ring1)
  · simp only [trapezoid_b, toC]
    norm_cast
    simp [Matrix.mulVec, Matrix.dotProduct, Fin.sum_univ_four, Kmat]
    ring

theorem trapezoid_step_real (jI jQ jU jV rQ rU rV aI aQ aU aV dl_current C : ℝ)
    (S : Fin 4 → ℂ) :
    pol_rte_trapezoid_step jI jQ jU jV rQ rU rV aI aQ aU aV dl_current C S =
      toC (lu_solve (trapezoid_lu rQ rV aI aQ aV dl_current C)
        (trapezoid_b jI jQ jU jV rQ rV aI aQ aV dl_current C S)) := by
  funext i
  fin_cases i <;> rfl

/-- Claim C4. With `a_U = ρ_U = 0` and non-zero pivots, the vector written by
`pol_rte_trapezoid_step` on a real `S` is real and is the (unique) solution `S'` of
`(I + ½·Δl·C·K)·S' = S + ½·Δl·C·(2j − K·S)`. -/
theorem trapezoid_step_solves (jI jQ jU jV rQ rV aI aQ aV dl_current C : ℝ) (S : Fin 4 → ℝ)
    (h11 : (trapezoid_lu rQ rV aI aQ aV dl_current C).u11 ≠ 0)
    (h22 : (trapezoid_lu rQ rV aI aQ aV dl_current C).u22 ≠ 0)
    (h33 : (trapezoid_lu rQ rV aI aQ aV dl_current C).u33 ≠ 0)
    (h44 : (trapezoid_lu rQ rV aI aQ aV dl_current C).u44 ≠ 0) :
    ∃ S' : Fin 4 → ℝ,
      pol_rte_trapezoid_step jI jQ jU jV rQ 0 rV aI aQ 0 aV dl_current C (toC S) = toC S' ∧
      (1 + (1 / 2 * dl_current * C) • Kmat rQ 0 rV aI aQ 0 aV).mulVec S' =
        S + (1 / 2 * dl_current * C) •
          (2 • ![jI, jQ, jU, jV] - (Kmat rQ 0 rV aI aQ 0 aV).mulVec S) ∧
      ∀ T : Fin 4 → ℝ,
        (1 + (1 / 2 * dl_current * C) • Kmat rQ 0 rV aI aQ 0 aV).mulVec T =
          S + (1 / 2 * dl_current * C) •
            (2 • ![jI, jQ, jU, jV] - (Kmat rQ 0 rV aI aQ 0 aV).mulVec S) → T = S' := by
  refine ⟨lu_solve (trapezoid_lu rQ rV aI aQ aV dl_current C)
    (trapezoid_b jI jQ jU jV rQ rV aI aQ aV dl_current C (toC S)), ?_, ?_, ?_⟩
  · exact trapezoid_step_real jI jQ jU jV rQ 0 rV aI aQ 0 aV dl_current C (toC S)
  · rw [trapezoid_matrix_rows rQ rV aI aQ aV dl_current C _ _ rfl h11 h22 h33,
      ← trapezoid_b_real jI jQ jU jV rQ rV aI aQ aV dl_current C S]
    obtain ⟨r0, r1, r2, r3⟩ := lu_solve_rows (trapezoid_lu rQ rV aI aQ aV dl_current C)
      (trapezoid_b jI jQ jU jV rQ rV aI aQ aV dl_current C (toC S)) h11 h22 h33 h44
    funext i
    fin_cases i
    · exact r0
    · exact r1
    · exact r2
    · exact r3
  · intro T hT
    rw [trapezoid_matrix_rows rQ rV aI aQ aV dl_current C _ _ rfl h11 h22 h33,
      ← trapezoid_b_real jI jQ jU jV rQ rV aI aQ aV dl_current C S] at hT
    symm
    apply lu_solve_unique _ _ T h11 h22 h33 h44
    · exact congrFun hT 0
    · exact congrFun hT 1
    · exact congrFun hT 2
    · exact congrFun hT 3

/-- Witness for claim C4: `a_I = 2`, `a_Q = a_V = ρ_Q = ρ_V = 1`, `Δl = C = 1`,
`j = (1, 0, 0, 0)`, `S = (1, 2, 3, 4)`. -/
theorem trapezoid_step_solves_witness :
    ∃ S' : Fin 4 → ℝ,
      pol_rte_trapezoid_step 1 0 0 0 1 0 1 2 1 0 1 1 1 (toC ![1, 2, 3, 4]) = toC S' ∧
      (1 + (1 / 2 * 1 * 1 : ℝ) • Kmat 1 0 1 2 1 0 1).mulVec S' =
        ![1, 2, 3, 4] + (1 / 2 * 1 * 1 : ℝ) •
          (2 • ![1, 0, 0, 0] - (Kmat 1 0 1 2 1 0 1).mulVec ![1, 2, 3, 4]) ∧
      ∀ T : Fin 4 → ℝ,
        (1 + (1 / 2 * 1 * 1 : ℝ) • Kmat 1 0 1 2 1 0 1).mulVec T =
          ![1, 2, 3, 4] + (1 / 2 * 1 * 1 : ℝ) •
            (2 • ![1, 0, 0, 0] - (Kmat 1 0 1 2 1 0 1).mulVec ![1, 2, 3, 4]) → T = S' :=
  trapezoid_step_solves 1 0 0 0 1 1 2 1 1 1 1 ![1, 2, 3, 4]
    (by norm_num [trapezoid_lu]) (by norm_num [trapezoid_lu]) (by norm_num [trapezoid_lu])
    (by norm_num [trapezoid_lu])

/-- Claim C6. With every absorption and rotation coefficient zero (`K = 0`), on a real `S_A`
both `pol_rte_rk4_step` and `pol_rte_trapezoid_step` return `S_A + Δl·C·j`; with `j = 0` as
well both leave `S_A` unchanged. -/
theorem transfer_step_zero_K (jI jQ jU jV dl_current C : ℝ) (S : Fin 4 → ℝ) :
    pol_rte_rk4_step jI jQ jU jV 0 0 0 0 0 0 0 dl_current C (toC S) =
        toC (fun i => S i + dl_current * C * ![jI, jQ, jU, jV] i) ∧
      pol_rte_trapezoid_step jI jQ jU jV 0 0 0 0 0 0 0 dl_current C (toC S) =
        toC (fun i => S i + dl_current * C * ![jI, jQ, jU, jV] i) ∧
      pol_rte_rk4_step 0 0 0 0 0 0 0 0 0 0 0 dl_current C (toC S) = toC S ∧
      pol_rte_trapezoid_step 0 0 0 0 0 0 0 0 0 0 0 dl_current C (toC S) = toC S := by
  have hrk : ∀ a b c d : ℝ, pol_rte_rk4_step a b c d 0 0 0 0 0 0 0 dl_current C (toC S) =
      toC (fun i => S i + dl_current * C * ![a, b, c, d] i) := by
    intro a b c d
    funext i
    fin_cases i <;> simp [pol_rte_rk4_step, toC] <;> ring
  have htr : ∀ a b c d : ℝ, pol_rte_trapezoid_step a b c d 0 0 0 0 0 0 0 dl_current C (toC S) =
      toC (fun i => S i + dl_current * C * ![a, b, c, d] i) := by
    intro a b c d
    rw [trapezoid_step_real]
    funext i
    fin_cases i <;> simp [lu_solve, trapezoid_lu, trapezoid_b, toC] <;> ring
  have hz : (fun i => S i + dl_current * C * (![0, 0, 0, 0] : Fin 4 → ℝ) i) = S := by
    funext i
    fin_cases i <;> simp
  refine ⟨hrk jI jQ jU jV, htr jI jQ jU jV, ?_, ?_⟩
  · rw [hrk 0 0 0 0, hz]
  · rw [htr 0 0 0 0, hz]

theorem rk4_classical_fixed (g : (Fin 4 → ℂ) → Fin 4 → ℂ) (S : Fin 4 → ℂ)
    (h : g S = fun _ => 0) : rk4_classical g S = S := by
  have e1 : (fun n => S n + (fun _ : Fin 4 => (0 : ℂ)) n / 2) = S := by
    funext n; simp
  have e2 : (fun n => S n + (fun _ : Fin 4 => (0 : ℂ)) n) = S := by
    funext n; simp
  unfold rk4_classical
  simp only [h, e1, e2]
  funext i
  simp

theorem rte_rhs_equilibrium (h : ℝ) (j : Fin 4 → ℝ) (K : Matrix (Fin 4) (Fin 4) ℝ)
    (S : Fin 4 → ℝ) (hK : K.mulVec S = j) : rte_rhs h j K (toC S) = fun _ => 0 := by
  funext i
  have hi : j i = ∑ k, K i k * S k := by
    rw [← hK]; rfl
  simp only [rte_rhs, toC, hi]
  push_cast
  simp

theorem trapezoid_step_equilibrium (jI jQ jU jV rQ rV aI aQ aV dl_current C : ℝ)
    (S : Fin 4 → ℝ)
    (hK : (Kmat rQ 0 rV aI aQ 0 aV).mulVec S = ![jI, jQ, jU, jV])
    (h11 : (trapezoid_lu rQ rV aI aQ aV dl_current C).u11 ≠ 0)
    (h22 : (trapezoid_lu rQ rV aI aQ aV dl_current C).u22 ≠ 0)
    (h33 : (trapezoid_lu rQ rV aI aQ aV dl_current C).u33 ≠ 0)
    (h44 : (trapezoid_lu rQ rV aI aQ aV dl_current C).u44 ≠ 0) :
    pol_rte_trapezoid_step jI jQ jU jV rQ 0 rV aI aQ 0 aV dl_current C (toC S) = toC S := by
  have hb : (1 + (1 / 2 * dl_current * C) • Kmat rQ 0 rV aI aQ 0 aV).mulVec S =
      trapezoid_b jI jQ jU jV rQ rV aI aQ aV dl_current C (toC S) := by
    rw [trapezoid_b_real, ← hK, Matrix.add_mulVec, Matrix.one_mulVec, Matrix.smul_mulVec_assoc]
    funext i
    have h2 : (2 • (Kmat rQ 0 rV aI aQ 0 aV).mulVec S) i =
        2 * (Kmat rQ 0 rV aI aQ 0 aV).mulVec S i := by
      simp [Pi.smul_apply]
    simp only [Pi.add_apply, Pi.smul_apply, Pi.sub_apply, smul_eq_mul] at h2 ⊢
    rw [h2]
    ring
  rw [trapezoid_matrix_rows rQ rV aI aQ aV dl_current C _ _ rfl h11 h22 h33] at hb
  rw [trapezoid_step_real]
  refine congrArg toC ?_
  apply lu_solve_unique _ _ S h11 h22 h33 h44
  · exact congrFun hb 0
  · exact congrFun hb 1
  · exact congrFun hb 2
  · exact congrFun hb 3

theorem norm4_sub_self (X S : Fin 4 → ℂ) (h : X = S) (c : ℝ) (hc : 0 ≤ c) :
    norm4 (fun i => X i - S i) / norm4 S ≤ c := by
  subst h
  simp [norm4, hc]

/-- Claim C7. Equilibrium: if `K·S = j` for a real `S`, then `S` is a fixed point of
`pol_rte_rk4_step`, and (with `a_U = ρ_U = 0` and non-zero pivots) of
`pol_rte_trapezoid_step`; after any number `n` of steps the relative deviation from `S` is
zero, hence within `10⁻⁶` (RK4) and `10⁻⁸` (trapezoidal). -/
theorem transfer_equilibrium (jI jQ jU jV rQ rU rV aI aQ aU aV dl_current C : ℝ)
    (S : Fin 4 → ℝ)
    (hK : (Kmat rQ rU rV aI aQ aU aV).mulVec S = ![jI, jQ, jU, jV]) (n : ℕ) :
    ((pol_rte_rk4_step jI jQ jU jV rQ rU rV aI aQ aU aV dl_current C)^[n] (toC S) = toC S ∧
      norm4 (fun i =>
          (pol_rte_rk4_step jI jQ jU jV rQ rU rV aI aQ aU aV dl_current C)^[n] (toC S) i -
            toC S i) / norm4 (toC S) ≤ 1e-6) ∧
    (aU = 0 → rU = 0 →
      (trapezoid_lu rQ rV aI aQ aV dl_current C).u11 ≠ 0 →
      (trapezoid_lu rQ rV aI aQ aV dl_current C).u22 ≠ 0 →
      (trapezoid_lu rQ rV aI aQ aV dl_current C).u33 ≠ 0 →
      (trapezoid_lu rQ rV aI aQ aV dl_current C).u44 ≠ 0 →
      (pol_rte_trapezoid_step jI jQ jU jV rQ rU rV aI aQ aU aV dl_current C)^[n] (toC S) =
          toC S ∧
        norm4 (fun i =>
          (pol_rte_trapezoid_step jI jQ jU jV rQ rU rV aI aQ aU aV dl_current C)^[n] (toC S) i -
            toC S i) / norm4 (toC S) ≤ 1e-8) := by
  have hrk : (pol_rte_rk4_step jI jQ jU jV rQ rU rV aI aQ aU aV dl_current C)^[n] (toC S) =
      toC S := by
    apply Function.iterate_fixed
    rw [pol_rte_rk4_step_stages jI jQ jU jV rQ rU rV aI aQ aU aV dl_current C (toC S) _ rfl]
    exact rk4_classical_fixed _ _ (rte_rhs_equilibrium _ _ _ S hK)
  refine ⟨⟨hrk, norm4_sub_self _ _ hrk _ (by norm_num)⟩, ?_⟩
  intro haU hrU h11 h22 h33 h44
  subst haU hrU
  have htr : (pol_rte_trapezoid_step jI jQ jU jV rQ 0 rV aI aQ 0 aV dl_current C)^[n] (toC S) =
      toC S := by
    apply Function.iterate_fixed
    exact trapezoid_step_equilibrium jI jQ jU jV rQ rV aI aQ aV dl_current C S hK h11 h22 h33 h44
  exact ⟨htr, norm4_sub_self _ _ htr _ (by norm_num)⟩

/-- Witness for claim C7: `a_I = 2`, `a_Q = a_V = ρ_Q = ρ_V = 1`, `S = (1, 2, 3, 4)`,
`j = K·S = (8, 8, 8, 6)`, `Δl = C = 1`, a thousand steps. -/
theorem transfer_equilibrium_witness :
    (pol_rte_rk4_step 8 8 8 6 1 0 1 2 1 0 1 1 1)^[1000] (toC ![1, 2, 3, 4]) =
        toC ![1, 2, 3, 4] ∧
      (pol_rte_trapezoid_step 8 8 8 6 1 0 1 2 1 0 1 1 1)^[1000] (toC ![1, 2, 3, 4]) =
        toC ![1, 2, 3, 4] :=
  have hK : (Kmat 1 0 1 2 1 0 1).mulVec ![1, 2, 3, 4] = ![8, 8, 8, 6] := by
    funext i
    fin_cases i <;>
      simp [Kmat, Matrix.mulVec, Matrix.dotProduct, Fin.sum_univ_four] <;> norm_num
  ⟨(transfer_equilibrium 8 8 8 6 1 0 1 2 1 0 1 1 1 ![1, 2, 3, 4] hK 1000).1.1,
    ((transfer_equilibrium 8 8 8 6 1 0 1 2 1 0 1 1 1 ![1, 2, 3, 4] hK 1000).2 rfl rfl
      (by norm_num [trapezoid_lu]) (by norm_num [trapezoid_lu]) (by norm_num [trapezoid_lu])
      (by norm_num [trapezoid_lu])).1⟩

theorem stiff_mag_eq_taylor4 (tau : ℂ) : stiff_mag tau = taylor4 tau := by
  unfold stiff_mag taylor4
  norm_num
  ring

theorem check_stiffness_zplus (rQ rV aQ aV : ℝ) :
    (-(rQ * rQ + rV * rV - aQ * aQ - aV * aV) +
      Real.sqrt ((rQ * rQ + rV * rV - aQ * aQ - aV * aV) * (rQ * rQ + rV * rV - aQ * aQ - aV * aV) -
        4 * (-2 * aV * aQ * rV * rQ - aQ * aQ * rQ * rQ - aV * aV * rV * rV))) / 2 =
      stiff_zplus rQ rV aQ aV := by
  unfold stiff_zplus stiff_a2 stiff_a0
  congr 3 <;> ring

theorem check_stiffness_zminus (rQ rV aQ aV : ℝ) :
    (-(rQ * rQ + rV * rV - aQ * aQ - aV * aV) -
      Real.sqrt ((rQ * rQ + rV * rV - aQ * aQ - aV * aV) * (rQ * rQ + rV * rV - aQ * aQ - aV * aV) -
        4 * (-2 * aV * aQ * rV * rQ - aQ * aQ * rQ * rQ - aV * aV * rV * rV))) / 2 =
      stiff_zminus rQ rV aQ aV := by
  unfold stiff_zminus stiff_a2 stiff_a0
  congr 3 <;> ring

/-- The value of `check_stiffness` in terms of the four magnitudes `|M(Δl·λ)|`. -/
theorem check_stiffness_eq (jI jQ jU jV rQ rU rV aI aQ aU aV dl_current : ℝ) :
    check_stiffness jI jQ jU jV rQ rU rV aI aQ aU aV dl_current =
      if Complex.abs (taylor4 (dl_current * (aI + csqrt (stiff_zplus rQ rV aQ aV : ℝ)))) > 0.99 ∨
          Complex.abs (taylor4 (dl_current * (aI - csqrt (stiff_zplus rQ rV aQ aV : ℝ)))) > 0.99 ∨
          Complex.abs (taylor4 (dl_current * (aI + csqrt (stiff_zminus rQ rV aQ aV : ℝ)))) > 0.99 ∨
          Complex.abs (taylor4 (dl_current * (aI - csqrt (stiff_zminus rQ rV aQ aV : ℝ)))) > 0.99
      then 1 else 0 := by
  unfold check_stiffness
  simp only [csqrt_mul_conj_re, stiff_mag_eq_taylor4, check_stiffness_zplus,
    check_stiffness_zminus]

/-- Claim C9. `check_stiffness` returns 1 exactly when `|M(Δl·λ)| > 0.99` for at least one of
the four values `λ = a_I ± √z₊`, `a_I ± √z₋` (complex square roots), and 0 otherwise. -/
theorem check_stiffness_iff (jI jQ jU jV rQ rU rV aI aQ aU aV dl_current : ℝ) :
    (check_stiffness jI jQ jU jV rQ rU rV aI aQ aU aV dl_current = 1 ↔
      ∃ lam : ℂ,
        (lam = aI + csqrt (stiff_zplus rQ rV aQ aV : ℝ) ∨
          lam = aI - csqrt (stiff_zplus rQ rV aQ aV : ℝ) ∨
          lam = aI + csqrt (stiff_zminus rQ rV aQ aV : ℝ) ∨
          lam = aI - csqrt (stiff_zminus rQ rV aQ aV : ℝ)) ∧
        Complex.abs (taylor4 (dl_current * lam)) > 0.99) ∧
    (check_stiffness jI jQ jU jV rQ rU rV aI aQ aU aV dl_current = 1 ∨
      check_stiffness jI jQ jU jV rQ rU rV aI aQ aU aV dl_current = 0) := by
  rw [check_stiffness_eq]
  constructor
  · constructor
    · intro h
      split_ifs at h with hc
      · rcases hc with hc | hc | hc | hc
        · exact ⟨_, Or.inl rfl, hc⟩
        · exact ⟨_, Or.inr (Or.inl rfl), hc⟩
        · exact ⟨_, Or.inr (Or.inr (Or.inl rfl)), hc⟩
        · exact ⟨_, Or.inr (Or.inr (Or.inr rfl)), hc⟩
      · exact absurd h (by norm_num)
    · rintro ⟨lam, hlam, hc⟩
      rw [if_pos]
      rcases hlam with h | h | h | h <;> subst h
      · exact Or.inl hc
      · exact Or.inr (Or.inl hc)
      · exact Or.inr (Or.inr (Or.inl hc))
      · exact Or.inr (Or.inr (Or.inr hc))
  · split_ifs
    · exact Or.inl rfl
    · exact Or.inr rfl

theorem stiff_zplus_rotation (rQ rV : ℝ) : stiff_zplus rQ rV 0 0 = 0 := by
  have h : stiff_a2 rQ rV 0 0 ^ 2 - 4 * stiff_a0 rQ rV 0 0 = (rQ ^ 2 + rV ^ 2) ^ 2 := by
    unfold stiff_a2 stiff_a0; ring
  have h2 : stiff_a2 rQ rV 0 0 = rQ ^ 2 + rV ^ 2 := by
    unfold stiff_a2; ring
  unfold stiff_zplus
  rw [h, h2, Real.sqrt_sq (by positivity)]
  ring

theorem taylor4_ofReal_abs (x : ℝ) (hx : 0 ≤ x) : Complex.abs (taylor4 (x : ℂ)) > 0.99 := by
  have h : taylor4 (x : ℂ) = ((1 + x + x ^ 2 / 2 + x ^ 3 / 6 + x ^ 4 / 24 : ℝ) : ℂ) := by
    unfold taylor4; push_cast; ring
  have hp : (0 : ℝ) ≤ 1 + x + x ^ 2 / 2 + x ^ 3 / 6 + x ^ 4 / 24 := by positivity
  rw [h, Complex.abs_of_nonneg hp]
  have h3 : 0 ≤ x ^ 3 := by positivity
  nlinarith [sq_nonneg x, sq_nonneg (x ^ 2)]

/-- Without `a_Q` and `a_V`, a non-negative `a_I` and a non-negative step always give
`STIFF = 1`: `z₊ = 0`, so `τ₁ = Δl·a_I ≥ 0` and `M(τ₁) ≥ 1`. -/
theorem check_stiffness_rotation (jI jQ jU jV rQ rU rV aI aU dl_current : ℝ)
    (haI : 0 ≤ aI) (hdl : 0 ≤ dl_current) :
    check_stiffness jI jQ jU jV rQ rU rV aI 0 aU 0 dl_current = 1 := by
  rw [check_stiffness_eq, if_pos]
  left
  rw [stiff_zplus_rotation, Complex.ofReal_zero, csqrt_zero, add_zero, ← Complex.ofReal_mul]
  exact taylor4_ofReal_abs _ (mul_nonneg hdl haI)

/-- Claim C8, evaluated on the code. With `a_I = 0` and only `ρ_V` non-zero, `check_stiffness`
returns 1 for `ρ_V·Δl = 10³` and also returns 1 for `ρ_V·Δl = 10⁻³` (where the claim
expects 0): `τ₁ = 0` gives `|M(τ₁)| = 1 > 0.99`. -/
theorem check_stiffness_gating :
    check_stiffness 0 0 0 0 0 0 1000 0 0 0 0 1 = 1 ∧
      check_stiffness 0 0 0 0 0 0 (1 / 1000) 0 0 0 0 1 = 1 :=
  ⟨check_stiffness_rotation 0 0 0 0 0 0 1000 0 0 1 le_rfl zero_le_one,
    check_stiffness_rotation 0 0 0 0 0 0 (1 / 1000) 0 0 1 le_rfl zero_le_one⟩

/-- With non-zero pivots, `lu_solve` with the entries of `trapezoid_lu` inverts
`I + ½·Δl·C·K`. -/
theorem trapezoid_solve_mulVec (rQ rV aI aQ aV dl_current C : ℝ) (b : Fin 4 → ℝ)
    (h11 : (trapezoid_lu rQ rV aI aQ aV dl_current C).u11 ≠ 0)
    (h22 : (trapezoid_lu rQ rV aI aQ aV dl_current C).u22 ≠ 0)
    (h33 : (trapezoid_lu rQ rV aI aQ aV dl_current C).u33 ≠ 0)
    (h44 : (trapezoid_lu rQ rV aI aQ aV dl_current C).u44 ≠ 0) :
    (1 + (1 / 2 * dl_current * C) • Kmat rQ 0 rV aI aQ 0 aV).mulVec
      (lu_solve (trapezoid_lu rQ rV aI aQ aV dl_current C) b) = b := by
  rw [trapezoid_matrix_rows rQ rV aI aQ aV dl_current C _ _ rfl h11 h22 h33]
  obtain ⟨r0, r1, r2, r3⟩ :=
    lu_solve_rows (trapezoid_lu rQ rV aI aQ aV dl_current C) b h11 h22 h33 h44
  funext i
  fin_cases i
  · exact r0
  · exact r1
  · exact r2
  · exact r3

theorem trapezoid_solve_unique (rQ rV aI aQ aV dl_current C : ℝ) (b T : Fin 4 → ℝ)
    (h11 : (trapezoid_lu rQ rV aI aQ aV dl_current C).u11 ≠ 0)
    (h22 : (trapezoid_lu rQ rV aI aQ aV dl_current C).u22 ≠ 0)
    (h33 : (trapezoid_lu rQ rV aI aQ aV dl_current C).u33 ≠ 0)
    (h44 : (trapezoid_lu rQ rV aI aQ aV dl_current C).u44 ≠ 0)
    (hT : (1 + (1 / 2 * dl_current * C) • Kmat rQ 0 rV aI aQ 0 aV).mulVec T = b) :
    lu_solve (trapezoid_lu rQ rV aI aQ aV dl_current C) b = T := by
  rw [trapezoid_matrix_rows rQ rV aI aQ aV dl_current C _ _ rfl h11 h22 h33] at hT
  apply lu_solve_unique _ _ T h11 h22 h33 h44
  · exact congrFun hT 0
  · exact congrFun hT 1
  · exact congrFun hT 2
  · exact congrFun hT 3

/-- Without `a_Q` and `a_V`, and with `Δl·C·a_I ≥ 0`, the four pivots are positive. -/
theorem trapezoid_lu_rotation_pivots (rQ rV aI dl_current C : ℝ)
    (hc : 0 ≤ dl_current * C * aI) :
    0 < (trapezoid_lu rQ rV aI 0 0 dl_current C).u11 ∧
    0 < (trapezoid_lu rQ rV aI 0 0 dl_current C).u22 ∧
    0 < (trapezoid_lu rQ rV aI 0 0 dl_current C).u33 ∧
    0 < (trapezoid_lu rQ rV aI 0 0 dl_current C).u44 := by
  have c0 : 0 < 1 + 0.5 * dl_current * C * aI := by
    have : 0.5 * dl_current * C * aI = 0.5 * (dl_current * C * aI) := by ring
    rw [this]; norm_num; linarith
  have e11 : (trapezoid_lu rQ rV aI 0 0 dl_current C).u11 = 1 + 0.5 * dl_current * C * aI := rfl
  have e22 : (trapezoid_lu rQ rV aI 0 0 dl_current C).u22 = 1 + 0.5 * dl_current * C * aI := by
    simp [trapezoid_lu]
  have e33 : (trapezoid_lu rQ rV aI 0 0 dl_current C).u33 =
      1 + 0.5 * dl_current * C * aI +
        (0.5 * dl_current * C * rV) ^ 2 / (1 + 0.5 * dl_current * C * aI) := by
    simp [trapezoid_lu]; ring
  have h33 : 0 < (trapezoid_lu rQ rV aI 0 0 dl_current C).u33 := by
    rw [e33]; positivity
  have e44 : (trapezoid_lu rQ rV aI 0 0 dl_current C).u44 =
      1 + 0.5 * dl_current * C * aI +
        (0.5 * dl_current * C * rQ) ^ 2 / (trapezoid_lu rQ rV aI 0 0 dl_current C).u33 := by
    simp [trapezoid_lu]; ring
  refine ⟨by rw [e11]; exact c0, by rw [e22]; exact c0, h33, ?_⟩
  rw [e44]; positivity

theorem norm4_eq_norm (X : Fin 4 → ℂ) :
    norm4 X = ‖(WithLp.equiv 2 (Fin 4 → ℂ)).symm X‖ := by
  rw [EuclideanSpace.norm_eq]
  simp [norm4]

theorem norm4_add_le (X Y : Fin 4 → ℂ) :
    norm4 (fun i => X i + Y i) ≤ norm4 X + norm4 Y := by
  rw [norm4_eq_norm, norm4_eq_norm, norm4_eq_norm]
  exact norm_add_le ((WithLp.equiv 2 (Fin 4 → ℂ)).symm X) ((WithLp.equiv 2 (Fin 4 → ℂ)).symm Y)

theorem norm4_toC (X : Fin 4 → ℝ) :
    norm4 (toC X) = Real.sqrt (X 0 ^ 2 + X 1 ^ 2 + X 2 ^ 2 + X 3 ^ 2) := by
  simp [norm4, toC, Fin.sum_univ_four]

theorem norm4_toC_smul (h : ℝ) (hh : 0 ≤ h) (X : Fin 4 → ℝ) :
    norm4 (toC (fun i => h * X i)) = norm4 (toC X) * h := by
  rw [norm4_toC, norm4_toC]
  have e : (h * X 0) ^ 2 + (h * X 1) ^ 2 + (h * X 2) ^ 2 + (h * X 3) ^ 2 =
      h ^ 2 * (X 0 ^ 2 + X 1 ^ 2 + X 2 ^ 2 + X 3 ^ 2) := by ring
  rw [e, Real.sqrt_mul (sq_nonneg h), Real.sqrt_sq hh]
  ring

theorem norm4_toC_le (X Y : Fin 4 → ℝ)
    (h : X 0 ^ 2 + X 1 ^ 2 + X 2 ^ 2 + X 3 ^ 2 ≤ Y 0 ^ 2 + Y 1 ^ 2 + Y 2 ^ 2 + Y 3 ^ 2) :
    norm4 (toC X) ≤ norm4 (toC Y) := by
  rw [norm4_toC, norm4_toC]
  exact Real.sqrt_le_sqrt h

/-- Norm bound for the trapezoidal update when `K = a_I·I + R` with `R` antisymmetric:
if `(I + ½hK)·w = S` and `(I + ½hK)·v = j`, then `T = (I − ½hK)·w + h·v` has
`‖T‖ ≤ ‖S‖ + ‖j‖·h`. -/
theorem trapezoid_rotation_bound (rQ rV aI h : ℝ) (hh : 0 ≤ h) (hc : 0 ≤ h * aI)
    (S j w v : Fin 4 → ℝ)
    (hw : (1 + (1 / 2 * h) • Kmat rQ 0 rV aI 0 0 0).mulVec w = S)
    (hv : (1 + (1 / 2 * h) • Kmat rQ 0 rV aI 0 0 0).mulVec v = j) :
    norm4 (toC (fun i => (1 - (1 / 2 * h) • Kmat rQ 0 rV aI 0 0 0).mulVec w i + h * v i)) ≤
      norm4 (toC S) + norm4 (toC j) * h := by
  have hAw : ∀ x : Fin 4 → ℝ, (1 + (1 / 2 * h) • Kmat rQ 0 rV aI 0 0 0).mulVec x =
      ![(1 + 1 / 2 * h * aI) * x 0,
        (1 + 1 / 2 * h * aI) * x 1 + 1 / 2 * h * rV * x 2,
        -(1 / 2 * h * rV) * x 1 + (1 + 1 / 2 * h * aI) * x 2 + 1 / 2 * h * rQ * x 3,
        -(1 / 2 * h * rQ) * x 2 + (1 + 1 / 2 * h * aI) * x 3] := by
    intro x
    funext i
    fin_cases i <;>
      simp [Matrix.mulVec, Matrix.dotProduct, Fin.sum_univ_four, Kmat, Matrix.one_apply]
  have hBw : (1 - (1 / 2 * h) • Kmat rQ 0 rV aI 0 0 0).mulVec w =
      ![(1 - 1 / 2 * h * aI) * w 0,
        (1 - 1 / 2 * h * aI) * w 1 - 1 / 2 * h * rV * w 2,
        (1 / 2 * h * rV) * w 1 + (1 - 1 / 2 * h * aI) * w 2 - 1 / 2 * h * rQ * w 3,
        (1 / 2 * h * rQ) * w 2 + (1 - 1 / 2 * h * aI) * w 3] := by
    funext i
    fin_cases i <;>
      simp [Matrix.mulVec, Matrix.dotProduct, Fin.sum_univ_four, Kmat, Matrix.one_apply] <;> ring
  have h1 : norm4 (toC ((1 - (1 / 2 * h) • Kmat rQ 0 rV aI 0 0 0).mulVec w)) ≤ norm4 (toC S) := by
    apply norm4_toC_le
    rw [← hw, hAw w, hBw]
    simp only [Matrix.cons_val_zero, Matrix.cons_val_one, Matrix.head_cons, Matrix.cons_val_two,
      Matrix.tail_cons, Matrix.cons_val_three]
    nlinarith [mul_nonneg hc (add_nonneg (add_nonneg (add_nonneg (sq_nonneg (w 0))
      (sq_nonneg (w 1))) (sq_nonneg (w 2))) (sq_nonneg (w 3)))]
  have h2 : norm4 (toC v) ≤ norm4 (toC j) := by
    apply norm4_toC_le
    rw [← hv, hAw v]
    simp only [Matrix.cons_val_zero, Matrix.cons_val_one, Matrix.head_cons, Matrix.cons_val_two,
      Matrix.tail_cons, Matrix.cons_val_three]
    nlinarith [mul_nonneg hc (add_nonneg (add_nonneg (add_nonneg (sq_nonneg (v 0))
      (sq_nonneg (v 1))) (sq_nonneg (v 2))) (sq_nonneg (v 3))),
      sq_nonneg (1 / 2 * h * rV * v 2), sq_nonneg (-(1 / 2 * h * rV) * v 1 + 1 / 2 * h * rQ * v 3),
      sq_nonneg (1 / 2 * h * rQ * v 2), mul_nonneg hc hc,
      mul_nonneg (mul_nonneg hc hc) (add_nonneg (add_nonneg (add_nonneg (sq_nonneg (v 0))
      (sq_nonneg (v 1))) (sq_nonneg (v 2))) (sq_nonneg (v 3)))]
  have h3 : toC (fun i => (1 - (1 / 2 * h) • Kmat rQ 0 rV aI 0 0 0).mulVec w i + h * v i) =
      fun i => toC ((1 - (1 / 2 * h) • Kmat rQ 0 rV aI 0 0 0).mulVec w) i +
        toC (fun i => h * v i) i := by
    funext i
    simp [toC]
  rw [h3]
  calc norm4 (fun i => toC ((1 - (1 / 2 * h) • Kmat rQ 0 rV aI 0 0 0).mulVec w) i +
          toC (fun i => h * v i) i)
      ≤ norm4 (toC ((1 - (1 / 2 * h) • Kmat rQ 0 rV aI 0 0 0).mulVec w)) +
          norm4 (toC (fun i => h * v i)) := norm4_add_le _ _
    _ ≤ norm4 (toC S) + norm4 (toC j) * h := by
        rw [norm4_toC_smul h hh]
        exact add_le_add h1 (mul_le_mul_of_nonneg_right h2 hh)

/-- The trapezoidal update written with the commuting factors:
`(I + ½hK)⁻¹·(S + ½h·(2j − K·S)) = (I − ½hK)·w + h·v` for `w`, `v` the solutions for
`S` and `j`. -/
theorem trapezoid_step_split (jI jQ jU jV rQ rV aI aQ aV dl_current C : ℝ) (S : Fin 4 → ℝ)
    (h11 : (trapezoid_lu rQ rV aI aQ aV dl_current C).u11 ≠ 0)
    (h22 : (trapezoid_lu rQ rV aI aQ aV dl_current C).u22 ≠ 0)
    (h33 : (trapezoid_lu rQ rV aI aQ aV dl_current C).u33 ≠ 0)
    (h44 : (trapezoid_lu rQ rV aI aQ aV dl_current C).u44 ≠ 0) :
    pol_rte_trapezoid_step jI jQ jU jV rQ 0 rV aI aQ 0 aV dl_current C (toC S) =
      toC (fun i =>
        (1 - (1 / 2 * dl_current * C) • Kmat rQ 0 rV aI aQ 0 aV).mulVec
            (lu_solve (trapezoid_lu rQ rV aI aQ aV dl_current C) S) i +
          dl_current * C *
            lu_solve (trapezoid_lu rQ rV aI aQ aV dl_current C) ![jI, jQ, jU, jV] i) := by
  have hw := trapezoid_solve_mulVec rQ rV aI aQ aV dl_current C S h11 h22 h33 h44
  have hv := trapezoid_solve_mulVec rQ rV aI aQ aV dl_current C ![jI, jQ, jU, jV] h11 h22 h33 h44
  generalize lu_solve (trapezoid_lu rQ rV aI aQ aV dl_current C) S = w at hw ⊢
  generalize lu_solve (trapezoid_lu rQ rV aI aQ aV dl_current C) ![jI, jQ, jU, jV] = v at hv ⊢
  rw [trapezoid_step_real]
  refine congrArg toC ?_
  apply trapezoid_solve_unique rQ rV aI aQ aV dl_current C _ _ h11 h22 h33 h44
  rw [trapezoid_b_real]
  generalize Kmat rQ 0 rV aI aQ 0 aV = K at hw hv ⊢
  have hcomm : (1 + (1 / 2 * dl_current * C) • K) * (1 - (1 / 2 * dl_current * C) • K) =
      (1 - (1 / 2 * dl_current * C) • K) * (1 + (1 / 2 * dl_current * C) • K) := by
    have hK : Commute ((1 / 2 * dl_current * C) • K) ((1 / 2 * dl_current * C) • K) :=
      Commute.refl _
    exact (((Commute.one_left _).sub_right (Commute.one_left _)).add_left
      ((Commute.one_right _).sub_right hK)).eq
  have hT : (fun i => (1 - (1 / 2 * dl_current * C) • K).mulVec w i + dl_current * C * v i) =
      (1 - (1 / 2 * dl_current * C) • K).mulVec w + (dl_current * C) • v := by
    funext i
    simp
  rw [hT, Matrix.mulVec_add, Matrix.mulVec_smul, Matrix.mulVec_mulVec, hcomm,
    ← Matrix.mulVec_mulVec, hw, hv, Matrix.sub_mulVec, Matrix.one_mulVec,
    Matrix.smul_mulVec_assoc]
  funext i
  have h2 : (2 • (![jI, jQ, jU, jV] : Fin 4 → ℝ)) i = 2 * (![jI, jQ, jU, jV] : Fin 4 → ℝ) i := by
    simp [Pi.smul_apply]
  simp only [Pi.add_apply, Pi.smul_apply, Pi.sub_apply, smul_eq_mul] at h2 ⊢
  rw [h2]
  ring

/-- Claim C10, amended. For `a_Q = a_U = a_V = 0`, `ρ_U = 0`, `a_I ≥ 0`, `Δl ≥ 0` and
`Δl·C ≥ 0`, the transfer block of `pol_integration_step` takes the branch
`pol_rte_trapezoid_step`, and on real `S`, `j` its result satisfies
`‖S'‖ ≤ ‖S‖ + ‖j‖·Δl·C` in the Euclidean norm (no slack needed). -/
theorem stiff_regime_trapezoid (jI jQ jU jV rQ rV aI dl_current C : ℝ) (S : Fin 4 → ℝ)
    (haI : 0 ≤ aI) (hdl : 0 ≤ dl_current) (hh : 0 ≤ dl_current * C) :
    check_stiffness jI jQ jU jV rQ 0 rV aI 0 0 0 dl_current = 1 ∧
      (∀ S_A : Fin 4 → ℂ,
        transfer_step jI jQ jU jV rQ 0 rV aI 0 0 0 dl_current C S_A =
          pol_rte_trapezoid_step jI jQ jU jV rQ 0 rV aI 0 0 0 dl_current C S_A) ∧
      norm4 (pol_rte_trapezoid_step jI jQ jU jV rQ 0 rV aI 0 0 0 dl_current C (toC S)) ≤
        norm4 (toC S) + norm4 (toC ![jI, jQ, jU, jV]) * (dl_current * C) := by
  have hst := check_stiffness_rotation jI jQ jU jV rQ 0 rV aI 0 dl_current haI hdl
  refine ⟨hst, ?_, ?_⟩
  · intro S_A
    unfold transfer_step
    simp only [hst]
    rw [if_neg (by norm_num)]
  · have hc : 0 ≤ dl_current * C * aI := mul_nonneg hh haI
    obtain ⟨p1, p2, p3, p4⟩ := trapezoid_lu_rotation_pivots rQ rV aI dl_current C hc
    rw [trapezoid_step_split jI jQ jU jV rQ rV aI 0 0 dl_current C S (ne_of_gt p1) (ne_of_gt p2)
      (ne_of_gt p3) (ne_of_gt p4)]
    have hw := trapezoid_solve_mulVec rQ rV aI 0 0 dl_current C S (ne_of_gt p1) (ne_of_gt p2)
      (ne_of_gt p3) (ne_of_gt p4)
    have hv := trapezoid_solve_mulVec rQ rV aI 0 0 dl_current C ![jI, jQ, jU, jV] (ne_of_gt p1)
      (ne_of_gt p2) (ne_of_gt p3) (ne_of_gt p4)
    have e : 1 / 2 * dl_current * C = 1 / 2 * (dl_current * C) := by ring
    rw [e] at hw hv ⊢
    exact trapezoid_rotation_bound rQ rV aI (dl_current * C) hh hc S _ _ _ hw hv

/-- Witness for claim C10 (amended): `ρ_V·Δl = 10`, `a_I·Δl = 0.1`, `Δl = C = 1`. -/
theorem stiff_regime_trapezoid_witness :
    check_stiffness 1 0 0 0 0 0 10 (1 / 10) 0 0 0 1 = 1 ∧
      (∀ S_A : Fin 4 → ℂ,
        transfer_step 1 0 0 0 0 0 10 (1 / 10) 0 0 0 1 1 S_A =
          pol_rte_trapezoid_step 1 0 0 0 0 0 10 (1 / 10) 0 0 0 1 1 S_A) ∧
      norm4 (pol_rte_trapezoid_step 1 0 0 0 0 0 10 (1 / 10) 0 0 0 1 1 (toC ![1, 2, 3, 4])) ≤
        norm4 (toC ![1, 2, 3, 4]) + norm4 (toC ![1, 0, 0, 0]) * (1 * 1) :=
  stiff_regime_trapezoid 1 0 0 0 0 10 (1 / 10) 1 1 ![1, 2, 3, 4] (by norm_num) (by norm_num)
    (by norm_num)

theorem stiff_zminus_zero : stiff_zminus 0 0 0 0 = 0 := by
  unfold stiff_zminus stiff_a2 stiff_a0
  norm_num

theorem taylor4_neg_one : taylor4 (-1) = ((3 / 8 : ℝ) : ℂ) := by
  unfold taylor4
  push_cast
  norm_num

theorem rk4_step_damped (S_A : Fin 4 → ℂ) :
    pol_rte_rk4_step 0 0 0 0 0 0 0 1 0 0 0 (-1) (-1) S_A = fun i => 3 / 8 * S_A i := by
  funext i
  fin_cases i <;> simp [pol_rte_rk4_step] <;> ring

theorem trapezoid_step_damped :
    pol_rte_trapezoid_step 0 0 0 0 0 0 0 1 0 0 0 (-1) (-1) (toC ![1, 0, 0, 0]) 0 = 1 / 3 := by
  simp [pol_rte_trapezoid_step, lu_solve, trapezoid_lu, trapezoid_b, toC]
  norm_num

/-- Counterexample to claim C10 as stated: `a_I = 1`, `Δl = −1`, `C = −1` (so `Δl·C = 1 ≥ 0`)
and all other coefficients zero.  `check_stiffness` returns 0, the transfer block takes the
branch `pol_rte_rk4_step`, and on `S = (1, 0, 0, 0)` its result `3/8` differs from the
trapezoidal `1/3`. -/
theorem stiff_regime_counterexample :
    (0 : ℝ) ≤ 1 ∧ (0 : ℝ) ≤ (-1) * (-1) ∧
      check_stiffness 0 0 0 0 0 0 0 1 0 0 0 (-1) = 0 ∧
      transfer_step 0 0 0 0 0 0 0 1 0 0 0 (-1) (-1) (toC ![1, 0, 0, 0]) =
        pol_rte_rk4_step 0 0 0 0 0 0 0 1 0 0 0 (-1) (-1) (toC ![1, 0, 0, 0]) ∧
      transfer_step 0 0 0 0 0 0 0 1 0 0 0 (-1) (-1) (toC ![1, 0, 0, 0]) ≠
        pol_rte_trapezoid_step 0 0 0 0 0 0 0 1 0 0 0 (-1) (-1) (toC ![1, 0, 0, 0]) := by
  have hst : check_stiffness 0 0 0 0 0 0 0 1 0 0 0 (-1) = 0 := by
    rw [check_stiffness_eq, stiff_zplus_rotation, stiff_zminus_zero]
    have h : Complex.abs (taylor4 (((-1 : ℝ) : ℂ) * (((1 : ℝ) : ℂ) + csqrt ((0 : ℝ) : ℂ)))) = 3 / 8 := by
      rw [Complex.ofReal_zero, csqrt_zero]
      have e : (((-1 : ℝ) : ℂ) * (((1 : ℝ) : ℂ) + 0)) = -1 := by push_cast; ring
      rw [e, taylor4_neg_one, Complex.abs_of_nonneg (by norm_num)]
    have h' : Complex.abs (taylor4 (((-1 : ℝ) : ℂ) * (((1 : ℝ) : ℂ) - csqrt ((0 : ℝ) : ℂ)))) = 3 / 8 := by
      rw [Complex.ofReal_zero, csqrt_zero]
      have e : (((-1 : ℝ) : ℂ) * (((1 : ℝ) : ℂ) - 0)) = -1 := by push_cast; ring
      rw [e, taylor4_neg_one, Complex.abs_of_nonneg (by norm_num)]
    rw [h, h', if_neg (by norm_num)]
  have hsel : transfer_step 0 0 0 0 0 0 0 1 0 0 0 (-1) (-1) (toC ![1, 0, 0, 0]) =
      pol_rte_rk4_step 0 0 0 0 0 0 0 1 0 0 0 (-1) (-1) (toC ![1, 0, 0, 0]) := by
    simp [transfer_step, hst]
  refine ⟨by norm_num, by norm_num, hst, hsel, ?_⟩
  rw [hsel]
  intro h
  have h0 := congrFun h 0
  rw [rk4_step_damped, trapezoid_step_damped] at h0
  simp [toC] at h0
  norm_num at h0

theorem tetrad_round_trip_component (T_u T_d : Fin 4 → Fin 4 → ℝ) (F : Fin 4 → ℂ) (i : Fin 4) :
    f_to_f_tetrad T_d (f_tetrad_to_f T_u F) i =
      ∑ k : Fin 4, ((∑ j : Fin 4, T_d j i * T_u j k : ℝ) : ℂ) * F k := by
  simp only [f_to_f_tetrad, f_tetrad_to_f, finRange_four, List.foldl_cons, List.foldl_nil,
    Fin.sum_univ_four]
  push_cast
  ring

/-- Claim C18, amended. Tetrad frame change is invertible under the duality that contracts the
first index of both matrices: for all real `T_u`, `T_d` with
`Σⱼ T_d[j][i]·T_u[j][k] = δ_ik` for all `i`, `k`, and every complex 4-vector `F`,
`f_to_f_tetrad(T_d, f_tetrad_to_f(T_u, F)) = F`, where `f_tetrad_to_f` computes
`Σⱼ T_u[i][j]·F[j]` and `f_to_f_tetrad` computes `Σⱼ T_d[j][i]·F[j]`. -/
theorem tetrad_round_trip (T_u T_d : Fin 4 → Fin 4 → ℝ)
    (hdual : ∀ i k : Fin 4, ∑ j : Fin 4, T_d j i * T_u j k = if i = k then 1 else 0)
    (F : Fin 4 → ℂ) :
    f_to_f_tetrad T_d (f_tetrad_to_f T_u F) = F ∧
      (∀ i, f_tetrad_to_f T_u F i = ∑ j : Fin 4, (T_u i j : ℂ) * F j) ∧
      (∀ i, f_to_f_tetrad T_d F i = ∑ j : Fin 4, (T_d j i : ℂ) * F j) := by
  refine ⟨?_, ?_, ?_⟩
  · funext i
    rw [tetrad_round_trip_component]
    simp only [hdual]
    rw [Finset.sum_eq_single i]
    · simp
    · intro b _ hb
      rw [if_neg (Ne.symm hb)]
      simp
    · intro h
      exact absurd (Finset.mem_univ i) h
  · intro i
    simp only [f_tetrad_to_f, finRange_four, List.foldl_cons, List.foldl_nil, Fin.sum_univ_four]
    ring
  · intro i
    simp only [f_to_f_tetrad, finRange_four, List.foldl_cons, List.foldl_nil, Fin.sum_univ_four]
    ring

/-- Witness for claim C18 (amended): a shear `T_u` and the transpose of its inverse. -/
theorem tetrad_round_trip_witness :
    f_to_f_tetrad ![![1, 0, 0, 0], ![-1, 1, 0, 0], ![0, 0, 1, 0], ![0, 0, 0, 1]]
      (f_tetrad_to_f ![![1, 1, 0, 0], ![0, 1, 0, 0], ![0, 0, 1, 0], ![0, 0, 0, 1]]
        ![0, 1, 0, 0]) = ![0, 1, 0, 0] :=
  (tetrad_round_trip ![![1, 1, 0, 0], ![0, 1, 0, 0], ![0, 0, 1, 0], ![0, 0, 0, 1]]
    ![![1, 0, 0, 0], ![-1, 1, 0, 0], ![0, 0, 1, 0], ![0, 0, 0, 1]]
    (by
      intro i k
      fin_cases i <;> fin_cases k <;> simp [Fin.sum_univ_four, Matrix.vecHead, Matrix.vecTail])
    ![0, 1, 0, 0]).1

/-- Counterexample to claim C18 as stated: the shear `T_u` and its inverse `T_d` satisfy
`Σᵢ T_d[j][i]·T_u[i][k] = δ_jk`, yet `F = (0, 1, 0, 0)` comes back as `(1, 0, 0, 0)`:
`f_tetrad_to_f` gives `(1, 1, 0, 0)` and `f_to_f_tetrad` contracts the first index of `T_d`,
`1·1 + 0·1 = 1` in slot 0 and `(-1)·1 + 1·1 = 0` in slot 1. -/
theorem tetrad_round_trip_counterexample :
    (∀ j k : Fin 4,
      ∑ i : Fin 4,
        (![![1, -1, 0, 0], ![0, 1, 0, 0], ![0, 0, 1, 0], ![0, 0, 0, 1]] : Fin 4 → Fin 4 → ℝ) j i *
          (![![1, 1, 0, 0], ![0, 1, 0, 0], ![0, 0, 1, 0], ![0, 0, 0, 1]] : Fin 4 → Fin 4 → ℝ) i k
        = if j = k then 1 else 0) ∧
    f_to_f_tetrad ![![1, -1, 0, 0], ![0, 1, 0, 0], ![0, 0, 1, 0], ![0, 0, 0, 1]]
      (f_tetrad_to_f ![![1, 1, 0, 0], ![0, 1, 0, 0], ![0, 0, 1, 0], ![0, 0, 0, 1]]
        ![0, 1, 0, 0]) = ![1, 0, 0, 0] ∧
    f_to_f_tetrad ![![1, -1, 0, 0], ![0, 1, 0, 0], ![0, 0, 1, 0], ![0, 0, 0, 1]]
      (f_tetrad_to_f ![![1, 1, 0, 0], ![0, 1, 0, 0], ![0, 0, 1, 0], ![0, 0, 0, 1]]
        ![0, 1, 0, 0]) ≠ ![0, 1, 0, 0] := by
  have hval : f_to_f_tetrad ![![1, -1, 0, 0], ![0, 1, 0, 0], ![0, 0, 1, 0], ![0, 0, 0, 1]]
      (f_tetrad_to_f ![![1, 1, 0, 0], ![0, 1, 0, 0], ![0, 0, 1, 0], ![0, 0, 0, 1]]
        ![0, 1, 0, 0]) = ![1, 0, 0, 0] := by
    funext i
    fin_cases i <;> simp [f_to_f_tetrad, f_tetrad_to_f, finRange_four, Matrix.vecHead, Matrix.vecTail]
  refine ⟨?_, hval, ?_⟩
  · intro j k
    fin_cases j <;> fin_cases k <;> simp [Fin.sum_univ_four, Matrix.vecHead, Matrix.vecTail]
  · rw [hval]
    intro h
    have h0 := congrFun h 0
    simp at h0

theorem toC_injective (a b : Fin 4 → ℝ) (h : toC a = toC b) : a = b := by
  funext i
  have hi := congrFun h i
  simpa [toC] using hi

theorem trapezoid_fixed_iff (K : Matrix (Fin 4) (Fin 4) ℝ) (S j : Fin 4 → ℝ) (dl C : ℝ) :
    (1 + (1 / 2 * dl * C) • K).mulVec S = S + (1 / 2 * dl * C) • (2 • j - K.mulVec S) ↔
      (dl * C) • (K.mulVec S - j) = 0 := by
  rw [Matrix.add_mulVec, Matrix.one_mulVec, Matrix.smul_mulVec_assoc]
  constructor
  · intro h
    funext i
    have hi := congrFun h i
    simp only [Pi.add_apply, Pi.smul_apply, Pi.sub_apply, smul_eq_mul, Pi.zero_apply] at hi ⊢
    simp only [nsmul_eq_mul, Nat.cast_ofNat] at hi ⊢
    linear_combination hi
  · intro h
    funext i
    have hi := congrFun h i
    simp only [Pi.add_apply, Pi.smul_apply, Pi.sub_apply, smul_eq_mul, Pi.zero_apply] at hi ⊢
    simp only [nsmul_eq_mul, Nat.cast_ofNat] at hi ⊢
    linear_combination hi

/-- With four non-zero pivots (`a_U = ρ_U = 0`, `S_A` real) the implicit step leaves `S_A`
unchanged exactly when `Δl·C·(K·S_A − j) = 0`. -/
theorem trapezoid_step_fixed_point_iff (jI jQ jU jV rQ rV aI aQ aV dl_current C : ℝ)
    (S : Fin 4 → ℝ)
    (h11 : (trapezoid_lu rQ rV aI aQ aV dl_current C).u11 ≠ 0)
    (h22 : (trapezoid_lu rQ rV aI aQ aV dl_current C).u22 ≠ 0)
    (h33 : (trapezoid_lu rQ rV aI aQ aV dl_current C).u33 ≠ 0)
    (h44 : (trapezoid_lu rQ rV aI aQ aV dl_current C).u44 ≠ 0) :
    pol_rte_trapezoid_step jI jQ jU jV rQ 0 rV aI aQ 0 aV dl_current C (toC S) = toC S ↔
      (dl_current * C) • ((Kmat rQ 0 rV aI aQ 0 aV).mulVec S - ![jI, jQ, jU, jV]) = 0 := by
  rw [trapezoid_step_real, trapezoid_b_real, ← trapezoid_fixed_iff]
  constructor
  · intro h
    have h' := toC_injective _ _ h
    have hs := trapezoid_solve_mulVec rQ rV aI aQ aV dl_current C
      (S + (1 / 2 * dl_current * C) •
        (2 • ![jI, jQ, jU, jV] - (Kmat rQ 0 rV aI aQ 0 aV).mulVec S)) h11 h22 h33 h44
    rw [h'] at hs
    exact hs
  · intro h
    rw [trapezoid_solve_unique rQ rV aI aQ aV dl_current C _ S h11 h22 h33 h44 h]

theorem rt_pol_body_fl (e : TransferEnv) (lightpath : ℕ → ℝ) (frequency C : ℝ) (pc : ℕ)
    (s : RTState) :
    (rt_pol_body e lightpath frequency C pc s).fl =
      e.get_fluid_params (fun i => lightpath (pc * 9 + i.val)) s.fl := rfl

theorem rt_transport_step_dark (e : TransferEnv) (X_u : Fin 4 → ℝ) (pc : ℕ) (ps : PolState)
    (hlatch : ps.POLARIZATION_ACTIVE = false) : rt_transport_step e X_u pc ps = ps := by
  unfold rt_transport_step
  rw [if_neg]
  rw [hlatch]
  simp

/-- A pass whose test `IN_VOLUME && r_current2 < OUTER_BOUND_POL` fails keeps a cleared
latch cleared. -/
theorem rt_pol_body_dark (e : TransferEnv) (lightpath : ℕ → ℝ) (frequency C : ℝ) (pc : ℕ)
    (s : RTState) (hlatch : s.ps.POLARIZATION_ACTIVE = false)
    (hout : ¬ ((e.get_fluid_params (fun i => lightpath (pc * 9 + i.val)) s.fl).IN_VOLUME ≠ 0 ∧
      (if e.logscale then Real.exp (lightpath (pc * 9 + 1)) else lightpath (pc * 9 + 1))
        < 1000)) :
    (rt_pol_body e lightpath frequency C pc s).ps.POLARIZATION_ACTIVE = false := by
  have h1 : ∀ ps0 : PolState,
      rt_plasma_step e frequency C (fun i => lightpath (pc * 9 + i.val))
        (e.get_fluid_params (fun i => lightpath (pc * 9 + i.val)) s.fl) ps0 = ps0 := by
    intro ps0
    unfold rt_plasma_step
    exact if_neg hout
  unfold rt_pol_body
  simp only [h1]
  have h2 := rt_transport_step_dark e (fun i => lightpath (pc * 9 + i.val)) pc
    { s.ps with k_u := fun i => lightpath (pc * 9 + 4 + i.val),
                dl_current := |lightpath ((pc - 1) * 9 + 8)| } hlatch
  rw [h2]
  exact hlatch

theorem rt_pol_loop_dark (e : TransferEnv) (lightpath : ℕ → ℝ) (frequency C : ℝ) (n : ℕ)
    (fl0 : Fluid)
    (hdark : ∀ pc, 1 ≤ pc → pc ≤ n → ¬ rt_in_volume e lightpath n fl0 pc) :
    ∀ m, m ≤ n → ∀ s : RTState, s.fl = rt_fluid e lightpath n fl0 (n - m) →
      s.ps.POLARIZATION_ACTIVE = false →
      (rt_pol_loop e lightpath frequency C m s).ps.POLARIZATION_ACTIVE = false := by
  intro m
  induction m with
  | zero =>
    intro _ s _ h
    exact h
  | succ k ih =>
    intro hk s hfl hlatch
    have hidx : n - (k + 1) + 1 = n - k := by omega
    have hfl' : (rt_pol_body e lightpath frequency C (k + 1) s).fl =
        rt_fluid e lightpath n fl0 (n - k) := by
      rw [rt_pol_body_fl, hfl, ← hidx]
      show _ = e.get_fluid_params (fun i => lightpath ((n - (n - (k + 1))) * 9 + i.val)) _
      have h2 : n - (n - (k + 1)) = k + 1 := by omega
      rw [h2]
    have hd := hdark (k + 1) (by omega) hk
    unfold rt_in_volume at hd
    rw [hidx, ← hfl', rt_pol_body_fl] at hd
    show (rt_pol_loop e lightpath frequency C k
      (rt_pol_body e lightpath frequency C (k + 1) s)).ps.POLARIZATION_ACTIVE = false
    exact ih (by omega) _ hfl' (rt_pol_body_dark e lightpath frequency C (k + 1) s hlatch hd)

/-- With the latch cleared at the end of the loop, `radiative_transfer_polarized` writes
`IQUV = (0, 0, 0, 0)` and returns 0. -/
theorem rt_pol_result_dark (e : TransferEnv) (lightpath : ℕ → ℝ) (steps : ℤ) (frequency : ℝ)
    (u : RTState)
    (h : (rt_pol_loop e lightpath frequency
        (GGRAV * e.MBH / SPEED_OF_LIGHT / SPEED_OF_LIGHT * PLANCK_CONSTANT /
          (ELECTRON_MASS * SPEED_OF_LIGHT * SPEED_OF_LIGHT))
        (steps - 1).toNat (rt_pol_init u)).ps.POLARIZATION_ACTIVE = false) :
    radiative_transfer_polarized e lightpath steps frequency u = (fun _ => 0, 0) := by
  unfold radiative_transfer_polarized
  simp only []
  rw [h]
  simp

/-- Claim C19. No plasma, no light: for every path, step count and frequency, if none of the
processed samples (`path_counter = steps − 1` down to 1) passes the test
`IN_VOLUME && r_current2 < 1000`, `radiative_transfer_polarized` writes
`IQUV = (0, 0, 0, 0)` and returns 0; the same holds whenever `steps ≤ 1`. -/
theorem no_plasma_no_light (e : TransferEnv) (lightpath : ℕ → ℝ) (steps : ℤ) (frequency : ℝ)
    (u : RTState) :
    ((∀ pc : ℕ, 1 ≤ pc → (pc : ℤ) ≤ steps - 1 →
        ¬ rt_in_volume e lightpath (steps - 1).toNat u.fl pc) →
      radiative_transfer_polarized e lightpath steps frequency u = (fun _ => 0, 0)) ∧
    (steps ≤ 1 →
      radiative_transfer_polarized e lightpath steps frequency u = (fun _ => 0, 0)) := by
  have key : (∀ pc : ℕ, 1 ≤ pc → (pc : ℤ) ≤ steps - 1 →
        ¬ rt_in_volume e lightpath (steps - 1).toNat u.fl pc) →
      radiative_transfer_polarized e lightpath steps frequency u = (fun _ => 0, 0) := by
    intro hdark
    apply rt_pol_result_dark
    apply rt_pol_loop_dark e lightpath frequency _ (steps - 1).toNat u.fl
    · intro pc h1 h2
      exact hdark pc h1 (by omega)
    · exact le_refl _
    · rw [Nat.sub_self]
      rfl
    · rfl
  refine ⟨key, fun hs => key ?_⟩
  intro pc h1 h2
  omega

/-- Witness for claim C19: three samples at radius 2000 in a plasma that fills all space,
and a path with `steps = 1`. -/
theorem no_plasma_no_light_witness :
    radiative_transfer_polarized slabEnv (fun _ => 2000) 3 1 zeroLocals = (fun _ => 0, 0) ∧
    radiative_transfer_polarized slabEnv (fun _ => 1) 1 1 zeroLocals = (fun _ => 0, 0) :=
  ⟨(no_plasma_no_light slabEnv (fun _ => 2000) 3 1 zeroLocals).1
      (by
        intro pc _ _ h
        have h2 := h.2
        have hl : slabEnv.logscale = false := rfl
        rw [hl] at h2
        norm_num at h2),
    (no_plasma_no_light slabEnv (fun _ => 1) 1 1 zeroLocals).2 (le_refl 1)⟩

theorem rk4_step_zero_K (a b c d dl_current C : ℝ) (S : Fin 4 → ℝ) :
    pol_rte_rk4_step a b c d 0 0 0 0 0 0 0 dl_current C (toC S) =
      toC (fun i => S i + dl_current * C * ![a, b, c, d] i) := by
  funext i
  fin_cases i <;> simp [pol_rte_rk4_step, toC] <;> ring

theorem trapezoid_step_zero_K (a b c d dl_current C : ℝ) (S : Fin 4 → ℝ) :
    pol_rte_trapezoid_step a b c d 0 0 0 0 0 0 0 dl_current C (toC S) =
      toC (fun i => S i + dl_current * C * ![a, b, c, d] i) := by
  rw [trapezoid_step_real]
  funext i
  fin_cases i <;> simp [lu_solve, trapezoid_lu, trapezoid_b, toC] <;> ring

/-- With `K = 0` and emission in `I` only, the transfer block adds `Δl·C·j_I` to `S_A[0]`
whichever stepper `check_stiffness` selects. -/
theorem transfer_step_emission (jI dl_current C x : ℝ) :
    transfer_step jI 0 0 0 0 0 0 0 0 0 0 dl_current C (toC ![x, 0, 0, 0]) =
      toC ![x + dl_current * C * jI, 0, 0, 0] := by
  have e : (fun i => (![x, 0, 0, 0] : Fin 4 → ℝ) i + dl_current * C * ![jI, 0, 0, 0] i) =
      ![x + dl_current * C * jI, 0, 0, 0] := by
    funext i
    fin_cases i <;> simp
  unfold transfer_step
  simp only []
  split
  · rw [rk4_step_zero_K, e]
  · rw [trapezoid_step_zero_K, e]

theorem pol_norm_unpolarized (y : ℝ) :
    (csqrt (toC ![y, 0, 0, 0] 1 * toC ![y, 0, 0, 0] 1 + toC ![y, 0, 0, 0] 2 * toC ![y, 0, 0, 0] 2 +
      toC ![y, 0, 0, 0] 3 * toC ![y, 0, 0, 0] 3)).re = 0 := by
  have h : toC ![y, 0, 0, 0] 1 * toC ![y, 0, 0, 0] 1 + toC ![y, 0, 0, 0] 2 * toC ![y, 0, 0, 0] 2 +
      toC ![y, 0, 0, 0] 3 * toC ![y, 0, 0, 0] 3 = 0 := by
    simp [toC]
  rw [h, csqrt_zero]
  rfl

theorem evaluate_coeffs_unpolarized (p : PolEnv)
    (hjQ : ∀ a b c d f, p.j_Q a b c d f = 0) (hjV : ∀ a b c d f, p.j_V a b c d f = 0)
    (hrQ : ∀ a b c d f, p.rho_Q a b c d f = 0) (hrV : ∀ a b c d f, p.rho_V a b c d f = 0)
    (ha : ∀ a b c, p.absorption_coeff_TH a b c = 0) (nu_p THETA_e n_e B pitch_ang : ℝ) :
    evaluate_coeffs p nu_p THETA_e n_e B pitch_ang =
      { jI := p.j_I THETA_e n_e nu_p B pitch_ang / (nu_p * nu_p), jQ := 0, jU := 0, jV := 0,
        rQ := 0, rU := 0, rV := 0, aI := 0, aQ := 0, aU := 0, aV := 0 } := by
  simp [evaluate_coeffs, hjQ, hjV, hrQ, hrV, ha]

/-- In a plasma with `K = 0` and emission in `I` only, `pol_integration_step` entered with a
cleared latch and `S_A = (x, 0, 0, 0)` leaves the latch cleared and adds `Δl·C·j_I` to
`S_A[0]`, with the rescaled `Δl` and the invariant `j_I`. -/
theorem pol_integration_step_unpolarized (p : PolEnv)
    (hjQ : ∀ a b c d f, p.j_Q a b c d f = 0) (hjV : ∀ a b c d f, p.j_V a b c d f = 0)
    (hrQ : ∀ a b c d f, p.rho_Q a b c d f = 0) (hrV : ∀ a b c d f, p.rho_V a b c d f = 0)
    (ha : ∀ a b c, p.absorption_coeff_TH a b c = 0)
    (THETA_e n_e B frequency C : ℝ) (X_u B_u Uplasma_u : Fin 4 → ℝ) (s : PolState) (x : ℝ)
    (hlatch : s.POLARIZATION_ACTIVE = false) (hS : s.S_A = toC ![x, 0, 0, 0]) :
    (pol_integration_step p THETA_e n_e B frequency C X_u B_u Uplasma_u s).POLARIZATION_ACTIVE
        = false ∧
    (pol_integration_step p THETA_e n_e B frequency C X_u B_u Uplasma_u s).S_A =
      toC ![x + s.dl_current *
          (ELECTRON_MASS * SPEED_OF_LIGHT * SPEED_OF_LIGHT / (PLANCK_CONSTANT * frequency)) * C *
          (p.j_I THETA_e n_e
              (p.freq_in_plasma_frame Uplasma_u (p.lower_index X_u fun i => s.k_u i *
                (PLANCK_CONSTANT * frequency /
                  (ELECTRON_MASS * SPEED_OF_LIGHT * SPEED_OF_LIGHT))))
              B (p.pitch_angle X_u s.k_u B_u Uplasma_u) /
            (p.freq_in_plasma_frame Uplasma_u (p.lower_index X_u fun i => s.k_u i *
                (PLANCK_CONSTANT * frequency /
                  (ELECTRON_MASS * SPEED_OF_LIGHT * SPEED_OF_LIGHT))) *
              p.freq_in_plasma_frame Uplasma_u (p.lower_index X_u fun i => s.k_u i *
                (PLANCK_CONSTANT * frequency /
                  (ELECTRON_MASS * SPEED_OF_LIGHT * SPEED_OF_LIGHT))))),
        0, 0, 0] := by
  unfold pol_integration_step
  simp only [evaluate_coeffs_unpolarized p hjQ hjV hrQ hrV ha, hlatch, hS, Bool.false_eq_true,
    if_false, transfer_step_emission]
  have hlt : ¬ ((0 : ℝ) > 1e-100) := by norm_num
  simp only [pol_norm_unpolarized, if_neg hlt]
  refine ⟨trivial, ?_⟩
  funext i
  fin_cases i <;> simp [toC]

/-- In a plasma with `K = 0` and emission in `I` only, a pass of the loop keeps the latch
cleared and `S_A` of the form `(x, 0, 0, 0)`. -/
theorem rt_pol_body_unpolarized (e : TransferEnv)
    (hjQ : ∀ a b c d f, e.pol.j_Q a b c d f = 0) (hjV : ∀ a b c d f, e.pol.j_V a b c d f = 0)
    (hrQ : ∀ a b c d f, e.pol.rho_Q a b c d f = 0)
    (hrV : ∀ a b c d f, e.pol.rho_V a b c d f = 0)
    (ha : ∀ a b c, e.pol.absorption_coeff_TH a b c = 0)
    (lightpath : ℕ → ℝ) (frequency C : ℝ) (pc : ℕ) (s : RTState)
    (hlatch : s.ps.POLARIZATION_ACTIVE = false) (hS : ∃ x : ℝ, s.ps.S_A = toC ![x, 0, 0, 0]) :
    (rt_pol_body e lightpath frequency C pc s).ps.POLARIZATION_ACTIVE = false ∧
      ∃ x : ℝ, (rt_pol_body e lightpath frequency C pc s).ps.S_A = toC ![x, 0, 0, 0] := by
  obtain ⟨x, hx⟩ := hS
  have h1 : ∀ (X_u : Fin 4 → ℝ) (fl : Fluid) (ps0 : PolState),
      ps0.POLARIZATION_ACTIVE = false → ps0.S_A = toC ![x, 0, 0, 0] →
      (rt_plasma_step e frequency C X_u fl ps0).POLARIZATION_ACTIVE = false ∧
        ∃ y : ℝ, (rt_plasma_step e frequency C X_u fl ps0).S_A = toC ![y, 0, 0, 0] := by
    intro X_u fl ps0 h0 hS0
    unfold rt_plasma_step
    simp only []
    by_cases hg : fl.IN_VOLUME ≠ 0 ∧
        (if e.logscale = true then Real.exp (X_u 1) else X_u 1) < 1000
    · rw [if_pos hg]
      obtain ⟨a, b⟩ := pol_integration_step_unpolarized e.pol hjQ hjV hrQ hrV ha fl.THETA_e
        fl.n_e fl.B frequency C X_u fl.B_u fl.Uplasma_u ps0 x h0 hS0
      exact ⟨a, _, b⟩
    · rw [if_neg hg]
      exact ⟨h0, x, hS0⟩
  unfold rt_pol_body
  simp only []
  obtain ⟨a, y, b⟩ := h1 (fun i => lightpath (pc * 9 + i.val))
    (e.get_fluid_params (fun i => lightpath (pc * 9 + i.val)) s.fl)
    { s.ps with k_u := fun i => lightpath (pc * 9 + 4 + i.val),
                dl_current := |lightpath ((pc - 1) * 9 + 8)| } hlatch hx
  rw [rt_transport_step_dark _ _ _ _ a]
  exact ⟨a, y, b⟩

theorem rt_pol_loop_unpolarized (e : TransferEnv)
    (hjQ : ∀ a b c d f, e.pol.j_Q a b c d f = 0) (hjV : ∀ a b c d f, e.pol.j_V a b c d f = 0)
    (hrQ : ∀ a b c d f, e.pol.rho_Q a b c d f = 0)
    (hrV : ∀ a b c d f, e.pol.rho_V a b c d f = 0)
    (ha : ∀ a b c, e.pol.absorption_coeff_TH a b c = 0)
    (lightpath : ℕ → ℝ) (frequency C : ℝ) (m : ℕ) :
    ∀ s : RTState, s.ps.POLARIZATION_ACTIVE = false →
      (∃ x : ℝ, s.ps.S_A = toC ![x, 0, 0, 0]) →
      (rt_pol_loop e lightpath frequency C m s).ps.POLARIZATION_ACTIVE = false := by
  induction m with
  | zero =>
    intro s h _
    exact h
  | succ k ih =>
    intro s h hS
    obtain ⟨a, b⟩ :=
      rt_pol_body_unpolarized e hjQ hjV hrQ hrV ha lightpath frequency C (k + 1) s h hS
    exact ih _ a b

/-- In a plasma with `K = 0` and emission in `I` only the latch is never set, and
`radiative_transfer_polarized` writes `IQUV = (0, 0, 0, 0)` and returns 0 for every path. -/
theorem rt_pol_unpolarized (e : TransferEnv)
    (hjQ : ∀ a b c d f, e.pol.j_Q a b c d f = 0) (hjV : ∀ a b c d f, e.pol.j_V a b c d f = 0)
    (hrQ : ∀ a b c d f, e.pol.rho_Q a b c d f = 0)
    (hrV : ∀ a b c d f, e.pol.rho_V a b c d f = 0)
    (ha : ∀ a b c, e.pol.absorption_coeff_TH a b c = 0)
    (lightpath : ℕ → ℝ) (steps : ℤ) (frequency : ℝ) (u : RTState) :
    radiative_transfer_polarized e lightpath steps frequency u = (fun _ => 0, 0) := by
  apply rt_pol_result_dark
  apply rt_pol_loop_unpolarized e hjQ hjV hrQ hrV ha
  · rfl
  · refine ⟨0, ?_⟩
    funext i
    fin_cases i <;> simp [rt_pol_init, toC]

theorem slab_units :
    (1 : ℝ) ^ 3 * (|(1 : ℝ)| *
        (ELECTRON_MASS * SPEED_OF_LIGHT * SPEED_OF_LIGHT / (PLANCK_CONSTANT * 1)) *
        (GGRAV * 1 / SPEED_OF_LIGHT / SPEED_OF_LIGHT * PLANCK_CONSTANT /
          (ELECTRON_MASS * SPEED_OF_LIGHT * SPEED_OF_LIGHT)) * (1 / (1 * 1))) =
      GGRAV / (SPEED_OF_LIGHT * SPEED_OF_LIGHT) ∧
    0 < GGRAV / (SPEED_OF_LIGHT * SPEED_OF_LIGHT) := by
  have hm : ELECTRON_MASS ≠ 0 := by unfold ELECTRON_MASS; norm_num
  have hc : SPEED_OF_LIGHT ≠ 0 := by unfold SPEED_OF_LIGHT; norm_num
  have hp : PLANCK_CONSTANT ≠ 0 := by unfold PLANCK_CONSTANT; norm_num
  constructor
  · rw [abs_one]
    field_simp
    ring
  · unfold GGRAV SPEED_OF_LIGHT
    norm_num

/-- The one pass of the loop on the slab path: `S_A[0]` receives `j_I·Δl·C` with `j_I = 1`,
`Δl = |1|·m_e c²/(h·ν)` and `ν = 1`. -/
theorem slab_pass (u : RTState) (C : ℝ) :
    (rt_pol_loop slabEnv (fun _ => 1) 1 C ((2 : ℤ) - 1).toNat (rt_pol_init u)).ps.S_A 0 =
      ((|(1 : ℝ)| * (ELECTRON_MASS * SPEED_OF_LIGHT * SPEED_OF_LIGHT / (PLANCK_CONSTANT * 1)) *
        C * (1 / (1 * 1)) : ℝ) : ℂ) := by
  show (rt_pol_body slabEnv (fun _ => 1) 1 C 1 (rt_pol_init u)).ps.S_A 0 = _
  have hg : (slabEnv.get_fluid_params (fun _ : Fin 4 => (1 : ℝ)) (rt_pol_init u).fl).IN_VOLUME ≠ 0 ∧
      (if slabEnv.logscale = true then Real.exp ((fun _ : Fin 4 => (1 : ℝ)) 1)
        else (fun _ : Fin 4 => (1 : ℝ)) 1) < 1000 := by
    constructor
    · show (1 : ℤ) ≠ 0
      norm_num
    · have hl : slabEnv.logscale = false := rfl
      rw [hl]
      norm_num
  have hS : (rt_pol_init u).ps.S_A = toC ![0, 0, 0, 0] := by
    funext i
    fin_cases i <;> simp [rt_pol_init, toC]
  obtain ⟨a, b⟩ := pol_integration_step_unpolarized slabEnv.pol (fun _ _ _ _ _ => rfl)
    (fun _ _ _ _ _ => rfl) (fun _ _ _ _ _ => rfl) (fun _ _ _ _ _ => rfl) (fun _ _ _ => rfl)
    1 1 1 1 C (fun _ => 1) (fun _ => 0) (fun _ => 0)
    { (rt_pol_init u).ps with k_u := fun _ => 1, dl_current := |(1 : ℝ)| } 0 rfl hS
  unfold rt_pol_body
  simp only []
  unfold rt_plasma_step
  simp only []
  rw [if_pos hg]
  have a' : (pol_integration_step slabEnv.pol
      (slabEnv.get_fluid_params (fun _ : Fin 4 => (1 : ℝ)) (rt_pol_init u).fl).THETA_e
      (slabEnv.get_fluid_params (fun _ : Fin 4 => (1 : ℝ)) (rt_pol_init u).fl).n_e
      (slabEnv.get_fluid_params (fun _ : Fin 4 => (1 : ℝ)) (rt_pol_init u).fl).B 1 C
      (fun _ => 1)
      (slabEnv.get_fluid_params (fun _ : Fin 4 => (1 : ℝ)) (rt_pol_init u).fl).B_u
      (slabEnv.get_fluid_params (fun _ : Fin 4 => (1 : ℝ)) (rt_pol_init u).fl).Uplasma_u
      { (rt_pol_init u).ps with k_u := fun _ => 1, dl_current := |(1 : ℝ)| }).POLARIZATION_ACTIVE
        = false := a
  rw [rt_transport_step_dark _ _ _ _ a']
  have b' := congrFun b 0
  simp only [toC, Matrix.cons_val_zero, zero_add] at b'
  exact b'

/-- Claim C20, evaluated on the code. Uniform unpolarized emitter `slabEnv` (`j_I = 1`, all
of `a`, `ρ`, `j_Q`, `j_U`, `j_V` zero, `ν_p = 1`, `MBH = 1`), a path whose slots are all 1
(radius 1, `|Δλ| = 1`), `steps = 2`, `ν = 1`, any initial contents `u` of the uninitialised
locals.  The one processed in-volume sample adds `j_I·Δl·C` to `S_A[0]`, and
`ν³·j_I·Δl·C = GGRAV/c² > 0`; but the latch `POLARIZATION_ACTIVE` stays cleared because
`Iinv_pol = 0`, so `radiative_transfer_polarized` writes `IQUV = (0, 0, 0, 0)` and
returns 0. -/
theorem thin_slab_returns_zero (u : RTState) :
    radiative_transfer_polarized slabEnv (fun _ => 1) 2 1 u = (fun _ => 0, 0) ∧
    (rt_pol_loop slabEnv (fun _ => 1) 1
        (GGRAV * slabEnv.MBH / SPEED_OF_LIGHT / SPEED_OF_LIGHT * PLANCK_CONSTANT /
          (ELECTRON_MASS * SPEED_OF_LIGHT * SPEED_OF_LIGHT))
        ((2 : ℤ) - 1).toNat (rt_pol_init u)).ps.S_A 0 =
      ((|(1 : ℝ)| * (ELECTRON_MASS * SPEED_OF_LIGHT * SPEED_OF_LIGHT / (PLANCK_CONSTANT * 1)) *
        (GGRAV * 1 / SPEED_OF_LIGHT / SPEED_OF_LIGHT * PLANCK_CONSTANT /
          (ELECTRON_MASS * SPEED_OF_LIGHT * SPEED_OF_LIGHT)) * (1 / (1 * 1)) : ℝ) : ℂ) ∧
    (1 : ℝ) ^ 3 * (|(1 : ℝ)| *
        (ELECTRON_MASS * SPEED_OF_LIGHT * SPEED_OF_LIGHT / (PLANCK_CONSTANT * 1)) *
        (GGRAV * 1 / SPEED_OF_LIGHT / SPEED_OF_LIGHT * PLANCK_CONSTANT /
          (ELECTRON_MASS * SPEED_OF_LIGHT * SPEED_OF_LIGHT)) * (1 / (1 * 1))) =
      GGRAV / (SPEED_OF_LIGHT * SPEED_OF_LIGHT) ∧
    0 < GGRAV / (SPEED_OF_LIGHT * SPEED_OF_LIGHT) ∧
    (radiative_transfer_polarized slabEnv (fun _ => 1) 2 1 u).2 ≠
      GGRAV / (SPEED_OF_LIGHT * SPEED_OF_LIGHT) := by
  have h0 : radiative_transfer_polarized slabEnv (fun _ => 1) 2 1 u = (fun _ => 0, 0) :=
    rt_pol_unpolarized slabEnv (fun _ _ _ _ _ => rfl) (fun _ _ _ _ _ => rfl)
      (fun _ _ _ _ _ => rfl) (fun _ _ _ _ _ => rfl) (fun _ _ _ => rfl) (fun _ => 1) 2 1 u
  refine ⟨h0, slab_pass u _, slab_units.1, slab_units.2, ?_⟩
  rw [h0]
  exact ne_of_lt slab_units.2

theorem f_parallel_fvector (Γ : (Fin 4 → ℝ) → Fin 4 → Fin 4 → Fin 4 → ℝ) (y : Fin 8 → ℝ)
    (F : Fin 4 → ℂ) : (f_parallel Γ y F).1 = f_geodesic Γ y := by
  unfold f_parallel f_geodesic
  simp only []
  refine congrArg₂ join rfl ?_
  funext i
  simp only [finRange_four, List.foldl_cons, List.foldl_nil]
  simp only [Complex.sub_re, Complex.ofReal_re, Complex.zero_re]

theorem f_geodesic_sum (Γ : (Fin 4 → ℝ) → Fin 4 → Fin 4 → Fin 4 → ℝ) (y : Fin 8 → ℝ)
    (i : Fin 4) :
    vel (f_geodesic Γ y) i = -∑ j : Fin 4, ∑ k : Fin 4, Γ (pos y) i j k * vel y j * vel y k := by
  unfold f_geodesic
  simp only [vel_join, finRange_four, List.foldl_cons, List.foldl_nil, Fin.sum_univ_four]
  ring

theorem f_parallel_sum (Γ : (Fin 4 → ℝ) → Fin 4 → Fin 4 → Fin 4 → ℝ) (y : Fin 8 → ℝ)
    (F : Fin 4 → ℂ) (i : Fin 4) :
    (f_parallel Γ y F).2 i =
      -∑ j : Fin 4, ∑ k : Fin 4, (Γ (pos y) i j k : ℂ) * ((vel y j : ℝ) : ℂ) * F k := by
  unfold f_parallel
  simp only [finRange_four, List.foldl_cons, List.foldl_nil, Fin.sum_univ_four]
  push_cast
  ring

/-- Claim C23. Right-hand sides: for every connection `Γ`, state `(X, U)` and complex `F`,
`f_parallel` returns `(U, A, Ḟ)` with `Aⁱ = −Σ_{j,k} Γⁱ_{jk}(X)·Uʲ·Uᵏ` and
`Ḟⁱ = −Σ_{j,k} Γⁱ_{jk}(X)·Uʲ·Fᵏ`, and its `(U, A)` part equals the output of `f_geodesic`
on the same `(X, U)`. -/
theorem f_parallel_rhs (Γ : (Fin 4 → ℝ) → Fin 4 → Fin 4 → Fin 4 → ℝ) (y : Fin 8 → ℝ)
    (F : Fin 4 → ℂ) :
    pos (f_parallel Γ y F).1 = vel y ∧
    (∀ i, vel (f_parallel Γ y F).1 i =
      -∑ j : Fin 4, ∑ k : Fin 4, Γ (pos y) i j k * vel y j * vel y k) ∧
    (∀ i, (f_parallel Γ y F).2 i =
      -∑ j : Fin 4, ∑ k : Fin 4, (Γ (pos y) i j k : ℂ) * ((vel y j : ℝ) : ℂ) * F k) ∧
    (f_parallel Γ y F).1 = f_geodesic Γ y := by
  refine ⟨?_, ?_, f_parallel_sum Γ y F, f_parallel_fvector Γ y F⟩
  · rw [f_parallel_fvector]
    unfold f_geodesic
    funext i
    simp only [pos_join]
  · intro i
    rw [f_parallel_fvector, f_geodesic_sum]

theorem rk4_weights_f_real (q : Fin 4) : rk4_weights_f q = ((rk4_weights q : ℝ) : ℂ) := by
  fin_cases q <;> simp [rk4_weights_f, rk4_weights] <;> norm_num

/-- A stage of `rk4_step_f` acts on `dx` and `yshift` as the stage of `rk4_step` with
`f_geodesic`. -/
theorem rk4_stage_f_geodesic (Γ : (Fin 4 → ℝ) → Fin 4 → Fin 4 → Fin 4 → ℝ) (y : Fin 8 → ℝ)
    (F : Fin 4 → ℂ) (dt : ℝ) (sf : RKFState) (s : RKState ℝ) (q : Fin 4)
    (hdx : sf.dx = s.dx) (hy : sf.yshift = s.yshift) :
    (rk4_stage_f Γ y F dt sf q).dx = (rk4_stage (f_geodesic Γ) y dt s q).dx ∧
      (rk4_stage_f Γ y F dt sf q).yshift = (rk4_stage (f_geodesic Γ) y dt s q).yshift := by
  unfold rk4_stage_f rk4_stage
  simp only [f_parallel_fvector, hdx, hy, rk4_weights_f_real, true_and]
  funext i
  simp

theorem rk4_fold_f_geodesic (Γ : (Fin 4 → ℝ) → Fin 4 → Fin 4 → Fin 4 → ℝ) (y : Fin 8 → ℝ)
    (F : Fin 4 → ℂ) (dt : ℝ) (l : List (Fin 4)) :
    ∀ (sf : RKFState) (s : RKState ℝ), sf.dx = s.dx → sf.yshift = s.yshift →
      (l.foldl (rk4_stage_f Γ y F dt) sf).dx = (l.foldl (rk4_stage (f_geodesic Γ) y dt) s).dx := by
  induction l with
  | nil =>
    intro sf s h _
    exact h
  | cons q t ih =>
    intro sf s hdx hy
    obtain ⟨a, b⟩ := rk4_stage_f_geodesic Γ y F dt sf s q hdx hy
    exact ih _ _ a b

/-- Claim C24. The coupled stepper refines the geodesic stepper: for every state `y`, complex
`F` and `dt`, the state written by `rk4_step_f(y, F, dt)` equals the state written by
`rk4_step(y, f_geodesic, dt)`; the geodesic part does not depend on `F`. -/
theorem rk4_step_f_refines (Γ : (Fin 4 → ℝ) → Fin 4 → Fin 4 → Fin 4 → ℝ) (y : Fin 8 → ℝ)
    (F F' : Fin 4 → ℂ) (dt : ℝ) :
    (rk4_step_f Γ y F dt).1 = rk4_step (f_geodesic Γ) y dt ∧
      (rk4_step_f Γ y F dt).1 = (rk4_step_f Γ y F' dt).1 := by
  have h : ∀ G : Fin 4 → ℂ, (rk4_step_f Γ y G dt).1 = rk4_step (f_geodesic Γ) y dt := by
    intro G
    unfold rk4_step_f rk4_step
    simp only []
    rw [rk4_fold_f_geodesic Γ y G dt (List.finRange 4) ⟨fun _ _ => 0, fun _ _ => 0, y, G⟩
      ⟨fun _ _ => 0, y⟩ rfl rfl]
  exact ⟨h F, by rw [h F, h F']⟩

/-- Claim C30. Observer four-velocity is unit timelike: for every inverse metric with
`g^{33} ≠ 0` and `B² + C ≥ 0`, the one-form `U_d = (−1, 0, 0, B + sqrt(B² + C))` built by
`construct_U_vector`, with `B = −g^{03}·U_d[0]/g^{33}` and
`C = −(1 + g^{00}·U_d[0]²)/g^{33}`, satisfies
`g^{00}·U_d[0]² + 2·g^{03}·U_d[0]·U_d[3] + g^{33}·U_d[3]² = −1`; for a symmetric `g` this
is the full contraction `Σ g^{ij}·U_d[i]·U_d[j]`. -/
theorem construct_U_vector_unit (metric_uu : (Fin 4 → ℝ) → Fin 4 → Fin 4 → ℝ)
    (raise_index : (Fin 4 → ℝ) → (Fin 4 → ℝ) → Fin 4 → ℝ) (X_u : Fin 4 → ℝ)
    (h33 : metric_uu X_u 3 3 ≠ 0)
    (hdisc : 0 ≤ (-(metric_uu X_u 0 3) * (-1) / metric_uu X_u 3 3) *
        (-(metric_uu X_u 0 3) * (-1) / metric_uu X_u 3 3) +
      -(1 + metric_uu X_u 0 0 * (-1) * (-1)) / metric_uu X_u 3 3) :
    construct_U_vector metric_uu raise_index X_u =
      raise_index X_u (construct_U_d (metric_uu X_u)) ∧
    construct_U_d (metric_uu X_u) =
      ![-1, 0, 0, -(metric_uu X_u 0 3) * (-1) / metric_uu X_u 3 3 +
        Real.sqrt ((-(metric_uu X_u 0 3) * (-1) / metric_uu X_u 3 3) *
          (-(metric_uu X_u 0 3) * (-1) / metric_uu X_u 3 3) +
          -(1 + metric_uu X_u 0 0 * (-1) * (-1)) / metric_uu X_u 3 3)] ∧
    metric_uu X_u 0 0 * construct_U_d (metric_uu X_u) 0 ^ 2 +
      2 * metric_uu X_u 0 3 * construct_U_d (metric_uu X_u) 0 *
        construct_U_d (metric_uu X_u) 3 +
      metric_uu X_u 3 3 * construct_U_d (metric_uu X_u) 3 ^ 2 = -1 ∧
    ((∀ i j, metric_uu X_u i j = metric_uu X_u j i) →
      ∑ i : Fin 4, ∑ j : Fin 4,
        metric_uu X_u i j * construct_U_d (metric_uu X_u) i *
          construct_U_d (metric_uu X_u) j = -1) := by
  have hU : construct_U_d (metric_uu X_u) =
      ![-1, 0, 0, -(metric_uu X_u 0 3) * (-1) / metric_uu X_u 3 3 +
        Real.sqrt ((-(metric_uu X_u 0 3) * (-1) / metric_uu X_u 3 3) *
          (-(metric_uu X_u 0 3) * (-1) / metric_uu X_u 3 3) +
          -(1 + metric_uu X_u 0 0 * (-1) * (-1)) / metric_uu X_u 3 3)] := by
    unfold construct_U_d
    simp
  have hsq := Real.mul_self_sqrt hdisc
  have key : metric_uu X_u 0 0 * construct_U_d (metric_uu X_u) 0 ^ 2 +
      2 * metric_uu X_u 0 3 * construct_U_d (metric_uu X_u) 0 *
        construct_U_d (metric_uu X_u) 3 +
      metric_uu X_u 3 3 * construct_U_d (metric_uu X_u) 3 ^ 2 = -1 := by
    rw [hU]
    simp only [Matrix.cons_val_zero, Matrix.cons_val_three, Matrix.head_cons, Matrix.tail_cons]
    generalize Real.sqrt _ = r at hsq ⊢
    generalize metric_uu X_u 0 0 = a at hsq ⊢
    generalize metric_uu X_u 0 3 = b at hsq ⊢
    generalize hc : metric_uu X_u 3 3 = c at hsq h33 ⊢
    field_simp
    field_simp at hsq
    linear_combination c * hsq
  refine ⟨rfl, hU, key, ?_⟩
  intro hsym
  rw [← key]
  have h1 : construct_U_d (metric_uu X_u) 1 = 0 := by rw [hU]; simp
  have h2 : construct_U_d (metric_uu X_u) 2 = 0 := by rw [hU]; simp
  simp only [Fin.sum_univ_four, h1, h2, hsym 3 0]
  ring

/-- Witness for claim C30: the inverse Minkowski metric, where `B = C = 0`. -/
theorem construct_U_vector_unit_witness :
    minkowski_uu (fun _ => 0) 0 0 * construct_U_d (minkowski_uu (fun _ => 0)) 0 ^ 2 +
      2 * minkowski_uu (fun _ => 0) 0 3 * construct_U_d (minkowski_uu (fun _ => 0)) 0 *
        construct_U_d (minkowski_uu (fun _ => 0)) 3 +
      minkowski_uu (fun _ => 0) 3 3 * construct_U_d (minkowski_uu (fun _ => 0)) 3 ^ 2 = -1 :=
  (construct_U_vector_unit minkowski_uu (fun _ U_d => U_d) (fun _ => 0)
    (by simp [minkowski_uu]) (by simp [minkowski_uu])).2.2.1

theorem stiff_a0_eq (rQ rV aQ aV : ℝ) : stiff_a0 rQ rV aQ aV = -(aQ * rQ + aV * rV) ^ 2 := by
  unfold stiff_a0
  ring

theorem stiff_disc_nonneg (rQ rV aQ aV : ℝ) :
    0 ≤ stiff_a2 rQ rV aQ aV ^ 2 - 4 * stiff_a0 rQ rV aQ aV := by
  rw [stiff_a0_eq]
  nlinarith [sq_nonneg (stiff_a2 rQ rV aQ aV), sq_nonneg (aQ * rQ + aV * rV)]

theorem stiff_zplus_nonneg (rQ rV aQ aV : ℝ) : 0 ≤ stiff_zplus rQ rV aQ aV := by
  unfold stiff_zplus
  have h1 : stiff_a2 rQ rV aQ aV ≤
      Real.sqrt (stiff_a2 rQ rV aQ aV ^ 2 - 4 * stiff_a0 rQ rV aQ aV) := by
    apply Real.le_sqrt_of_sq_le
    rw [stiff_a0_eq]
    nlinarith [sq_nonneg (aQ * rQ + aV * rV)]
  linarith

theorem taylor4_ofReal_ge_one (x : ℝ) (hx : 0 ≤ x) : 1 ≤ Complex.abs (taylor4 (x : ℂ)) := by
  have h : taylor4 (x : ℂ) = ((1 + x + x ^ 2 / 2 + x ^ 3 / 6 + x ^ 4 / 24 : ℝ) : ℂ) := by
    unfold taylor4; push_cast; ring
  have hp : (0 : ℝ) ≤ 1 + x + x ^ 2 / 2 + x ^ 3 / 6 + x ^ 4 / 24 := by positivity
  rw [h, Complex.abs_of_nonneg hp]
  have h3 : 0 ≤ x ^ 3 := by positivity
  nlinarith [sq_nonneg x, sq_nonneg (x ^ 2)]

theorem stiff_tau1_real (rQ rV aI aQ aV dl_current : ℝ) :
    (dl_current : ℂ) * ((aI : ℂ) + csqrt (stiff_zplus rQ rV aQ aV : ℝ)) =
      ((dl_current * (aI + Real.sqrt (stiff_zplus rQ rV aQ aV)) : ℝ) : ℂ) := by
  rw [csqrt_ofReal _ (stiff_zplus_nonneg rQ rV aQ aV)]
  push_cast
  ring

theorem check_stiffness_nonneg (jI jQ jU jV rQ rU rV aI aQ aU aV dl_current : ℝ)
    (haI : 0 ≤ aI) (hdl : 0 ≤ dl_current) :
    check_stiffness jI jQ jU jV rQ rU rV aI aQ aU aV dl_current = 1 := by
  rw [check_stiffness_eq, if_pos]
  left
  rw [stiff_tau1_real]
  exact taylor4_ofReal_abs _ (mul_nonneg hdl (add_nonneg haI (Real.sqrt_nonneg _)))

/-- Claim C26. For every real input with `Δl ≥ 0` and `a_I ≥ 0` (any `a_Q`, `a_V`, `ρ_Q`,
`ρ_V`), `check_stiffness` returns 1: `a₀ = −(a_Q·ρ_Q + a_V·ρ_V)² ≤ 0`, the discriminant
`a₂² − 4a₀` is non-negative and `z₊ ≥ 0`, so `τ₁ = Δl·(a_I + √z₊)` is a non-negative real
and `|M(τ₁)| ≥ 1 > 0.99`.  The transfer block of `pol_integration_step` then takes
`pol_rte_trapezoid_step`, never `pol_rte_rk4_step`. -/
theorem check_stiffness_always_stiff (jI jQ jU jV rQ rU rV aI aQ aU aV dl_current : ℝ)
    (haI : 0 ≤ aI) (hdl : 0 ≤ dl_current) :
    check_stiffness jI jQ jU jV rQ rU rV aI aQ aU aV dl_current = 1 ∧
    stiff_a0 rQ rV aQ aV = -(aQ * rQ + aV * rV) ^ 2 ∧
    stiff_a0 rQ rV aQ aV ≤ 0 ∧
    0 ≤ stiff_a2 rQ rV aQ aV ^ 2 - 4 * stiff_a0 rQ rV aQ aV ∧
    0 ≤ stiff_zplus rQ rV aQ aV ∧
    (dl_current : ℂ) * ((aI : ℂ) + csqrt (stiff_zplus rQ rV aQ aV : ℝ)) =
      ((dl_current * (aI + Real.sqrt (stiff_zplus rQ rV aQ aV)) : ℝ) : ℂ) ∧
    0 ≤ dl_current * (aI + Real.sqrt (stiff_zplus rQ rV aQ aV)) ∧
    1 ≤ Complex.abs
      (taylor4 ((dl_current : ℂ) * ((aI : ℂ) + csqrt (stiff_zplus rQ rV aQ aV : ℝ)))) ∧
    ∀ (C : ℝ) (S_A : Fin 4 → ℂ),
      transfer_step jI jQ jU jV rQ rU rV aI aQ aU aV dl_current C S_A =
        pol_rte_trapezoid_step jI jQ jU jV rQ rU rV aI aQ aU aV dl_current C S_A := by
  have hst := check_stiffness_nonneg jI jQ jU jV rQ rU rV aI aQ aU aV dl_current haI hdl
  have ht : 0 ≤ dl_current * (aI + Real.sqrt (stiff_zplus rQ rV aQ aV)) :=
    mul_nonneg hdl (add_nonneg haI (Real.sqrt_nonneg _))
  refine ⟨hst, stiff_a0_eq rQ rV aQ aV, ?_, stiff_disc_nonneg rQ rV aQ aV,
    stiff_zplus_nonneg rQ rV aQ aV, stiff_tau1_real rQ rV aI aQ aV dl_current, ht, ?_, ?_⟩
  · rw [stiff_a0_eq]
    nlinarith [sq_nonneg (aQ * rQ + aV * rV)]
  · rw [stiff_tau1_real]
    exact taylor4_ofReal_ge_one _ ht
  · intro C S_A
    unfold transfer_step
    simp only [hst]
    rfl

/-- Witness for claim C26: `a_I = 1`, `a_Q = a_V = ρ_Q = ρ_V = 1`, `Δl = 1`. -/
theorem check_stiffness_always_stiff_witness :
    check_stiffness 0 0 0 0 1 0 1 1 1 0 1 1 = 1 :=
  (check_stiffness_always_stiff 0 0 0 0 1 0 1 1 1 0 1 1 zero_le_one zero_le_one).1

/-- Positivity of the four pivots of the hand-derived factorisation, in terms of the diagonal
entry `d` and the off-diagonal entries `q`, `v`, `r`, `p` of `I + ½·Δl·C·K`. -/
theorem lu_pivots_pos (d q v r p : ℝ) (hd : 0 < d) (h : q ^ 2 + v ^ 2 < d ^ 2) :
    0 < d - q / d * q ∧
    0 < d - (-r / (d - q / d * q)) * r ∧
    0 < d - v / d * v - (-(v / d) * q / (d - q / d * q)) * (-(q / d) * v) -
      ((-p - (-(v / d) * q / (d - q / d * q)) * r) / (d - (-r / (d - q / d * q)) * r)) *
        (p - (-r / (d - q / d * q)) * (-(q / d) * v)) := by
  have hd0 : d ≠ 0 := ne_of_gt hd
  have hq : 0 < d ^ 2 - q ^ 2 := by nlinarith [sq_nonneg v]
  have hw : d - q / d * q = (d ^ 2 - q ^ 2) / d := by
    field_simp
    ring
  have hwpos : 0 < d - q / d * q := by
    rw [hw]
    exact div_pos hq hd
  generalize d - q / d * q = w at hw hwpos ⊢
  have hw0 : w ≠ 0 := ne_of_gt hwpos
  have hz : d - (-r / w) * r = d + r ^ 2 / w := by
    field_simp
    ring
  have hzpos : 0 < d - (-r / w) * r := by
    rw [hz]
    have : 0 ≤ r ^ 2 / w := div_nonneg (sq_nonneg r) (le_of_lt hwpos)
    linarith
  refine ⟨hwpos, hzpos, ?_⟩
  generalize d - (-r / w) * r = z at hzpos ⊢
  have hz0 : z ≠ 0 := ne_of_gt hzpos
  have e : d - v / d * v - (-(v / d) * q / w) * (-(q / d) * v) -
      ((-p - (-(v / d) * q / w) * r) / z) * (p - (-r / w) * (-(q / d) * v)) =
      d * (d ^ 2 - q ^ 2 - v ^ 2) / (d ^ 2 - q ^ 2) + (p - r * q * v / (d * w)) ^ 2 / z := by
    have hq0 : d ^ 2 - q ^ 2 ≠ 0 := ne_of_gt hq
    rw [hw]
    field_simp
    ring
  rw [e]
  have h1 : 0 < d * (d ^ 2 - q ^ 2 - v ^ 2) / (d ^ 2 - q ^ 2) :=
    div_pos (mul_pos hd (by linarith)) hq
  have h2 : 0 ≤ (p - r * q * v / (d * w)) ^ 2 / z := div_nonneg (sq_nonneg _) (le_of_lt hzpos)
  linarith

/-- Claim C27, amended. Non-singularity of the implicit step: for every input with
`Δl·C ≥ 0`, `a_I ≥ 0` and `a_Q² + a_V² ≤ a_I²` (any `ρ_Q`, `ρ_V`), the four pivots `u11`,
`u22`, `u33`, `u44` computed by `pol_rte_trapezoid_step` are strictly positive, so none of
its divisions is a division by zero. -/
theorem trapezoid_pivots_pos (rQ rV aI aQ aV dl_current C : ℝ)
    (hdl : 0 ≤ dl_current * C) (haI : 0 ≤ aI) (hpol : aQ ^ 2 + aV ^ 2 ≤ aI ^ 2) :
    0 < (trapezoid_lu rQ rV aI aQ aV dl_current C).u11 ∧
    0 < (trapezoid_lu rQ rV aI aQ aV dl_current C).u22 ∧
    0 < (trapezoid_lu rQ rV aI aQ aV dl_current C).u33 ∧
    0 < (trapezoid_lu rQ rV aI aQ aV dl_current C).u44 := by
  have hh : 0 ≤ dl_current * C * aI := mul_nonneg hdl haI
  have hd : 0 < 1 + 0.5 * dl_current * C * aI := by
    have e : 1 + 0.5 * dl_current * C * aI = 1 + 1 / 2 * (dl_current * C * aI) := by
      norm_num
      ring
    rw [e]
    linarith
  have hlt : (0.5 * dl_current * C * aQ) ^ 2 + (0.5 * dl_current * C * aV) ^ 2 <
      (1 + 0.5 * dl_current * C * aI) ^ 2 := by
    have e1 : (0.5 * dl_current * C * aQ) ^ 2 + (0.5 * dl_current * C * aV) ^ 2 =
        (1 / 2 * (dl_current * C)) ^ 2 * (aQ ^ 2 + aV ^ 2) := by
      norm_num
      ring
    have e2 : (1 + 0.5 * dl_current * C * aI) ^ 2 =
        1 + dl_current * C * aI + (1 / 2 * (dl_current * C)) ^ 2 * aI ^ 2 := by
      norm_num
      ring
    rw [e1, e2]
    have h3 : (1 / 2 * (dl_current * C)) ^ 2 * (aQ ^ 2 + aV ^ 2) ≤
        (1 / 2 * (dl_current * C)) ^ 2 * aI ^ 2 :=
      mul_le_mul_of_nonneg_left hpol (sq_nonneg _)
    linarith
  obtain ⟨p2, p3, p4⟩ := lu_pivots_pos (1 + 0.5 * dl_current * C * aI)
    (0.5 * dl_current * C * aQ) (0.5 * dl_current * C * aV) (0.5 * dl_current * C * rV)
    (0.5 * dl_current * C * rQ) hd hlt
  refine ⟨hd, ?_, ?_, ?_⟩
  · exact p2
  · have e : (trapezoid_lu rQ rV aI aQ aV dl_current C).u33 =
        1 + 0.5 * dl_current * C * aI -
          (-(0.5 * dl_current * C * rV) / (1 + 0.5 * dl_current * C * aI -
            0.5 * dl_current * C * aQ / (1 + 0.5 * dl_current * C * aI) *
              (0.5 * dl_current * C * aQ))) * (0.5 * dl_current * C * rV) := by
      simp only [trapezoid_lu]
      ring
    rw [e]
    exact p3
  · refine lt_of_lt_of_eq p4 ?_
    simp only [trapezoid_lu]
    ring

/-- Witness for claim C27 (amended): `a_I = 2`, `a_Q = a_V = ρ_Q = ρ_V = 1`, `Δl = C = 1`. -/
theorem trapezoid_pivots_pos_witness :
    0 < (trapezoid_lu 1 1 2 1 1 1 1).u11 ∧ 0 < (trapezoid_lu 1 1 2 1 1 1 1).u22 ∧
      0 < (trapezoid_lu 1 1 2 1 1 1 1).u33 ∧ 0 < (trapezoid_lu 1 1 2 1 1 1 1).u44 :=
  trapezoid_pivots_pos 1 1 2 1 1 1 1 (by norm_num) (by norm_num) (by norm_num)

/-- Counterexample to claim C27 as stated: `a_I = −2`, `a_Q = a_V = 0`, `Δl = C = 1` satisfy
`Δl·C ≥ 0` and `a_Q² + a_V² ≤ a_I²`, yet `u11 = 1 + 0.5·1·1·(−2) = 0` is not strictly
positive. -/
theorem trapezoid_pivots_counterexample :
    (0 : ℝ) ≤ 1 * 1 ∧ (0 : ℝ) ^ 2 + 0 ^ 2 ≤ (-2) ^ 2 ∧
      (trapezoid_lu 0 0 (-2) 0 0 1 1).u11 = 0 ∧
      ¬ (0 < (trapezoid_lu 0 0 (-2) 0 0 1 1).u11) := by
  have h : (trapezoid_lu 0 0 (-2) 0 0 1 1).u11 = 0 := by
    norm_num [trapezoid_lu]
  refine ⟨by norm_num, by norm_num, h, ?_⟩
  rw [h]
  exact lt_irrefl 0

theorem rte_rhs_homogeneous (rQ rU rV aI aQ aU aV dl_current C : ℝ) (X : Fin 4 → ℂ) :
    rte_rhs (dl_current * C) ![0, 0, 0, 0] (Kmat rQ rU rV aI aQ aU aV) X =
      -((hK rQ rU rV aI aQ aU aV dl_current C).mulVec X) := by
  funext i
  have hj : ((![0, 0, 0, 0] : Fin 4 → ℝ) i : ℂ) = 0 := by
    fin_cases i <;> simp
  simp only [rte_rhs, hj, hK, Matrix.mulVec, Matrix.dotProduct, Matrix.map_apply,
    Matrix.smul_apply, smul_eq_mul, Pi.neg_apply, zero_sub, mul_neg, Finset.mul_sum]
  congr 1
  apply Finset.sum_congr rfl
  intro k _
  push_cast
  ring

/-- The classical RK4 combination for the linear right-hand side `X ↦ −A·X`. -/
theorem rk4_linear (A : Matrix (Fin 4) (Fin 4) ℂ) (S : Fin 4 → ℂ)
    (g : (Fin 4 → ℂ) → Fin 4 → ℂ) (hg : ∀ X, g X = -(A.mulVec X)) :
    (fun i => S i +
        (g S i
          + 2 * g (fun n => S n + g S n / 2) i
          + 2 * g (fun n => S n + g (fun n => S n + g S n / 2) n / 2) i
          + g (fun n => S n + g (fun n => S n + g (fun n => S n + g S n / 2) n / 2) n) i) / 6) =
      (1 - A + (1 / 2 : ℂ) • A ^ 2 - (1 / 6 : ℂ) • A ^ 3 + (1 / 24 : ℂ) • A ^ 4).mulVec S := by
  have e1 : (fun n => S n + g S n / 2) = S + (-(1 / 2 : ℂ)) • A.mulVec S := by
    funext n
    simp [hg]
    ring
  have k2 : g (fun n => S n + g S n / 2) =
      -(A.mulVec S) + (1 / 2 : ℂ) • A.mulVec (A.mulVec S) := by
    rw [e1, hg, Matrix.mulVec_add, Matrix.mulVec_smul]
    funext n
    simp
    ring
  have e2 : (fun n => S n + g (fun n => S n + g S n / 2) n / 2) =
      S + (-(1 / 2 : ℂ)) • A.mulVec S + (1 / 4 : ℂ) • A.mulVec (A.mulVec S) := by
    rw [k2]
    funext n
    simp
    ring
  have k3 : g (fun n => S n + g (fun n => S n + g S n / 2) n / 2) =
      -(A.mulVec S) + (1 / 2 : ℂ) • A.mulVec (A.mulVec S) +
        (-(1 / 4 : ℂ)) • A.mulVec (A.mulVec (A.mulVec S)) := by
    rw [e2, hg, Matrix.mulVec_add, Matrix.mulVec_add, Matrix.mulVec_smul, Matrix.mulVec_smul]
    funext n
    simp
    ring
  have e3 : (fun n => S n + g (fun n => S n + g (fun n => S n + g S n / 2) n / 2) n) =
      S + -(A.mulVec S) + (1 / 2 : ℂ) • A.mulVec (A.mulVec S) +
        (-(1 / 4 : ℂ)) • A.mulVec (A.mulVec (A.mulVec S)) := by
    rw [k3]
    funext n
    simp
    ring
  have k4 : g (fun n => S n + g (fun n => S n + g (fun n => S n + g S n / 2) n / 2) n) =
      -(A.mulVec S) + A.mulVec (A.mulVec S) +
        (-(1 / 2 : ℂ)) • A.mulVec (A.mulVec (A.mulVec S)) +
        (1 / 4 : ℂ) • A.mulVec (A.mulVec (A.mulVec (A.mulVec S))) := by
    rw [e3, hg, Matrix.mulVec_add, Matrix.mulVec_add, Matrix.mulVec_add, Matrix.mulVec_smul,
      Matrix.mulVec_smul, Matrix.mulVec_neg]
    funext n
    simp
    ring
  have p2 : (A ^ 2).mulVec S = A.mulVec (A.mulVec S) := by
    rw [pow_two, Matrix.mulVec_mulVec]
  have p3 : (A ^ 3).mulVec S = A.mulVec (A.mulVec (A.mulVec S)) := by
    rw [pow_succ, pow_two, Matrix.mulVec_mulVec, Matrix.mulVec_mulVec, Matrix.mul_assoc]
  have p4 : (A ^ 4).mulVec S = A.mulVec (A.mulVec (A.mulVec (A.mulVec S))) := by
    rw [pow_succ, pow_succ, pow_two, Matrix.mulVec_mulVec, Matrix.mulVec_mulVec,
      Matrix.mulVec_mulVec, Matrix.mul_assoc, Matrix.mul_assoc]
  rw [Matrix.add_mulVec, Matrix.sub_mulVec, Matrix.add_mulVec, Matrix.sub_mulVec,
    Matrix.one_mulVec, Matrix.smul_mulVec_assoc, Matrix.smul_mulVec_assoc,
    Matrix.smul_mulVec_assoc, p2, p3, p4, k4, k3, k2, hg]
  funext n
  simp
  ring

theorem taylor4_poly_eval (tau : ℂ) : Polynomial.eval tau taylor4_poly = taylor4 tau := by
  unfold taylor4_poly taylor4
  simp only [Polynomial.eval_add, Polynomial.eval_mul, Polynomial.eval_one, Polynomial.eval_X,
    Polynomial.eval_C, Polynomial.eval_pow]
  ring

theorem taylor4_poly_aeval (A : Matrix (Fin 4) (Fin 4) ℂ) :
    Polynomial.aeval (-A) taylor4_poly =
      1 - A + (1 / 2 : ℂ) • A ^ 2 - (1 / 6 : ℂ) • A ^ 3 + (1 / 24 : ℂ) • A ^ 4 := by
  unfold taylor4_poly
  simp only [map_add, map_mul, map_one, map_pow, Polynomial.aeval_X, Polynomial.aeval_C,
    ← Algebra.smul_def]
  have h2 : (-A) ^ 2 = A ^ 2 := by rw [neg_sq]
  have h3 : (-A) ^ 3 = -(A ^ 3) := by rw [Odd.neg_pow (by decide)]
  have h4 : (-A) ^ 4 = A ^ 4 := by rw [Even.neg_pow (by decide)]
  rw [h2, h3, h4, smul_neg]
  abel

/-- Claim C28. With `j = 0`, for every `S`, `K` (including non-zero `a_U` and `ρ_U`), `Δl`
and `C`, `pol_rte_rk4_step` returns `(I − hK + (hK)²/2 − (hK)³/6 + (hK)⁴/24)·S` with
`h = Δl·C`: the propagator of the explicit step is `M(−hK)` for the polynomial
`M = 1 + X + X²/2 + X³/6 + X⁴/24`, the polynomial whose value at `τ` `check_stiffness`
computes as `mag`. -/
theorem rk4_step_propagator (rQ rU rV aI aQ aU aV dl_current C : ℝ) (S_A : Fin 4 → ℂ) :
    pol_rte_rk4_step 0 0 0 0 rQ rU rV aI aQ aU aV dl_current C S_A =
      (1 - hK rQ rU rV aI aQ aU aV dl_current C +
        (1 / 2 : ℂ) • hK rQ rU rV aI aQ aU aV dl_current C ^ 2 -
        (1 / 6 : ℂ) • hK rQ rU rV aI aQ aU aV dl_current C ^ 3 +
        (1 / 24 : ℂ) • hK rQ rU rV aI aQ aU aV dl_current C ^ 4).mulVec S_A ∧
    pol_rte_rk4_step 0 0 0 0 rQ rU rV aI aQ aU aV dl_current C S_A =
      (Polynomial.aeval (-hK rQ rU rV aI aQ aU aV dl_current C) taylor4_poly).mulVec S_A ∧
    (∀ i k, hK rQ rU rV aI aQ aU aV dl_current C i k =
      ((dl_current * C * Kmat rQ rU rV aI aQ aU aV i k : ℝ) : ℂ)) ∧
    (∀ tau : ℂ, stiff_mag tau = Polynomial.eval tau taylor4_poly) := by
  have h1 : pol_rte_rk4_step 0 0 0 0 rQ rU rV aI aQ aU aV dl_current C S_A =
      (1 - hK rQ rU rV aI aQ aU aV dl_current C +
        (1 / 2 : ℂ) • hK rQ rU rV aI aQ aU aV dl_current C ^ 2 -
        (1 / 6 : ℂ) • hK rQ rU rV aI aQ aU aV dl_current C ^ 3 +
        (1 / 24 : ℂ) • hK rQ rU rV aI aQ aU aV dl_current C ^ 4).mulVec S_A := by
    rw [pol_rte_rk4_step_stages 0 0 0 0 rQ rU rV aI aQ aU aV dl_current C S_A _ rfl]
    exact rk4_linear _ S_A _ (rte_rhs_homogeneous rQ rU rV aI aQ aU aV dl_current C)
  refine ⟨h1, ?_, ?_, ?_⟩
  · rw [h1, taylor4_poly_aeval]
  · intro i k
    simp [hK]
  · intro tau
    rw [stiff_mag_eq_taylor4, taylor4_poly_eval]

theorem state_ext (a b : Fin 8 → ℝ) (hp : pos a = pos b) (hv : vel a = vel b) : a = b := by
  rw [← join_pos_vel a, ← join_pos_vel b, hp, hv]

theorem pos_rescale (s : ℝ) (y : Fin 8 → ℝ) : pos (rescale s y) = pos y := by
  unfold rescale
  rw [pos_join]

theorem vel_rescale (s : ℝ) (y : Fin 8 → ℝ) : vel (rescale s y) = fun i => s * vel y i := by
  unfold rescale
  rw [vel_join]

theorem rescale_zero (s : ℝ) : rescale s (fun _ => 0) = fun _ => 0 := by
  apply state_ext
  · rw [pos_rescale]
  · rw [vel_rescale]
    funext i
    show s * 0 = 0
    ring

/-- The right-hand side at `(X, s·U, F)`: the velocity part is scaled by `s`, the
acceleration by `s²` and `Ḟ` by `s`. -/
theorem f_parallel_rescale (Γ : (Fin 4 → ℝ) → Fin 4 → Fin 4 → Fin 4 → ℝ) (y : Fin 8 → ℝ)
    (F : Fin 4 → ℂ) (s : ℝ) :
    pos (f_parallel Γ (rescale s y) F).1 = (fun i => s * pos (f_parallel Γ y F).1 i) ∧
    vel (f_parallel Γ (rescale s y) F).1 = (fun i => s ^ 2 * vel (f_parallel Γ y F).1 i) ∧
    (f_parallel Γ (rescale s y) F).2 = (fun i => (s : ℂ) * (f_parallel Γ y F).2 i) := by
  unfold f_parallel
  simp only [pos_rescale, vel_rescale, pos_join, vel_join, true_and]
  constructor
  · funext i
    simp only [finRange_four, List.foldl_cons, List.foldl_nil, Complex.sub_re,
      Complex.ofReal_re, Complex.zero_re]
    ring
  · funext i
    simp only [finRange_four, List.foldl_cons, List.foldl_nil]
    push_cast
    ring

theorem rk4_weights_f_re (q : Fin 4) (a b : ℝ) :
    ((a : ℂ) + (b : ℂ) * rk4_weights_f q).re = a + b * rk4_weights q := by
  rw [rk4_weights_f_real]
  simp

theorem rescale_shift (s : ℝ) (a b : Fin 8 → ℝ) (c : ℝ) :
    rescale s (fun i => a i + b i * c) = fun i => rescale s a i + rescale s b i * c := by
  apply state_ext
  · rw [pos_rescale]
    funext k
    show pos a k + pos b k * c = pos (rescale s a) k + pos (rescale s b) k * c
    rw [pos_rescale, pos_rescale]
  · rw [vel_rescale]
    funext k
    show s * (vel a k + vel b k * c) = vel (rescale s a) k + vel (rescale s b) k * c
    rw [vel_rescale, vel_rescale]
    ring

theorem rescale_smul_rhs (Γ : (Fin 4 → ℝ) → Fin 4 → Fin 4 → Fin 4 → ℝ) (y : Fin 8 → ℝ)
    (F : Fin 4 → ℂ) (s dt : ℝ) (hs : s ≠ 0) :
    (fun i => dt / s * (f_parallel Γ (rescale s y) F).1 i) =
      rescale s (fun i => dt * (f_parallel Γ y F).1 i) := by
  obtain ⟨hp, hv, _⟩ := f_parallel_rescale Γ y F s
  apply state_ext
  · rw [pos_rescale]
    funext k
    show dt / s * pos (f_parallel Γ (rescale s y) F).1 k = dt * pos (f_parallel Γ y F).1 k
    rw [hp]
    field_simp
    ring
  · rw [vel_rescale]
    funext k
    show dt / s * vel (f_parallel Γ (rescale s y) F).1 k =
      s * (dt * vel (f_parallel Γ y F).1 k)
    rw [hv]
    field_simp
    ring

/-- A stage of `rk4_step_f` from `(X, s·U, F)` with step `dt/s` is the rescaled image of the
stage from `(X, U, F)` with step `dt`. -/
theorem rk4_stage_f_rescale (Γ : (Fin 4 → ℝ) → Fin 4 → Fin 4 → Fin 4 → ℝ) (y : Fin 8 → ℝ)
    (F : Fin 4 → ℂ) (s dt : ℝ) (hs : s ≠ 0) (s1 s2 : RKFState) (q : Fin 4)
    (hdx : ∀ q', s1.dx q' = rescale s (s2.dx q')) (hdf : s1.df = s2.df)
    (hy : s1.yshift = rescale s s2.yshift) (hf : s1.f_u_shift = s2.f_u_shift) :
    (∀ q', (rk4_stage_f Γ (rescale s y) F (dt / s) s1 q).dx q' =
      rescale s ((rk4_stage_f Γ y F dt s2 q).dx q')) ∧
    (rk4_stage_f Γ (rescale s y) F (dt / s) s1 q).df = (rk4_stage_f Γ y F dt s2 q).df ∧
    (rk4_stage_f Γ (rescale s y) F (dt / s) s1 q).yshift =
      rescale s (rk4_stage_f Γ y F dt s2 q).yshift ∧
    (rk4_stage_f Γ (rescale s y) F (dt / s) s1 q).f_u_shift =
      (rk4_stage_f Γ y F dt s2 q).f_u_shift := by
  have h2 := (f_parallel_rescale Γ s2.yshift s2.f_u_shift s).2.2
  have hdxq : ∀ q', (rk4_stage_f Γ (rescale s y) F (dt / s) s1 q).dx q' =
      rescale s ((rk4_stage_f Γ y F dt s2 q).dx q') := by
    intro q'
    unfold rk4_stage_f
    simp only []
    by_cases hq : q' = q
    · simp only [hq, if_true]
      rw [hy, hf]
      exact rescale_smul_rhs Γ s2.yshift s2.f_u_shift s dt hs
    · simp only [hq, if_false]
      exact hdx q'
  have hdfq : (rk4_stage_f Γ (rescale s y) F (dt / s) s1 q).df =
      (rk4_stage_f Γ y F dt s2 q).df := by
    unfold rk4_stage_f
    simp only []
    funext q' i
    by_cases hq : q' = q
    · simp only [hq, if_true]
      rw [hy, hf, h2]
      have hsC : (s : ℂ) ≠ 0 := by exact_mod_cast hs
      push_cast
      field_simp
      ring
    · simp only [hq, if_false]
      rw [hdf]
  refine ⟨hdxq, hdfq, ?_, ?_⟩
  · have e1 : (rk4_stage_f Γ (rescale s y) F (dt / s) s1 q).yshift =
        fun i => rescale s y i +
          (rk4_stage_f Γ (rescale s y) F (dt / s) s1 q).dx q i * rk4_weights q := by
      funext i
      exact rk4_weights_f_re q _ _
    have e2 : (rk4_stage_f Γ y F dt s2 q).yshift =
        fun i => y i + (rk4_stage_f Γ y F dt s2 q).dx q i * rk4_weights q := by
      funext i
      exact rk4_weights_f_re q _ _
    rw [e1, e2, rescale_shift, hdxq q]
  · have e1 : (rk4_stage_f Γ (rescale s y) F (dt / s) s1 q).f_u_shift =
        fun i => F i + (rk4_stage_f Γ (rescale s y) F (dt / s) s1 q).df q i * rk4_weights_f q :=
      rfl
    have e2 : (rk4_stage_f Γ y F dt s2 q).f_u_shift =
        fun i => F i + (rk4_stage_f Γ y F dt s2 q).df q i * rk4_weights_f q := rfl
    rw [e1, e2, hdfq]

theorem rk4_fold_f_rescale (Γ : (Fin 4 → ℝ) → Fin 4 → Fin 4 → Fin 4 → ℝ) (y : Fin 8 → ℝ)
    (F : Fin 4 → ℂ) (s dt : ℝ) (hs : s ≠ 0) (l : List (Fin 4)) :
    ∀ s1 s2 : RKFState, (∀ q', s1.dx q' = rescale s (s2.dx q')) → s1.df = s2.df →
      s1.yshift = rescale s s2.yshift → s1.f_u_shift = s2.f_u_shift →
      (∀ q', (l.foldl (rk4_stage_f Γ (rescale s y) F (dt / s)) s1).dx q' =
        rescale s ((l.foldl (rk4_stage_f Γ y F dt) s2).dx q')) ∧
      (l.foldl (rk4_stage_f Γ (rescale s y) F (dt / s)) s1).df =
        (l.foldl (rk4_stage_f Γ y F dt) s2).df := by
  induction l with
  | nil =>
    intro s1 s2 h1 h2 _ _
    exact ⟨h1, h2⟩
  | cons q t ih =>
    intro s1 s2 h1 h2 h3 h4
    obtain ⟨a, b, c, d⟩ := rk4_stage_f_rescale Γ y F s dt hs s1 s2 q h1 h2 h3 h4
    exact ih _ _ a b c d

theorem rescale_combine (s : ℝ) (a b0 b1 b2 b3 : Fin 8 → ℝ) :
    rescale s (fun i => a i + 1 / 6 * (b0 i + b1 i * 2 + b2 i * 2 + b3 i)) =
      fun i => rescale s a i + 1 / 6 *
        (rescale s b0 i + rescale s b1 i * 2 + rescale s b2 i * 2 + rescale s b3 i) := by
  apply state_ext
  · rw [pos_rescale]
    funext k
    show pos a k + 1 / 6 * (pos b0 k + pos b1 k * 2 + pos b2 k * 2 + pos b3 k) =
      pos (rescale s a) k + 1 / 6 * (pos (rescale s b0) k + pos (rescale s b1) k * 2 +
        pos (rescale s b2) k * 2 + pos (rescale s b3) k)
    simp only [pos_rescale]
  · rw [vel_rescale]
    funext k
    show s * (vel a k + 1 / 6 * (vel b0 k + vel b1 k * 2 + vel b2 k * 2 + vel b3 k)) =
      vel (rescale s a) k + 1 / 6 * (vel (rescale s b0) k + vel (rescale s b1) k * 2 +
        vel (rescale s b2) k * 2 + vel (rescale s b3) k)
    simp only [vel_rescale]
    ring

theorem rk4_step_f_rescale (Γ : (Fin 4 → ℝ) → Fin 4 → Fin 4 → Fin 4 → ℝ) (y : Fin 8 → ℝ)
    (F : Fin 4 → ℂ) (s dt : ℝ) (hs : s ≠ 0) :
    (rk4_step_f Γ (rescale s y) F (dt / s)).1 = rescale s (rk4_step_f Γ y F dt).1 ∧
      (rk4_step_f Γ (rescale s y) F (dt / s)).2 = (rk4_step_f Γ y F dt).2 := by
  obtain ⟨hdx, hdf⟩ := rk4_fold_f_rescale Γ y F s dt hs (List.finRange 4)
    ⟨fun _ _ => 0, fun _ _ => 0, rescale s y, F⟩ ⟨fun _ _ => 0, fun _ _ => 0, y, F⟩
    (fun _ => (rescale_zero s).symm) rfl rfl rfl
  unfold rk4_step_f
  simp only []
  constructor
  · rw [rescale_combine, hdx 0, hdx 1, hdx 2, hdx 3]
  · rw [hdf]

theorem rescale_join (s : ℝ) (X U : Fin 4 → ℝ) :
    rescale s (join X U) = join X (fun i => s * U i) := by
  unfold rescale
  rw [pos_join, vel_join]

/-- Claim C29. Reparametrisation invariance of the coupled transport: for every connection,
state `(X, U)`, complex `F`, step `dt` and scale `s ≠ 0`, `rk4_step_f` applied to
`(X, s·U, F)` with step `dt/s` yields `(X', s·U', F')`, where `(X', U', F')` is its result on
`(X, U, F)` with step `dt`.  For `ν ≠ 0` the in-volume rescaling of `k` by `h·ν/(m_e c²)` and
of `Δl` by the inverse factor therefore changes neither the transported position nor the
transported polarization vector. -/
theorem rk4_step_f_reparametrisation (Γ : (Fin 4 → ℝ) → Fin 4 → Fin 4 → Fin 4 → ℝ)
    (X U : Fin 4 → ℝ) (F : Fin 4 → ℂ) (dt s : ℝ) (hs : s ≠ 0) :
    pos (rk4_step_f Γ (join X (fun i => s * U i)) F (dt / s)).1 =
      pos (rk4_step_f Γ (join X U) F dt).1 ∧
    vel (rk4_step_f Γ (join X (fun i => s * U i)) F (dt / s)).1 =
      (fun i => s * vel (rk4_step_f Γ (join X U) F dt).1 i) ∧
    (rk4_step_f Γ (join X (fun i => s * U i)) F (dt / s)).2 =
      (rk4_step_f Γ (join X U) F dt).2 ∧
    ∀ frequency : ℝ, frequency ≠ 0 →
      pos (rk4_step_f Γ
          (join X (fun i => U i *
            (PLANCK_CONSTANT * frequency / (ELECTRON_MASS * SPEED_OF_LIGHT * SPEED_OF_LIGHT))))
          F (dt * ((ELECTRON_MASS * SPEED_OF_LIGHT * SPEED_OF_LIGHT) /
            (PLANCK_CONSTANT * frequency)))).1 =
        pos (rk4_step_f Γ (join X U) F dt).1 ∧
      (rk4_step_f Γ
          (join X (fun i => U i *
            (PLANCK_CONSTANT * frequency / (ELECTRON_MASS * SPEED_OF_LIGHT * SPEED_OF_LIGHT))))
          F (dt * ((ELECTRON_MASS * SPEED_OF_LIGHT * SPEED_OF_LIGHT) /
            (PLANCK_CONSTANT * frequency)))).2 =
        (rk4_step_f Γ (join X U) F dt).2 := by
  have key : ∀ t : ℝ, t ≠ 0 →
      (rk4_step_f Γ (join X (fun i => t * U i)) F (dt / t)).1 =
          rescale t (rk4_step_f Γ (join X U) F dt).1 ∧
        (rk4_step_f Γ (join X (fun i => t * U i)) F (dt / t)).2 =
          (rk4_step_f Γ (join X U) F dt).2 := by
    intro t ht
    have h := rk4_step_f_rescale Γ (join X U) F t dt ht
    rw [rescale_join] at h
    exact h
  obtain ⟨h1, h2⟩ := key s hs
  refine ⟨?_, ?_, h2, ?_⟩
  · rw [h1, pos_rescale]
  · rw [h1, vel_rescale]
  · intro frequency hf
    have hm : ELECTRON_MASS ≠ 0 := by unfold ELECTRON_MASS; norm_num
    have hc : SPEED_OF_LIGHT ≠ 0 := by unfold SPEED_OF_LIGHT; norm_num
    have hp : PLANCK_CONSTANT ≠ 0 := by unfold PLANCK_CONSTANT; norm_num
    have hk : PLANCK_CONSTANT * frequency /
        (ELECTRON_MASS * SPEED_OF_LIGHT * SPEED_OF_LIGHT) ≠ 0 := by
      apply div_ne_zero (mul_ne_zero hp hf)
      exact mul_ne_zero (mul_ne_zero hm hc) hc
    obtain ⟨g1, g2⟩ := key _ hk
    have eU : (fun i => U i *
        (PLANCK_CONSTANT * frequency / (ELECTRON_MASS * SPEED_OF_LIGHT * SPEED_OF_LIGHT))) =
        fun i => PLANCK_CONSTANT * frequency /
          (ELECTRON_MASS * SPEED_OF_LIGHT * SPEED_OF_LIGHT) * U i := by
      funext i
      ring
    have edt : dt * ((ELECTRON_MASS * SPEED_OF_LIGHT * SPEED_OF_LIGHT) /
        (PLANCK_CONSTANT * frequency)) =
        dt / (PLANCK_CONSTANT * frequency /
          (ELECTRON_MASS * SPEED_OF_LIGHT * SPEED_OF_LIGHT)) := by
      field_simp
    rw [eU, edt, g1, g2, pos_rescale]
    exact ⟨rfl, rfl⟩

/-- Witness for claim C29: flat connection, `U = (1, 0, 0, 0)`, `F = 0`, `dt = 1`, `s = 2`. -/
theorem rk4_step_f_reparametrisation_witness :
    (rk4_step_f (fun _ _ _ _ => 0) (join (fun _ => 0) (fun i => 2 * (![1, 0, 0, 0] : Fin 4 → ℝ) i))
        (fun _ => 0) (1 / 2)).2 =
      (rk4_step_f (fun _ _ _ _ => 0) (join (fun _ => 0) ![1, 0, 0, 0]) (fun _ => 0) 1).2 :=
  (rk4_step_f_reparametrisation (fun _ _ _ _ => 0) (fun _ => 0) ![1, 0, 0, 0] (fun _ => 0) 1 2
    (by norm_num)).2.2.1

/-- An in-volume pass that passes the guard applies `scalar_update` to the sample values. -/
theorem rt_scalar_body_in_volume (e : ScalarEnv) (lightpath : ℕ → ℝ) (frequency : ℝ)
    (pc : ℕ) (s : ScalarState)
    (hin : (e.env.get_fluid_params (fun i => lightpath (pc * 9 + i.val)) s.fl).IN_VOLUME ≠ 0)
    (hr : Real.exp (lightpath (pc * 9 + 1)) < RT_OUTER_CUTOFF) :
    (rt_scalar_body e lightpath frequency pc s).I_current =
      scalar_update s.I_current
        ((scalar_sample e lightpath frequency pc s).j_nu /
          ((scalar_sample e lightpath frequency pc s).nu_p *
            (scalar_sample e lightpath frequency pc s).nu_p))
        ((scalar_sample e lightpath frequency pc s).nu_p *
          (scalar_sample e lightpath frequency pc s).a_nu)
        ((scalar_sample e lightpath frequency pc s).nu_p *
          (scalar_sample e lightpath frequency pc s).a_nu *
          (scalar_sample e lightpath frequency pc s).dl_current * unit_C e.env.MBH + 0) := by
  unfold rt_scalar_body
  simp only []
  rw [if_pos hin, if_pos ⟨trivial, hr⟩]
  rfl

/-- Claim C21, amended. Unpolarized scalar update: at every in-volume sample that passes the
guards, `radiative_transfer` uses `τ = ν_p·a_ν·Δl·C` (`dtau_old` is 0 at every step),
`K_inv = ν_p·a_ν`, `S = j_inv/K_inv` with `j_inv = j_ν/ν_p²`, and sets `I' = I` when
`K_inv = 0`, `I' = I − (I − S)·(0.166666667·τ·(6 − τ·(3 − τ)))` when `τ < 10⁻⁵`, and
`I' = I·e^{−τ} + S·(1 − e^{−τ})` otherwise; the factor is the decimal `0.166666667`. -/
theorem scalar_transfer_update (e : ScalarEnv) (lightpath : ℕ → ℝ) (frequency : ℝ)
    (pc : ℕ) (s : ScalarState)
    (hin : (e.env.get_fluid_params (fun i => lightpath (pc * 9 + i.val)) s.fl).IN_VOLUME ≠ 0)
    (hr : Real.exp (lightpath (pc * 9 + 1)) < RT_OUTER_CUTOFF) :
    (rt_scalar_body e lightpath frequency pc s).I_current =
      (if (scalar_sample e lightpath frequency pc s).nu_p *
          (scalar_sample e lightpath frequency pc s).a_nu = 0 then s.I_current
      else if (scalar_sample e lightpath frequency pc s).nu_p *
          (scalar_sample e lightpath frequency pc s).a_nu *
          (scalar_sample e lightpath frequency pc s).dl_current * unit_C e.env.MBH < 1e-5 then
        s.I_current -
          (s.I_current -
            (scalar_sample e lightpath frequency pc s).j_nu /
              ((scalar_sample e lightpath frequency pc s).nu_p *
                (scalar_sample e lightpath frequency pc s).nu_p) /
              ((scalar_sample e lightpath frequency pc s).nu_p *
                (scalar_sample e lightpath frequency pc s).a_nu)) *
          (0.166666667 *
            ((scalar_sample e lightpath frequency pc s).nu_p *
              (scalar_sample e lightpath frequency pc s).a_nu *
              (scalar_sample e lightpath frequency pc s).dl_current * unit_C e.env.MBH) *
            (6 - (scalar_sample e lightpath frequency pc s).nu_p *
              (scalar_sample e lightpath frequency pc s).a_nu *
              (scalar_sample e lightpath frequency pc s).dl_current * unit_C e.env.MBH *
              (3 - (scalar_sample e lightpath frequency pc s).nu_p *
                (scalar_sample e lightpath frequency pc s).a_nu *
                (scalar_sample e lightpath frequency pc s).dl_current * unit_C e.env.MBH)))
      else
        s.I_current *
            Real.exp (-((scalar_sample e lightpath frequency pc s).nu_p *
              (scalar_sample e lightpath frequency pc s).a_nu *
              (scalar_sample e lightpath frequency pc s).dl_current * unit_C e.env.MBH)) +
          (scalar_sample e lightpath frequency pc s).j_nu /
              ((scalar_sample e lightpath frequency pc s).nu_p *
                (scalar_sample e lightpath frequency pc s).nu_p) /
              ((scalar_sample e lightpath frequency pc s).nu_p *
                (scalar_sample e lightpath frequency pc s).a_nu) *
            (1 - Real.exp (-((scalar_sample e lightpath frequency pc s).nu_p *
              (scalar_sample e lightpath frequency pc s).a_nu *
              (scalar_sample e lightpath frequency pc s).dl_current * unit_C e.env.MBH)))) := by
  rw [rt_scalar_body_in_volume e lightpath frequency pc s hin hr]
  unfold scalar_update
  simp only [add_zero]

theorem thin_sample (s : ScalarState) :
    scalar_sample thinEnv unitPath 1 1 s =
      { nu_p := 1, j_nu := 1, a_nu := 1,
        dl_current := ELECTRON_MASS * SPEED_OF_LIGHT * SPEED_OF_LIGHT / PLANCK_CONSTANT } := by
  simp [scalar_sample, thinEnv, unitPath, slabEnv]

theorem thin_tau :
    (1 : ℝ) * 1 * (ELECTRON_MASS * SPEED_OF_LIGHT * SPEED_OF_LIGHT / PLANCK_CONSTANT) *
        unit_C thinEnv.env.MBH + 0 = GGRAV / (SPEED_OF_LIGHT * SPEED_OF_LIGHT) := by
  have hm : ELECTRON_MASS ≠ 0 := by unfold ELECTRON_MASS; norm_num
  have hc : SPEED_OF_LIGHT ≠ 0 := by unfold SPEED_OF_LIGHT; norm_num
  have hp : PLANCK_CONSTANT ≠ 0 := by unfold PLANCK_CONSTANT; norm_num
  have hM : thinEnv.env.MBH = 1 := rfl
  rw [hM]
  unfold unit_C
  field_simp
  ring

theorem thin_tau_small :
    0 < GGRAV / (SPEED_OF_LIGHT * SPEED_OF_LIGHT) ∧
      GGRAV / (SPEED_OF_LIGHT * SPEED_OF_LIGHT) < 1e-5 := by
  unfold GGRAV SPEED_OF_LIGHT
  constructor
  · norm_num
  · rw [div_lt_iff₀ (by norm_num)]
    norm_num

theorem thin_in_volume (s : ScalarState) :
    (thinEnv.env.get_fluid_params (fun i => unitPath (1 * 9 + i.val)) s.fl).IN_VOLUME ≠ 0 ∧
      Real.exp (unitPath (1 * 9 + 1)) < RT_OUTER_CUTOFF := by
  constructor
  · show (1 : ℤ) ≠ 0
    norm_num
  · have h : unitPath (1 * 9 + 1) = 0 := by simp [unitPath]
    rw [h, Real.exp_zero]
    unfold RT_OUTER_CUTOFF
    norm_num

/-- The value returned for the two-sample path in the absorbing emitter. -/
theorem thin_return (fl0 : Fluid) :
    radiative_transfer thinEnv unitPath 2 1 fl0 =
      0.166666667 * (GGRAV / (SPEED_OF_LIGHT * SPEED_OF_LIGHT)) *
        (6 - GGRAV / (SPEED_OF_LIGHT * SPEED_OF_LIGHT) *
          (3 - GGRAV / (SPEED_OF_LIGHT * SPEED_OF_LIGHT))) := by
  have h0 : radiative_transfer thinEnv unitPath 2 1 fl0 =
      (rt_scalar_body thinEnv unitPath 1 1
        { fl := fl0, I_current := 0, j_nu := 0, a_nu := 0 }).I_current * 1 ^ 3 := rfl
  obtain ⟨hin, hr⟩ := thin_in_volume { fl := fl0, I_current := 0, j_nu := 0, a_nu := 0 }
  rw [h0, rt_scalar_body_in_volume thinEnv unitPath 1 1 _ hin hr, thin_sample]
  simp only []
  rw [thin_tau]
  unfold scalar_update
  simp only []
  rw [if_neg (by norm_num), if_pos thin_tau_small.2]
  ring

/-- Witness for claim C21 (amended): the pass at `path_counter = 1` of the two-sample path in
the absorbing emitter `thinEnv`, from `I = 0`. -/
theorem scalar_transfer_update_witness :
    (rt_scalar_body thinEnv unitPath 1 1
        { fl := zeroLocals.fl, I_current := 0, j_nu := 0, a_nu := 0 }).I_current =
      scalar_update 0
        ((scalar_sample thinEnv unitPath 1 1
            { fl := zeroLocals.fl, I_current := 0, j_nu := 0, a_nu := 0 }).j_nu /
          ((scalar_sample thinEnv unitPath 1 1
              { fl := zeroLocals.fl, I_current := 0, j_nu := 0, a_nu := 0 }).nu_p *
            (scalar_sample thinEnv unitPath 1 1
              { fl := zeroLocals.fl, I_current := 0, j_nu := 0, a_nu := 0 }).nu_p))
        ((scalar_sample thinEnv unitPath 1 1
            { fl := zeroLocals.fl, I_current := 0, j_nu := 0, a_nu := 0 }).nu_p *
          (scalar_sample thinEnv unitPath 1 1
            { fl := zeroLocals.fl, I_current := 0, j_nu := 0, a_nu := 0 }).a_nu)
        ((scalar_sample thinEnv unitPath 1 1
            { fl := zeroLocals.fl, I_current := 0, j_nu := 0, a_nu := 0 }).nu_p *
          (scalar_sample thinEnv unitPath 1 1
            { fl := zeroLocals.fl, I_current := 0, j_nu := 0, a_nu := 0 }).a_nu *
          (scalar_sample thinEnv unitPath 1 1
            { fl := zeroLocals.fl, I_current := 0, j_nu := 0, a_nu := 0 }).dl_current *
          unit_C thinEnv.env.MBH) := by
  rw [scalar_transfer_update thinEnv unitPath 1 1
    { fl := zeroLocals.fl, I_current := 0, j_nu := 0, a_nu := 0 }
    (thin_in_volume { fl := zeroLocals.fl, I_current := 0, j_nu := 0, a_nu := 0 }).1
    (thin_in_volume { fl := zeroLocals.fl, I_current := 0, j_nu := 0, a_nu := 0 }).2]
  unfold scalar_update
  simp only []

/-- Counterexample to claim C21 as stated: absorbing emitter `thinEnv` (`ν_p = j_ν = a_ν = 1`,
`MBH = 1`), path `unitPath` with `steps = 2`, `ν = 1`.  The one processed sample is in the
volume with `K_inv = 1`, `S = 1`, `I = 0` and `τ = GGRAV/c² < 10⁻⁵`; the function returns
`0.166666667·τ·(6 − τ·(3 − τ))`, which is not `τ·(6 − τ·(3 − τ))/6`. -/
theorem scalar_transfer_counterexample :
    (0 < GGRAV / (SPEED_OF_LIGHT * SPEED_OF_LIGHT) ∧
      GGRAV / (SPEED_OF_LIGHT * SPEED_OF_LIGHT) < 1e-5) ∧
    radiative_transfer thinEnv unitPath 2 1 zeroLocals.fl =
      (0 - (0 - 1) * (0.166666667 * (GGRAV / (SPEED_OF_LIGHT * SPEED_OF_LIGHT)) *
        (6 - GGRAV / (SPEED_OF_LIGHT * SPEED_OF_LIGHT) *
          (3 - GGRAV / (SPEED_OF_LIGHT * SPEED_OF_LIGHT))))) * 1 ^ 3 ∧
    radiative_transfer thinEnv unitPath 2 1 zeroLocals.fl ≠
      (0 - (0 - 1) * (GGRAV / (SPEED_OF_LIGHT * SPEED_OF_LIGHT) *
        (6 - GGRAV / (SPEED_OF_LIGHT * SPEED_OF_LIGHT) *
          (3 - GGRAV / (SPEED_OF_LIGHT * SPEED_OF_LIGHT))) / 6)) * 1 ^ 3 := by
  obtain ⟨h1, h2⟩ := thin_tau_small
  refine ⟨⟨h1, h2⟩, ?_, ?_⟩
  · rw [thin_return]
    ring
  · rw [thin_return]
    generalize GGRAV / (SPEED_OF_LIGHT * SPEED_OF_LIGHT) = t at h1 h2
    intro h
    have h3 : t * (6 - t * (3 - t)) = 0 := by
      have h4 : (0.166666667 - 1 / 6 : ℝ) * (t * (6 - t * (3 - t))) = 0 := by
        linear_combination h
      rcases mul_eq_zero.mp h4 with h5 | h5
      · norm_num at h5
      · exact h5
    have h6 : 0 < 6 - t * (3 - t) := by nlinarith
    have h7 : 0 < t * (6 - t * (3 - t)) := mul_pos h1 h6
    linarith

theorem stokes_components (Iinv Iinv_pol : ℝ) (F : Fin 4 → ℂ) :
    f_tetrad_to_stokes Iinv Iinv_pol F =
      toC ![Iinv,
        Iinv_pol * (Complex.abs (F 1) ^ 2 - Complex.abs (F 2) ^ 2),
        Iinv_pol * (2 * ((F 1).re * (F 2).re + (F 1).im * (F 2).im)),
        Iinv_pol * (2 * ((F 1).im * (F 2).re - (F 1).re * (F 2).im))] := by
  funext i
  fin_cases i
  · rfl
  · show (Iinv_pol : ℂ) * ((Complex.abs (F 1) : ℂ) * Complex.abs (F 1) -
        Complex.abs (F 2) * Complex.abs (F 2)) =
      ((Iinv_pol * (Complex.abs (F 1) ^ 2 - Complex.abs (F 2) ^ 2) : ℝ) : ℂ)
    push_cast
    ring
  · show (Iinv_pol : ℂ) * ((starRingEnd ℂ) (F 1) * F 2 + F 1 * (starRingEnd ℂ) (F 2)) =
      ((Iinv_pol * (2 * ((F 1).re * (F 2).re + (F 1).im * (F 2).im)) : ℝ) : ℂ)
    apply Complex.ext
    · simp only [Complex.mul_re, Complex.mul_im, Complex.add_re, Complex.add_im,
        Complex.conj_re, Complex.conj_im, Complex.ofReal_re, Complex.ofReal_im]
      ring
    · simp only [Complex.mul_re, Complex.mul_im, Complex.add_re, Complex.add_im,
        Complex.conj_re, Complex.conj_im, Complex.ofReal_re, Complex.ofReal_im]
      ring
  · show (Iinv_pol : ℂ) * (I * ((starRingEnd ℂ) (F 1) * F 2 - F 1 * (starRingEnd ℂ) (F 2))) =
      ((Iinv_pol * (2 * ((F 1).im * (F 2).re - (F 1).re * (F 2).im)) : ℝ) : ℂ)
    apply Complex.ext
    · simp only [Complex.mul_re, Complex.mul_im, Complex.sub_re, Complex.sub_im,
        Complex.conj_re, Complex.conj_im, Complex.ofReal_re, Complex.ofReal_im, Complex.I_re,
        Complex.I_im]
      ring
    · simp only [Complex.mul_re, Complex.mul_im, Complex.sub_re, Complex.sub_im,
        Complex.conj_re, Complex.conj_im, Complex.ofReal_re, Complex.ofReal_im, Complex.I_re,
        Complex.I_im]
      ring

theorem abs_sq_re_im (z : ℂ) : Complex.abs z ^ 2 = z.re * z.re + z.im * z.im := by
  rw [Complex.sq_abs, Complex.normSq_apply]

/-- The sum of squares of the three polarized components written by `f_tetrad_to_stokes`. -/
theorem stokes_pol_sq (Iinv Iinv_pol : ℝ) (F : Fin 4 → ℂ) :
    f_tetrad_to_stokes Iinv Iinv_pol F 1 * f_tetrad_to_stokes Iinv Iinv_pol F 1 +
      f_tetrad_to_stokes Iinv Iinv_pol F 2 * f_tetrad_to_stokes Iinv Iinv_pol F 2 +
      f_tetrad_to_stokes Iinv Iinv_pol F 3 * f_tetrad_to_stokes Iinv Iinv_pol F 3 =
      (((Iinv_pol * (Complex.abs (F 1) ^ 2 + Complex.abs (F 2) ^ 2)) ^ 2 : ℝ) : ℂ) := by
  have h1 : f_tetrad_to_stokes Iinv Iinv_pol F 1 =
      ((Iinv_pol * (Complex.abs (F 1) ^ 2 - Complex.abs (F 2) ^ 2) : ℝ) : ℂ) :=
    congrFun (stokes_components Iinv Iinv_pol F) 1
  have h2 : f_tetrad_to_stokes Iinv Iinv_pol F 2 =
      ((Iinv_pol * (2 * ((F 1).re * (F 2).re + (F 1).im * (F 2).im)) : ℝ) : ℂ) :=
    congrFun (stokes_components Iinv Iinv_pol F) 2
  have h3 : f_tetrad_to_stokes Iinv Iinv_pol F 3 =
      ((Iinv_pol * (2 * ((F 1).im * (F 2).re - (F 1).re * (F 2).im)) : ℝ) : ℂ) :=
    congrFun (stokes_components Iinv Iinv_pol F) 3
  rw [h1, h2, h3, ← Complex.ofReal_mul, ← Complex.ofReal_mul, ← Complex.ofReal_mul,
    ← Complex.ofReal_add, ← Complex.ofReal_add]
  congr 1
  simp only [abs_sq_re_im]
  ring

/-- The polarized intensity that `stokes_to_f_tetrad` reads back from the output of
`f_tetrad_to_stokes`. -/
theorem stokes_pol_intensity (Iinv Iinv_pol : ℝ) (F g : Fin 4 → ℂ) :
    (stokes_to_f_tetrad (f_tetrad_to_stokes Iinv Iinv_pol F) g).Iinv_pol =
      |Iinv_pol| * (Complex.abs (F 1) ^ 2 + Complex.abs (F 2) ^ 2) := by
  show (csqrt (f_tetrad_to_stokes Iinv Iinv_pol F 1 * f_tetrad_to_stokes Iinv Iinv_pol F 1 +
      f_tetrad_to_stokes Iinv Iinv_pol F 2 * f_tetrad_to_stokes Iinv Iinv_pol F 2 +
      f_tetrad_to_stokes Iinv Iinv_pol F 3 * f_tetrad_to_stokes Iinv Iinv_pol F 3)).re = _
  rw [stokes_pol_sq, csqrt_ofReal _ (sq_nonneg _), Complex.ofReal_re, Real.sqrt_sq_eq_abs,
    abs_mul]
  congr 1
  exact abs_of_nonneg (by positivity)

/-- Claim C31, amended. For every complex Jones vector `F` and real `Iinv`, `Iinv_pol`, the
outputs of `f_tetrad_to_stokes` are real and satisfy
`S₁² + S₂² + S₃² = Iinv_pol²·(|F¹|² + |F²|²)²`; the polarized intensity of the result is
`|Iinv_pol|·(|F¹|² + |F²|²)`, so for `Iinv_pol > 0` it equals `Iinv_pol` exactly when
`|F¹|² + |F²|² = 1`. -/
theorem stokes_output_real (Iinv Iinv_pol : ℝ) (F g : Fin 4 → ℂ) :
    (∀ i, (f_tetrad_to_stokes Iinv Iinv_pol F i).im = 0) ∧
    f_tetrad_to_stokes Iinv Iinv_pol F 1 ^ 2 + f_tetrad_to_stokes Iinv Iinv_pol F 2 ^ 2 +
        f_tetrad_to_stokes Iinv Iinv_pol F 3 ^ 2 =
      ((Iinv_pol ^ 2 * (Complex.abs (F 1) ^ 2 + Complex.abs (F 2) ^ 2) ^ 2 : ℝ) : ℂ) ∧
    (stokes_to_f_tetrad (f_tetrad_to_stokes Iinv Iinv_pol F) g).Iinv_pol =
      |Iinv_pol| * (Complex.abs (F 1) ^ 2 + Complex.abs (F 2) ^ 2) ∧
    (0 < Iinv_pol →
      ((stokes_to_f_tetrad (f_tetrad_to_stokes Iinv Iinv_pol F) g).Iinv_pol = Iinv_pol ↔
        Complex.abs (F 1) ^ 2 + Complex.abs (F 2) ^ 2 = 1)) := by
  refine ⟨?_, ?_, stokes_pol_intensity Iinv Iinv_pol F g, ?_⟩
  · intro i
    rw [stokes_components]
    exact Complex.ofReal_im _
  · have h := stokes_pol_sq Iinv Iinv_pol F
    rw [pow_two, pow_two, pow_two, h]
    congr 1
    ring
  · intro hpos
    rw [stokes_pol_intensity, abs_of_pos hpos]
    constructor
    · intro h
      have h' : Iinv_pol * (Complex.abs (F 1) ^ 2 + Complex.abs (F 2) ^ 2) = Iinv_pol * 1 := by
        rw [h, mul_one]
      exact mul_left_cancel₀ (ne_of_gt hpos) h'
    · intro h
      rw [h, mul_one]

/-- Witness for claim C31 (amended): `Iinv_pol = 2` and `F = (0, 1, 0, 0)`. -/
theorem stokes_output_real_witness :
    (stokes_to_f_tetrad (f_tetrad_to_stokes 1 2 ![0, 1, 0, 0]) (fun _ => 0)).Iinv_pol = 2 ↔
      Complex.abs ((![0, 1, 0, 0] : Fin 4 → ℂ) 1) ^ 2 +
        Complex.abs ((![0, 1, 0, 0] : Fin 4 → ℂ) 2) ^ 2 = 1 :=
  (stokes_output_real 1 2 ![0, 1, 0, 0] (fun _ => 0)).2.2.2 (by norm_num)

/-- Counterexample to claim C31 as stated: with `Iinv_pol = 0` and `F = 0` the polarized
intensity of the result is `0 = Iinv_pol` although `|F¹|² + |F²|² = 0 ≠ 1`; with
`Iinv_pol = −1` and `F = (0, 1, 0, 0)` it is `1 ≠ Iinv_pol` although `|F¹|² + |F²|² = 1`. -/
theorem stokes_output_counterexample :
    ((stokes_to_f_tetrad (f_tetrad_to_stokes 0 0 (fun _ => 0)) (fun _ => 0)).Iinv_pol = 0 ∧
      Complex.abs ((fun _ => 0 : Fin 4 → ℂ) 1) ^ 2 +
        Complex.abs ((fun _ => 0 : Fin 4 → ℂ) 2) ^ 2 ≠ 1) ∧
    ((stokes_to_f_tetrad (f_tetrad_to_stokes 0 (-1) ![0, 1, 0, 0]) (fun _ => 0)).Iinv_pol
        ≠ -1 ∧
      Complex.abs ((![0, 1, 0, 0] : Fin 4 → ℂ) 1) ^ 2 +
        Complex.abs ((![0, 1, 0, 0] : Fin 4 → ℂ) 2) ^ 2 = 1) := by
  refine ⟨⟨?_, ?_⟩, ?_, ?_⟩
  · rw [stokes_pol_intensity]
    simp
  · simp
  · rw [stokes_pol_intensity]
    simp
    norm_num
  · simp

/-- Claim C34. `stokes_to_f_tetrad` writes only components 1 and 2 of the tetrad-frame Jones
vector and leaves components 0 and 3 as they were; `stokes_to_f` therefore maps the
components 0 and 3 that the preceding `f_to_f_tetrad` projection (inside `f_to_stokes`) left
in `f_tetrad_u` into the spacetime vector `f_u` through `tetrad_u`. -/
theorem stokes_to_f_keeps_03 (S_A f_tetrad_u f_u : Fin 4 → ℂ)
    (tetrad_u tetrad_d : Fin 4 → Fin 4 → ℝ) (Iinv Iinv_pol : ℝ) :
    (stokes_to_f_tetrad S_A f_tetrad_u).f_tetrad_u 0 = f_tetrad_u 0 ∧
    (stokes_to_f_tetrad S_A f_tetrad_u).f_tetrad_u 3 = f_tetrad_u 3 ∧
    (∀ i, (stokes_to_f f_tetrad_u tetrad_u S_A).2 i =
      tetrad_u i 0 * f_tetrad_u 0 +
        tetrad_u i 1 * (stokes_to_f_tetrad S_A f_tetrad_u).f_tetrad_u 1 +
        tetrad_u i 2 * (stokes_to_f_tetrad S_A f_tetrad_u).f_tetrad_u 2 +
        tetrad_u i 3 * f_tetrad_u 3) ∧
    (f_to_stokes f_u tetrad_d Iinv Iinv_pol).1 = f_to_f_tetrad tetrad_d f_u ∧
    (∀ i, (stokes_to_f (f_to_stokes f_u tetrad_d Iinv Iinv_pol).1 tetrad_u S_A).2 i =
      tetrad_u i 0 * f_to_f_tetrad tetrad_d f_u 0 +
        tetrad_u i 1 *
          (stokes_to_f_tetrad S_A (f_to_f_tetrad tetrad_d f_u)).f_tetrad_u 1 +
        tetrad_u i 2 *
          (stokes_to_f_tetrad S_A (f_to_f_tetrad tetrad_d f_u)).f_tetrad_u 2 +
        tetrad_u i 3 * f_to_f_tetrad tetrad_d f_u 3) := by
  have h0 : ∀ g : Fin 4 → ℂ, (stokes_to_f_tetrad S_A g).f_tetrad_u 0 = g 0 := by
    intro g
    simp [stokes_to_f_tetrad]
  have h3 : ∀ g : Fin 4 → ℂ, (stokes_to_f_tetrad S_A g).f_tetrad_u 3 = g 3 := by
    intro g
    have e1 : (3 : Fin 4) ≠ 1 := by decide
    have e2 : (3 : Fin 4) ≠ 2 := by decide
    simp [stokes_to_f_tetrad, e1, e2]
  have hf : ∀ (g : Fin 4 → ℂ) (i : Fin 4), (stokes_to_f g tetrad_u S_A).2 i =
      tetrad_u i 0 * g 0 + tetrad_u i 1 * (stokes_to_f_tetrad S_A g).f_tetrad_u 1 +
        tetrad_u i 2 * (stokes_to_f_tetrad S_A g).f_tetrad_u 2 + tetrad_u i 3 * g 3 := by
    intro g i
    show f_tetrad_to_f tetrad_u (stokes_to_f_tetrad S_A g).f_tetrad_u i = _
    simp only [f_tetrad_to_f, finRange_four, List.foldl_cons, List.foldl_nil, h0 g, h3 g]
    ring
  exact ⟨h0 f_tetrad_u, h3 f_tetrad_u, hf f_tetrad_u, rfl, hf _⟩

theorem f_parallel_linear (Γ : (Fin 4 → ℝ) → Fin 4 → Fin 4 → Fin 4 → ℝ) (y : Fin 8 → ℝ)
    (F1 F2 : Fin 4 → ℂ) (a b : ℂ) (i : Fin 4) :
    (f_parallel Γ y (fun k => a * F1 k + b * F2 k)).2 i =
      a * (f_parallel Γ y F1).2 i + b * (f_parallel Γ y F2).2 i := by
  rw [f_parallel_sum, f_parallel_sum, f_parallel_sum]
  simp only [Fin.sum_univ_four]
  ring

theorem rk4_stage_f_yshift (Γ : (Fin 4 → ℝ) → Fin 4 → Fin 4 → Fin 4 → ℝ) (y : Fin 8 → ℝ)
    (F : Fin 4 → ℂ) (dt : ℝ) (s : RKFState) (q : Fin 4) :
    (rk4_stage_f Γ y F dt s q).yshift =
      fun i => y i + dt * f_geodesic Γ s.yshift i * rk4_weights q := by
  funext i
  show ((y i : ℂ) + ((if q = q then dt * (f_parallel Γ s.yshift s.f_u_shift).1 i
    else s.dx q i : ℝ) : ℂ) * rk4_weights_f q).re = _
  rw [if_pos rfl, rk4_weights_f_re, f_parallel_fvector]

theorem rk4_stage_f_df (Γ : (Fin 4 → ℝ) → Fin 4 → Fin 4 → Fin 4 → ℝ) (y : Fin 8 → ℝ)
    (F : Fin 4 → ℂ) (dt : ℝ) (s : RKFState) (q q' i : Fin 4) :
    (rk4_stage_f Γ y F dt s q).df q' i =
      if q' = q then (dt : ℂ) * (f_parallel Γ s.yshift s.f_u_shift).2 i else s.df q' i := rfl

theorem rk4_stage_f_shift (Γ : (Fin 4 → ℝ) → Fin 4 → Fin 4 → Fin 4 → ℝ) (y : Fin 8 → ℝ)
    (F : Fin 4 → ℂ) (dt : ℝ) (s : RKFState) (q i : Fin 4) :
    (rk4_stage_f Γ y F dt s q).f_u_shift i =
      F i + (dt : ℂ) * (f_parallel Γ s.yshift s.f_u_shift).2 i * rk4_weights_f q := by
  show F i + (if q = q then (dt : ℂ) * (f_parallel Γ s.yshift s.f_u_shift).2 i
    else s.df q i) * rk4_weights_f q = _
  rw [if_pos rfl]

/-- The stage loop of `rk4_step_f` on `a·F₁ + b·F₂` keeps `df` and `f_u_shift` equal to the
same combination of the runs on `F₁` and `F₂`; `yshift` does not depend on `F`. -/
theorem rk4_fold_f_linear (Γ : (Fin 4 → ℝ) → Fin 4 → Fin 4 → Fin 4 → ℝ) (y : Fin 8 → ℝ)
    (F1 F2 : Fin 4 → ℂ) (a b : ℂ) (dt : ℝ) (l : List (Fin 4)) :
    ∀ s1 s2 s3 : RKFState, s1.yshift = s3.yshift → s2.yshift = s3.yshift →
      (∀ q i, s3.df q i = a * s1.df q i + b * s2.df q i) →
      (s3.f_u_shift = fun i => a * s1.f_u_shift i + b * s2.f_u_shift i) →
      ∀ q i, (l.foldl (rk4_stage_f Γ y (fun k => a * F1 k + b * F2 k) dt) s3).df q i =
        a * (l.foldl (rk4_stage_f Γ y F1 dt) s1).df q i +
          b * (l.foldl (rk4_stage_f Γ y F2 dt) s2).df q i := by
  induction l with
  | nil =>
    intro s1 s2 s3 _ _ h _
    exact h
  | cons p t ih =>
    intro s1 s2 s3 h1 h2 hdf hf
    have hlin : ∀ i, (f_parallel Γ s3.yshift s3.f_u_shift).2 i =
        a * (f_parallel Γ s1.yshift s1.f_u_shift).2 i +
          b * (f_parallel Γ s2.yshift s2.f_u_shift).2 i := by
      intro i
      rw [hf, h1, h2]
      exact f_parallel_linear Γ s3.yshift s1.f_u_shift s2.f_u_shift a b i
    apply ih
    · rw [rk4_stage_f_yshift, rk4_stage_f_yshift, h1]
    · rw [rk4_stage_f_yshift, rk4_stage_f_yshift, h2]
    · intro q i
      rw [rk4_stage_f_df, rk4_stage_f_df, rk4_stage_f_df]
      by_cases hq : q = p
      · rw [if_pos hq, if_pos hq, if_pos hq, hlin]
        ring
      · rw [if_neg hq, if_neg hq, if_neg hq]
        exact hdf q i
    · funext i
      rw [rk4_stage_f_shift, rk4_stage_f_shift, rk4_stage_f_shift, hlin]
      ring

theorem rk4_step_f_combination (Γ : (Fin 4 → ℝ) → Fin 4 → Fin 4 → Fin 4 → ℝ) (y : Fin 8 → ℝ)
    (F1 F2 : Fin 4 → ℂ) (a b : ℂ) (dt : ℝ) :
    (rk4_step_f Γ y (fun k => a * F1 k + b * F2 k) dt).2 =
      fun i => a * (rk4_step_f Γ y F1 dt).2 i + b * (rk4_step_f Γ y F2 dt).2 i := by
  have h := rk4_fold_f_linear Γ y F1 F2 a b dt (List.finRange 4)
    ⟨fun _ _ => 0, fun _ _ => 0, y, F1⟩ ⟨fun _ _ => 0, fun _ _ => 0, y, F2⟩
    ⟨fun _ _ => 0, fun _ _ => 0, y, fun k => a * F1 k + b * F2 k⟩ rfl rfl
    (fun _ _ => by simp) rfl
  unfold rk4_step_f
  simp only []
  funext i
  rw [h 0 i, h 1 i, h 2 i, h 3 i]
  ring

theorem f_parallel_flat (y : Fin 8 → ℝ) (F : Fin 4 → ℂ) (i : Fin 4) :
    (f_parallel (fun _ _ _ _ => 0) y F).2 i = 0 := by
  rw [f_parallel_sum]
  simp

theorem rk4_fold_f_flat (y : Fin 8 → ℝ) (F : Fin 4 → ℂ) (dt : ℝ) (l : List (Fin 4)) :
    ∀ s : RKFState, (∀ q i, s.df q i = 0) →
      ∀ q i, (l.foldl (rk4_stage_f (fun _ _ _ _ => 0) y F dt) s).df q i = 0 := by
  induction l with
  | nil =>
    intro s h
    exact h
  | cons p t ih =>
    intro s h
    apply ih
    intro q i
    rw [rk4_stage_f_df]
    by_cases hq : q = p
    · rw [if_pos hq, f_parallel_flat, mul_zero]
    · rw [if_neg hq]
      exact h q i

/-- Claim C32. Parallel transport is linear in the polarization vector: for every connection,
state `y` and step `dt`, the map `F ↦ F'` computed by `rk4_step_f` is complex-linear,
`F'(a·F₁ + b·F₂) = a·F'(F₁) + b·F'(F₂)`; an all-zero `F` stays all zero, and with `Γ = 0`
every `F` is left unchanged. -/
theorem rk4_step_f_linear (Γ : (Fin 4 → ℝ) → Fin 4 → Fin 4 → Fin 4 → ℝ) (y : Fin 8 → ℝ)
    (F1 F2 : Fin 4 → ℂ) (a b : ℂ) (dt : ℝ) :
    (rk4_step_f Γ y (fun k => a * F1 k + b * F2 k) dt).2 =
      (fun i => a * (rk4_step_f Γ y F1 dt).2 i + b * (rk4_step_f Γ y F2 dt).2 i) ∧
    (rk4_step_f Γ y (fun _ => 0) dt).2 = (fun _ => 0) ∧
    (rk4_step_f (fun _ _ _ _ => 0) y F1 dt).2 = F1 := by
  refine ⟨rk4_step_f_combination Γ y F1 F2 a b dt, ?_, ?_⟩
  · have h := rk4_step_f_combination Γ y (fun _ => 0) (fun _ => 0) 0 0 dt
    have e : (fun k : Fin 4 => (0 : ℂ) * (fun _ => (0 : ℂ)) k + 0 * (fun _ => (0 : ℂ)) k) =
        fun _ => 0 := by
      funext k
      simp
    rw [e] at h
    rw [h]
    funext i
    simp
  · have h := rk4_fold_f_flat y F1 dt (List.finRange 4)
      ⟨fun _ _ => 0, fun _ _ => 0, y, F1⟩ (fun _ _ => rfl)
    unfold rk4_step_f
    simp only []
    funext i
    rw [h 0 i, h 1 i, h 2 i, h 3 i]
    simp

theorem fdiv_zero (a : ℝ) : fdiv a 0 = none := by
  unfold fdiv
  rw [if_pos rfl]

theorem fdiv_ne (a b : ℝ) (h : b ≠ 0) : fdiv a b = some (a / b) := by
  unfold fdiv
  rw [if_neg h]

/-- With non-zero `u11`, `u22`, `u33` the checked factorisation is the unchecked one. -/
theorem trapezoid_lu_checked_some (rQ rV aI aQ aV dl_current C : ℝ)
    (h11 : (trapezoid_lu rQ rV aI aQ aV dl_current C).u11 ≠ 0)
    (h22 : (trapezoid_lu rQ rV aI aQ aV dl_current C).u22 ≠ 0)
    (h33 : (trapezoid_lu rQ rV aI aQ aV dl_current C).u33 ≠ 0) :
    trapezoid_lu_checked rQ rV aI aQ aV dl_current C =
      some (trapezoid_lu rQ rV aI aQ aV dl_current C) := by
  unfold trapezoid_lu at h11 h22 h33 ⊢
  unfold trapezoid_lu_checked
  simp only [] at h11 h22 h33 ⊢
  simp only [fun a => fdiv_ne a _ h11, fun a => fdiv_ne a _ h22, fun a => fdiv_ne a _ h33,
    Option.some_bind]

theorem trapezoid_lu_checked_none (rQ rV aI aQ aV dl_current C : ℝ)
    (h : (trapezoid_lu rQ rV aI aQ aV dl_current C).u11 = 0 ∨
      (trapezoid_lu rQ rV aI aQ aV dl_current C).u22 = 0 ∨
      (trapezoid_lu rQ rV aI aQ aV dl_current C).u33 = 0) :
    trapezoid_lu_checked rQ rV aI aQ aV dl_current C = none := by
  unfold trapezoid_lu at h
  unfold trapezoid_lu_checked
  simp only [] at h ⊢
  by_cases h11 : 1 + 0.5 * dl_current * C * aI = 0
  · rw [h11, fdiv_zero]
    rfl
  · simp only [fun a => fdiv_ne a _ h11, Option.some_bind]
    by_cases h22 : 1 + 0.5 * dl_current * C * aI -
        0.5 * dl_current * C * aQ / (1 + 0.5 * dl_current * C * aI) *
          (0.5 * dl_current * C * aQ) = 0
    · rw [h22, fdiv_zero]
      rfl
    · simp only [fun a => fdiv_ne a _ h22, Option.some_bind]
      rcases h with h | h | h
      · exact absurd h h11
      · exact absurd h h22
      · rw [h, fdiv_zero]
        rfl

theorem lu_solve_checked_some (m : LUEntries) (b : Fin 4 → ℝ)
    (h11 : m.u11 ≠ 0) (h22 : m.u22 ≠ 0) (h33 : m.u33 ≠ 0) (h44 : m.u44 ≠ 0) :
    lu_solve_checked m b = some (lu_solve m b) := by
  unfold lu_solve_checked lu_solve
  simp only [fun a => fdiv_ne a _ h11, fun a => fdiv_ne a _ h22, fun a => fdiv_ne a _ h33,
    fun a => fdiv_ne a _ h44, Option.some_bind]

theorem lu_solve_checked_none (m : LUEntries) (b : Fin 4 → ℝ)
    (h : m.u11 = 0 ∨ m.u22 = 0 ∨ m.u33 = 0 ∨ m.u44 = 0) : lu_solve_checked m b = none := by
  unfold lu_solve_checked
  simp only []
  by_cases h44 : m.u44 = 0
  · rw [h44, fdiv_zero]
    rfl
  · simp only [fun a => fdiv_ne a _ h44, Option.some_bind]
    by_cases h33 : m.u33 = 0
    · rw [h33, fdiv_zero]
      rfl
    · simp only [fun a => fdiv_ne a _ h33, Option.some_bind]
      by_cases h22 : m.u22 = 0
      · rw [h22, fdiv_zero]
        rfl
      · simp only [fun a => fdiv_ne a _ h22, Option.some_bind]
        rcases h with h | h | h | h
        · rw [h, fdiv_zero]
          rfl
        · exact absurd h h22
        · exact absurd h h33
        · exact absurd h h44

/-- With four non-zero pivots no division by zero occurs and the checked step is the
unchecked one. -/
theorem trapezoid_step_checked_some (jI jQ jU jV rQ rU rV aI aQ aU aV dl_current C : ℝ)
    (S_A : Fin 4 → ℂ)
    (h11 : (trapezoid_lu rQ rV aI aQ aV dl_current C).u11 ≠ 0)
    (h22 : (trapezoid_lu rQ rV aI aQ aV dl_current C).u22 ≠ 0)
    (h33 : (trapezoid_lu rQ rV aI aQ aV dl_current C).u33 ≠ 0)
    (h44 : (trapezoid_lu rQ rV aI aQ aV dl_current C).u44 ≠ 0) :
    pol_rte_trapezoid_step_checked jI jQ jU jV rQ rU rV aI aQ aU aV dl_current C S_A =
      some (pol_rte_trapezoid_step jI jQ jU jV rQ rU rV aI aQ aU aV dl_current C S_A) := by
  unfold pol_rte_trapezoid_step_checked
  rw [trapezoid_lu_checked_some rQ rV aI aQ aV dl_current C h11 h22 h33, Option.some_bind,
    lu_solve_checked_some _ _ h11 h22 h33 h44, Option.some_bind]
  rfl

/-- With a zero pivot a division by zero occurs. -/
theorem trapezoid_step_checked_none (jI jQ jU jV rQ rU rV aI aQ aU aV dl_current C : ℝ)
    (S_A : Fin 4 → ℂ)
    (h : (trapezoid_lu rQ rV aI aQ aV dl_current C).u11 = 0 ∨
      (trapezoid_lu rQ rV aI aQ aV dl_current C).u22 = 0 ∨
      (trapezoid_lu rQ rV aI aQ aV dl_current C).u33 = 0 ∨
      (trapezoid_lu rQ rV aI aQ aV dl_current C).u44 = 0) :
    pol_rte_trapezoid_step_checked jI jQ jU jV rQ rU rV aI aQ aU aV dl_current C S_A = none := by
  unfold pol_rte_trapezoid_step_checked
  by_cases h3 : (trapezoid_lu rQ rV aI aQ aV dl_current C).u11 = 0 ∨
      (trapezoid_lu rQ rV aI aQ aV dl_current C).u22 = 0 ∨
      (trapezoid_lu rQ rV aI aQ aV dl_current C).u33 = 0
  · rw [trapezoid_lu_checked_none rQ rV aI aQ aV dl_current C h3]
    rfl
  · push_neg at h3
    obtain ⟨h11, h22, h33⟩ := h3
    rw [trapezoid_lu_checked_some rQ rV aI aQ aV dl_current C h11 h22 h33, Option.some_bind,
      lu_solve_checked_none _ _ h]
    rfl

/-- Claim C11, amended. Singular implicit step: `pol_rte_trapezoid_step` tests no pivot and
enforces no floor.  For every input, whenever a pivot (`u11`, `u22`, `u33` or `u44`) equals
zero the step divides by zero and `S_A` is not left unchanged: the value stored is a quotient
by zero, which is no finite number.  When all four pivots are non-zero no division by zero
occurs and `S_A` is overwritten with the real vector that forward and back substitution
gives for the right-hand side `b`; then (`a_U = ρ_U = 0`, `S_A` real) `S_A` is left
unchanged exactly when `Δl·C·(K·S_A − j) = 0`. -/
theorem trapezoid_step_no_pivot_guard
    (jI jQ jU jV rQ rU rV aI aQ aU aV dl_current C : ℝ) (S_A : Fin 4 → ℂ) (S : Fin 4 → ℝ) :
    (((trapezoid_lu rQ rV aI aQ aV dl_current C).u11 = 0 ∨
        (trapezoid_lu rQ rV aI aQ aV dl_current C).u22 = 0 ∨
        (trapezoid_lu rQ rV aI aQ aV dl_current C).u33 = 0 ∨
        (trapezoid_lu rQ rV aI aQ aV dl_current C).u44 = 0) →
      pol_rte_trapezoid_step_checked jI jQ jU jV rQ rU rV aI aQ aU aV dl_current C S_A = none ∧
      pol_rte_trapezoid_step_checked jI jQ jU jV rQ rU rV aI aQ aU aV dl_current C S_A ≠
        some S_A) ∧
    (((trapezoid_lu rQ rV aI aQ aV dl_current C).u11 ≠ 0 ∧
        (trapezoid_lu rQ rV aI aQ aV dl_current C).u22 ≠ 0 ∧
        (trapezoid_lu rQ rV aI aQ aV dl_current C).u33 ≠ 0 ∧
        (trapezoid_lu rQ rV aI aQ aV dl_current C).u44 ≠ 0) →
      pol_rte_trapezoid_step_checked jI jQ jU jV rQ rU rV aI aQ aU aV dl_current C S_A =
        some (toC (lu_solve (trapezoid_lu rQ rV aI aQ aV dl_current C)
          (trapezoid_b jI jQ jU jV rQ rV aI aQ aV dl_current C S_A))) ∧
      (pol_rte_trapezoid_step_checked jI jQ jU jV rQ 0 rV aI aQ 0 aV dl_current C (toC S) =
          some (toC S) ↔
        (dl_current * C) • ((Kmat rQ 0 rV aI aQ 0 aV).mulVec S - ![jI, jQ, jU, jV]) = 0)) := by
  constructor
  · intro h
    have hn := trapezoid_step_checked_none jI jQ jU jV rQ rU rV aI aQ aU aV dl_current C S_A h
    refine ⟨hn, ?_⟩
    rw [hn]
    exact Option.noConfusion
  · rintro ⟨h11, h22, h33, h44⟩
    constructor
    · rw [trapezoid_step_checked_some jI jQ jU jV rQ rU rV aI aQ aU aV dl_current C S_A
        h11 h22 h33 h44, trapezoid_step_real]
    · rw [trapezoid_step_checked_some jI jQ jU jV rQ 0 rV aI aQ 0 aV dl_current C (toC S)
        h11 h22 h33 h44,
        ← trapezoid_step_fixed_point_iff jI jQ jU jV rQ rV aI aQ aV dl_current C S
          h11 h22 h33 h44]
      constructor
      · intro h
        exact Option.some.inj h
      · intro h
        rw [h]

/-- Witness for claim C11 (amended).  Singular case: `a_I = −2`, `Δl = C = 1`, where
`u11 = 0`.  Regular case: `a_I = 2`, `a_Q = a_V = ρ_Q = ρ_V = 1`, `Δl = C = 1`,
`j = (1, 0, 0, 0)`, `S = (1, 2, 3, 4)`, where the four pivots are non-zero. -/
theorem trapezoid_step_no_pivot_guard_witness :
    (pol_rte_trapezoid_step_checked 0 0 0 0 0 0 0 (-2) 0 0 0 1 1 (toC ![1, 0, 0, 0]) = none ∧
      pol_rte_trapezoid_step_checked 0 0 0 0 0 0 0 (-2) 0 0 0 1 1 (toC ![1, 0, 0, 0]) ≠
        some (toC ![1, 0, 0, 0])) ∧
    (pol_rte_trapezoid_step_checked 1 0 0 0 1 0 1 2 1 0 1 1 1 (toC ![1, 2, 3, 4]) =
        some (toC (lu_solve (trapezoid_lu 1 1 2 1 1 1 1)
          (trapezoid_b 1 0 0 0 1 1 2 1 1 1 1 (toC ![1, 2, 3, 4])))) ∧
      (pol_rte_trapezoid_step_checked 1 0 0 0 1 0 1 2 1 0 1 1 1 (toC ![1, 2, 3, 4]) =
          some (toC ![1, 2, 3, 4]) ↔
        ((1 : ℝ) * 1) • ((Kmat 1 0 1 2 1 0 1).mulVec ![1, 2, 3, 4] - ![1, 0, 0, 0]) = 0)) :=
  ⟨(trapezoid_step_no_pivot_guard 0 0 0 0 0 0 0 (-2) 0 0 0 1 1 (toC ![1, 0, 0, 0])
      ![1, 0, 0, 0]).1 (Or.inl (by norm_num [trapezoid_lu])),
    (trapezoid_step_no_pivot_guard 1 0 0 0 1 0 1 2 1 0 1 1 1 (toC ![1, 2, 3, 4])
      ![1, 2, 3, 4]).2
      ⟨by norm_num [trapezoid_lu], by norm_num [trapezoid_lu], by norm_num [trapezoid_lu],
        by norm_num [trapezoid_lu]⟩⟩

/-- Counterexample to claim C11 as stated: `a_I = −2`, `Δl = C = 1`, every other coefficient
zero, `S_A = (1, 0, 0, 0)`.  The pivot `u11 = 1 + 0.5·1·1·(−2)` is zero; the function has no
branch on the pivots, so it goes on to divide by `u11` (`l21`, `l41` and `x1`) and the step
does not return `S_A` unchanged: the checked step is `none`, the value assigned to `S_A[0]`
being a quotient by zero. -/
theorem trapezoid_step_singular_counterexample :
    (trapezoid_lu 0 0 (-2) 0 0 1 1).u11 = 0 ∧
      trapezoid_lu_checked 0 0 (-2) 0 0 1 1 = none ∧
      pol_rte_trapezoid_step_checked 0 0 0 0 0 0 0 (-2) 0 0 0 1 1 (toC ![1, 0, 0, 0]) = none ∧
      pol_rte_trapezoid_step_checked 0 0 0 0 0 0 0 (-2) 0 0 0 1 1 (toC ![1, 0, 0, 0]) ≠
        some (toC ![1, 0, 0, 0]) := by
  have h : (trapezoid_lu 0 0 (-2) 0 0 1 1).u11 = 0 := by
    norm_num [trapezoid_lu]
  have hn := trapezoid_step_checked_none 0 0 0 0 0 0 0 (-2) 0 0 0 1 1 (toC ![1, 0, 0, 0])
    (Or.inl h)
  refine ⟨h, trapezoid_lu_checked_none 0 0 (-2) 0 0 1 1 (Or.inl h), hn, ?_⟩
  rw [hn]
  exact Option.noConfusion

end TransferTheorems

end Raptor
